import Mathlib

/-!
Multi-process hub game: hub (coordinator) and player engine

A shallow embedding of `hub.c`, `player.c`, `alice.c`, `bob.c` and the C
library routines they call (`sscanf`, `strtol`, `printf`), followed by theorems
about trick resolution, play validation, dealing, scoring, the card codec, the
messages of the player engine and the card selection policies.

Conventions of the embedding

* A C string is a `List Char` holding the characters before the terminating
  NUL.  A `FILE*` that the hub reads from is the list of newline-terminated
  lines still to be read (`get_play` treats an unterminated last line like an
  empty stream: `feof` is set and the hub exits); a `FILE*` opened for writing
  is the list of lines written so far, oldest first.
* `int` values that the program keeps inside a small range (counts, seats,
  points) are `Nat` or `Int` without wrap-around; values produced by the C
  library conversions are reduced explicitly (`% 2 ^ 64`, `% 2 ^ 32`) for an
  LP64 target.
* `exit` is modelled by the `error` alternative of `Except`, which carries the
  exit status and the state of the game at the moment of the exit.
* An array is a `List`; reading outside the list yields a fixed junk value and
  writing outside it does nothing (both are undefined behaviour in C and the
  theorems below never rely on them).
-/

/-- A line of text without its terminating newline. -/
abbrev Line := List Char

/-- Stores a card (`typedef struct { char suit; int rank; } Card`); rank is
`-1` for an invalid card. -/
structure Card where
  suit : Char
  rank : Int
deriving DecidableEq, Inhabited

/-- The macro `INVALID`. -/
def INVALID : Int := -1

/-- The macro `MIN_RANK`. -/
def MIN_RANK : Int := 0

/-- The macro `MAX_RANK`. -/
def MAX_RANK : Int := 15

/-- The suit test of the parsers, `suit == 'D' || suit == 'C' || suit == 'H' ||
suit == 'S'` (the player engine writes the same four comparisons in the order
D, H, S, C). -/
def isSuit (c : Char) : Bool :=
  c == 'D' || c == 'C' || c == 'H' || c == 'S'

namespace Libc

/-- The C locale `isspace`. -/
def isspace (c : Char) : Bool :=
  c == ' ' || c == '\t' || c == '\n' || c == '\x0b' || c == '\x0c' || c == '\r'

/-- Value of a character as a digit (any base up to 36), as `strtol` reads it. -/
def digitVal (c : Char) : Option Nat :=
  if 48 ≤ c.toNat ∧ c.toNat ≤ 57 then some (c.toNat - 48)
  else if 97 ≤ c.toNat ∧ c.toNat ≤ 122 then some (c.toNat - 97 + 10)
  else if 65 ≤ c.toNat ∧ c.toNat ≤ 90 then some (c.toNat - 65 + 10)
  else none

/-- Value of a character as a digit of the given base, if it is one. -/
def digitIn (base : Nat) (c : Char) : Option Nat :=
  match digitVal c with
  | some d => if d < base then some d else none
  | none => none

/-- Skip leading white space. -/
def skipSpace : List Char → List Char
  | [] => []
  | c :: cs => if isspace c then skipSpace cs else c :: cs

/-- Read the longest run of digits of the given base: the value read so far,
the number of digits read, and the rest of the string. -/
def scanDigits (base : Nat) : List Char → Nat → Nat → Nat × Nat × List Char
  | [], acc, n => (acc, n, [])
  | c :: cs, acc, n =>
    match digitIn base c with
    | some d => scanDigits base cs (acc * base + d) (n + 1)
    | none => (acc, n, c :: cs)

/-- Optional sign: whether it is a minus, and the rest. -/
def scanSign : List Char → Bool × List Char
  | '-' :: cs => (true, cs)
  | '+' :: cs => (false, cs)
  | cs => (false, cs)

/-- Whether the string starts with `0x` or `0X`. -/
def startsWith0x : List Char → Bool
  | '0' :: x :: _ => x == 'x' || x == 'X'
  | _ => false

/-- Whether the string starts with `0x`/`0X` followed by a hexadecimal digit:
only then does `strtol` with base 16 skip the prefix. -/
def startsWith0xDigit : List Char → Bool
  | '0' :: x :: h :: _ => (x == 'x' || x == 'X') && (digitIn 16 h).isSome
  | _ => false

/-- Result of `strtol(s, &end, base)` for base 10 or 16 as a `long`: the value
(clamped to `LONG_MIN .. LONG_MAX`) and the string `end` points to.  When no
digit can be read the value is 0 and `end` is the whole of `s`. -/
def strtol (s : List Char) (base : Nat) : Int × List Char :=
  let s1 := skipSpace s
  let (neg, s2) := scanSign s1
  let s3 := if base = 16 ∧ startsWith0xDigit s2 then s2.drop 2 else s2
  let (v, n, rest) := scanDigits base s3 0 0
  if n = 0 then (0, s)
  else
    let x : Int := if neg then -(v : Int) else (v : Int)
    (max (-(2 : Int) ^ 63) (min x ((2 : Int) ^ 63 - 1)), rest)

/-- Conversion of a `long` to `int` on assignment (`int x = strtol(...)`): the
value is reduced modulo `2 ^ 32` into the range of `int`. -/
def toInt32 (x : Int) : Int :=
  (x + 2 ^ 31) % 2 ^ 32 - 2 ^ 31

/-- Conversion of an `int` to `unsigned int` (the usual arithmetic conversion
applied when an `int` is compared with an `unsigned int`, and the way `%x`
reads its argument). -/
def toUInt32 (x : Int) : Nat :=
  (x % 2 ^ 32).toNat

/-- The C remainder `a % b` on `int` (truncating division). -/
def crem (a b : Int) : Int :=
  Int.tmod a b

/-- The digit characters that `printf` uses for `%d` and `%x`. -/
def digitChar (d : Nat) : Char :=
  if d < 10 then Char.ofNat (48 + d) else Char.ofNat (87 + d)

/-- Digits of `n` in the given base, most significant first, before `acc`. -/
def fmtNatAux (base : Nat) : Nat → Nat → List Char → List Char
  | 0, _, acc => acc
  | fuel + 1, n, acc =>
    if n < base then digitChar n :: acc
    else fmtNatAux base fuel (n / base) (digitChar (n % base) :: acc)

/-- Digits of an unsigned number in the given base. -/
def fmtNat (base : Nat) (n : Nat) : List Char :=
  fmtNatAux base (n + 1) n []

/-- Text printed by `printf("%d", x)`. -/
def fmt_d (x : Int) : List Char :=
  if x < 0 then '-' :: fmtNat 10 x.natAbs else fmtNat 10 x.natAbs

/-- Text printed by `printf("%x", x)` for an `int` argument, which `%x` reads
as `unsigned int`. -/
def fmt_x (x : Int) : List Char :=
  fmtNat 16 (toUInt32 x)

/-- Outcome of `sscanf(message, "PLAY%c%x%c", &suit, &rank, &end)`: the return
value and the two variables the caller reads.  A variable that is not assigned
keeps the placeholder given here; the caller reads neither unless the return
value is 2. -/
structure ScanPlay where
  count : Int
  suit : Char
  rank : Nat
deriving DecidableEq

/-- The conversion `%x` of `sscanf` storing into an `unsigned int`: white space
is skipped, then an optional sign, an optional `0x`/`0X` and hexadecimal digits
are read.  `none` is a failure (no digit; a bare `0x` prefix is a matching
failure as in ISO C 7.21.6.2).  The value is the one `strtoul` gives
(`ULONG_MAX` on overflow, negation modulo `2 ^ 64`), reduced modulo `2 ^ 32` by
the store into `unsigned int`. -/
def scanHex (s : List Char) : Option (Nat × List Char) :=
  let s1 := skipSpace s
  let (neg, s2) := scanSign s1
  let s3 := if startsWith0x s2 then s2.drop 2 else s2
  let (v, n, rest) := scanDigits 16 s3 0 0
  if n = 0 then none
  else
    let u : Nat :=
      if 2 ^ 64 ≤ v then 2 ^ 64 - 1
      else if neg then (2 ^ 64 - v) % 2 ^ 64 else v
    some (u % 2 ^ 32, rest)

/-- The call `sscanf(message, "PLAY%c%x%c", &suit, &rank, &end)`. -/
def sscanf_PLAY (message : List Char) : ScanPlay :=
  match message with
  | 'P' :: 'L' :: 'A' :: 'Y' :: rest =>
    match rest with
    | [] => ⟨-1, '\x00', 0⟩
    | suit :: rest1 =>
      match scanHex rest1 with
      | none => ⟨1, suit, 0⟩
      | some (rank, rest2) =>
        match rest2 with
        | [] => ⟨2, suit, rank⟩
        | _ :: _ => ⟨3, suit, rank⟩
  | 'P' :: 'L' :: 'A' :: [] => ⟨-1, '\x00', 0⟩
  | 'P' :: 'L' :: [] => ⟨-1, '\x00', 0⟩
  | 'P' :: [] => ⟨-1, '\x00', 0⟩
  | [] => ⟨-1, '\x00', 0⟩
  | _ => ⟨0, '\x00', 0⟩

end Libc

/-- The text that the format fragment `%c%x` prints for a card; it occurs in
the player's `PLAY%c%x`, the hub's `PLAYED%d,%c%x` and the hub's `,%c%x`. -/
def fmt_card (c : Card) : List Char :=
  c.suit :: Libc.fmt_x c.rank

namespace Hub

/-- Enum for all hub exit statuses. -/
inductive ExitStatus
  | NORMAL
  | USAGE
  | INV_THRESHOLD
  | DECK_ERROR
  | INSUFF_CARDS
  | PLAYER_ERROR
  | PLAYER_EOF
  | INV_MESSAGE
  | INV_CARD_CHOICE
  | SIGNAL_RECEIVED
deriving DecidableEq

/-- Numeric value of an exit status. -/
def ExitStatus.code : ExitStatus → Nat
  | .NORMAL => 0
  | .USAGE => 1
  | .INV_THRESHOLD => 2
  | .DECK_ERROR => 3
  | .INSUFF_CARDS => 4
  | .PLAYER_ERROR => 5
  | .PLAYER_EOF => 6
  | .INV_MESSAGE => 7
  | .INV_CARD_CHOICE => 8
  | .SIGNAL_RECEIVED => 9

/-- Properties associated with each player (the process id is left out). -/
structure Player where
  points : Int
  dWon : Int
  read : List Line
  write : List Line
  hand : List Card
deriving DecidableEq, Inhabited

/-- Main game state, stores all players; `stdout` is the text the hub has
printed on its standard output. -/
structure Game where
  numPlayers : Nat
  players : List Player
  deckSize : Nat
  deck : List Card
  threshold : Int
  leadPlayer : Nat
  handSize : Nat
  round : List Card
  stdout : List Char
deriving DecidableEq

/-- Outcome of a hub routine: a value, or the exit status with the game state
at the moment of `exit`. -/
abbrev Run (α : Type) := Except (ExitStatus × Game) α

/-- The routine `quit_game`: exit with the given status. -/
def quit_game {α : Type} (status : ExitStatus) (game : Game) : Run α :=
  .error (status, game)

/-- The expression `game->players[i]`. -/
def Game.player (game : Game) (i : Nat) : Player :=
  game.players.getD i default

/-- An assignment to fields of `game->players[i]`. -/
def Game.updPlayer (game : Game) (i : Nat) (f : Player → Player) : Game :=
  { game with players := game.players.set i (f (game.player i)) }

/-- The assignment `game->round[i] = card`. -/
def Game.setRound (game : Game) (i : Nat) (card : Card) : Game :=
  { game with round := game.round.set i card }

/-- The two assignments that remove a card from a hand:
`hand[cardIndex].suit = 'z'; hand[cardIndex].rank = INVALID`. -/
def Game.markPlayed (game : Game) (player cardIndex : Nat) : Game :=
  game.updPlayer player (fun p => { p with hand := p.hand.set cardIndex ⟨'z', INVALID⟩ })

/-- The statement `game->players[winner].points++`. -/
def Game.addPoint (game : Game) (winner : Nat) : Game :=
  game.updPlayer winner (fun p => { p with points := p.points + 1 })

/-- The statement `game->players[winner].dWon++`. -/
def Game.addDWon (game : Game) (winner : Nat) : Game :=
  game.updPlayer winner (fun p => { p with dWon := p.dWon + 1 })

/-- One complete line written to `game->players[j].write`. -/
def send (game : Game) (j : Nat) (line : Line) : Game :=
  game.updPlayer j (fun p => { p with write := p.write ++ [line] })

/-- Text appended to the standard output. -/
def print (game : Game) (text : List Char) : Game :=
  { game with stdout := game.stdout ++ text }

/-- The routine `setup_game`; `junk` stands for the contents of the memory that
`malloc` returns for the hands and for the trick buffer. -/
def setup_game (threshold : Int) (deckSize : Nat) (deck : List Card)
    (numPlayers : Nat) (junk : Card) : Game :=
  { numPlayers := numPlayers
    players := List.replicate numPlayers
      { points := 0, dWon := 0, read := [], write := [],
        hand := List.replicate (deckSize / numPlayers) junk }
    deckSize := deckSize
    deck := deck
    threshold := threshold
    leadPlayer := 0
    handSize := deckSize / numPlayers
    round := List.replicate numPlayers junk
    stdout := [] }

/-- The effect of `start_players` when every child starts and sends its
handshake byte: player `i` is connected to the lines `peers[i]` that the child
writes after the handshake, and nothing has been written to it yet. -/
def start_players (game : Game) (peers : List (List Line)) : Game :=
  (List.range game.numPlayers).foldl
    (fun g i => g.updPlayer i (fun p => { p with read := peers.getD i [], write := [] }))
    game

/-- The loop of `get_play` over the hand: `hasLead` and `cardIndex` after the
slots `0 .. handSize - 1` have been examined. -/
def get_play_scan (hand : List Card) (handSize : Nat) (leadSuit suit : Char)
    (rank : Nat) : Bool × Int :=
  (List.range handSize).foldl
    (fun st i =>
      let c := hand.getD i default
      (if c.suit = leadSuit then true else st.1,
       if c.suit = suit ∧ Libc.toUInt32 c.rank = rank then (i : Int) else st.2))
    (false, INVALID)

/-- A hand slot that `play_hand` has marked as played: suit `z`, rank
`INVALID`. -/
def played (c : Card) : Prop :=
  c = ⟨'z', INVALID⟩

instance (c : Card) : Decidable (played c) := by
  unfold played
  infer_instance

/-- The data model of a hand slot: a card with a suit in D, C, H, S and a rank
in `MIN_RANK .. MAX_RANK`, or the mark of a played card. -/
def slot_ok (c : Card) : Prop :=
  (isSuit c.suit = true ∧ MIN_RANK ≤ c.rank ∧ c.rank ≤ MAX_RANK) ∨ played c

instance (c : Card) : Decidable (slot_ok c) := by
  unfold slot_ok
  infer_instance

/-- The second half of `get_play`, from `char leadSuit = game->round[0].suit`
on: look the named card up in the hand of the player and check that the choice
follows the rules. -/
def get_play_check (game : Game) (player : Nat) (suit : Char) (rank : Nat) :
    Run (Game × Nat) :=
  let leadSuit := (game.round.getD 0 default).suit
  let hand := (game.player player).hand
  let st := get_play_scan hand game.handSize leadSuit suit rank
  if st.2 ≠ INVALID then
    if player = game.leadPlayer then .ok (game, st.2.toNat)
    else if (hand.getD st.2.toNat default).suit = leadSuit then .ok (game, st.2.toNat)
    else if st.1 = false then .ok (game, st.2.toNat)
    else quit_game .INV_CARD_CHOICE game
  else quit_game .INV_CARD_CHOICE game

/-- The routine `get_play`: get a PLAY message from the current player.  The
result is the game (with the line consumed) and the index of the chosen card. -/
def get_play (game : Game) (player : Nat) : Run (Game × Nat) :=
  match (game.player player).read with
  | [] => quit_game .PLAYER_EOF game
  | message :: rest =>
    let game1 := game.updPlayer player (fun p => { p with read := rest })
    let sc := Libc.sscanf_PLAY message
    if sc.count ≠ 2 ∨ sc.rank < Libc.toUInt32 MIN_RANK ∨ sc.rank > Libc.toUInt32 MAX_RANK
        ∨ isSuit sc.suit = false then
      quit_game .INV_MESSAGE game1
    else
      get_play_check game1 player sc.suit sc.rank

/-- The loop of `find_winner`: `winner` and `maxRank` after the positions
`1 .. numPlayers - 1` of the trick buffer have been examined. -/
def find_winner_scan (round : List Card) (numPlayers : Nat) : Nat × Int :=
  (List.range' 1 (numPlayers - 1)).foldl
    (fun st i =>
      let c := round.getD i default
      if c.suit = (round.getD 0 default).suit then
        if c.rank > st.2 then (i, c.rank) else st
      else st)
    (0, (round.getD 0 default).rank)

/-- The routine `find_winner`: determine which player won a round. -/
def find_winner (game : Game) : Nat :=
  ((find_winner_scan game.round game.numPlayers).1 + game.leadPlayer) % game.numPlayers

/-- The line `NEWROUND%d`. -/
def newround_line (leadPlayer : Nat) : Line :=
  "NEWROUND".toList ++ Libc.fmt_d leadPlayer

/-- The line `PLAYED%d,%c%x`. -/
def played_line (currentPlayer : Nat) (card : Card) : Line :=
  "PLAYED".toList ++ Libc.fmt_d currentPlayer ++ ',' :: fmt_card card

/-- One iteration of the middle loop of `play_hand`: read the play of the
player at position `i` of the trick, store it, tell the other players, and
remove the card from the hand. -/
def play_card (game : Game) (i : Nat) : Run Game :=
  let currentPlayer := (game.leadPlayer + i) % game.numPlayers
  match get_play game currentPlayer with
  | .error e => .error e
  | .ok (game1, cardIndex) =>
    let game2 := game1.setRound i ((game1.player currentPlayer).hand.getD cardIndex default)
    let game3 := (List.range game2.numPlayers).foldl
      (fun g j =>
        if j ≠ currentPlayer then send g j (played_line currentPlayer (g.round.getD i default))
        else g)
      game2
    .ok (game3.markPlayed currentPlayer cardIndex)

/-- The middle loop of `play_hand` over the given trick positions. -/
def play_cards : List Nat → Game → Run Game
  | [], game => .ok game
  | i :: is, game =>
    match play_card game i with
    | .error e => .error e
    | .ok game1 => play_cards is game1

/-- The text `Cards=...` printed after a trick. -/
def cards_text (game : Game) : List Char :=
  (List.range game.numPlayers).foldl
    (fun out i =>
      out ++ (game.round.getD i default).suit :: '.' :: Libc.fmt_x (game.round.getD i default).rank
        ++ (if i = game.numPlayers - 1 then ['\n'] else [' ']))
    "Cards=".toList

/-- The end of `play_hand`: the winner gets a point, becomes the lead player,
and gets one `dWon` for each card of suit D in the trick buffer. -/
def score_round (game : Game) : Game :=
  let winner := find_winner game
  let game1 := game.addPoint winner
  let game2 : Game := { game1 with leadPlayer := winner }
  (List.range game2.numPlayers).foldl
    (fun g i => if (g.round.getD i default).suit = 'D' then g.addDWon winner else g)
    game2

/-- The routine `play_hand`: play a complete hand (one trick). -/
def play_hand (game : Game) : Run Game :=
  let game1 := (List.range game.numPlayers).foldl
    (fun g i => send g i (newround_line g.leadPlayer)) game
  let game2 := print game1 ("Lead player=".toList ++ Libc.fmt_d game1.leadPlayer ++ ['\n'])
  match play_cards (List.range game2.numPlayers) game2 with
  | .error e => .error e
  | .ok game3 => .ok (score_round (print game3 (cards_text game3)))

/-- The inner loop of the deal for player `i`: the HAND line built so far and
the game, after the cards `0 .. handSize - 1` of the slice have been sent. -/
def deal_cards (game : Game) (i handSize : Nat) : Line × Game :=
  (List.range handSize).foldl
    (fun acc j =>
      let card := acc.2.deck.getD (i * handSize + j) default
      (acc.1 ++ ',' :: fmt_card card,
       acc.2.updPlayer i (fun p => { p with hand := p.hand.set j card })))
    ("HAND".toList ++ Libc.fmt_d handSize, game)

/-- The first loop of `play_game`: send each player their hand. -/
def deal (game : Game) : Game :=
  let handSize := game.deckSize / game.numPlayers
  (List.range game.numPlayers).foldl
    (fun g i =>
      let r := deal_cards g i handSize
      send r.2 i r.1)
    game

/-- The second loop of `play_game`: play `n` hands. -/
def play_hands : Nat → Game → Run Game
  | 0, game => .ok game
  | n + 1, game =>
    match play_hand game with
    | .error e => .error e
    | .ok game1 => play_hands n game1

/-- The score of player `i` as computed in the last loop of `play_game`. -/
def score (game : Game) (i : Nat) : Int :=
  if (game.player i).dWon < game.threshold then
    (game.player i).points - (game.player i).dWon
  else
    (game.player i).points + (game.player i).dWon

/-- The last loop of `play_game`: the text of the final scores. -/
def scores_text (game : Game) : List Char :=
  (List.range game.numPlayers).foldl
    (fun out (i : Nat) =>
      out ++ Libc.fmt_d i ++ ':' :: Libc.fmt_d (score game i)
        ++ (if i = game.numPlayers - 1 then ['\n'] else [' ']))
    []

/-- The routine `play_game`: play entire game. -/
def play_game (game : Game) : Run Game :=
  let handSize := game.deckSize / game.numPlayers
  match play_hands handSize (deal game) with
  | .error e => .error e
  | .ok game1 =>
    let game2 := (List.range game1.numPlayers).foldl
      (fun g i => send g i "GAMEOVER".toList) game1
    .ok (print game2 (scores_text game2))

/-- A concrete start of a game: two players, threshold 2, the deck S0 S1 H2 H3,
player 0 will send `PLAYS0` and `PLAYS1`, player 1 will send `PLAYH2` and
`PLAYH3`. -/
def sample_game : Game :=
  start_players
    (setup_game 2 4 [⟨'S', 0⟩, ⟨'S', 1⟩, ⟨'H', 2⟩, ⟨'H', 3⟩] 2 ⟨'?', 0⟩)
    [["PLAYS0".toList, "PLAYS1".toList], ["PLAYH2".toList, "PLAYH3".toList]]

/-- The game of a routine that has returned, and the game at the exit
otherwise. -/
def Run.game : Run Game → Game
  | .ok game => game
  | .error e => e.2

/-! ### Views of the hub state used in the statements and proofs -/

/-- A player record without the contents of its two streams. -/
def Player.strip (p : Player) : Player :=
  { p with read := [], write := [] }

/-- The game without what has been read and written: the state that the rules
of the game act on. -/
def Game.erase (game : Game) : Game :=
  { game with stdout := [], players := game.players.map Player.strip }

/-- The second game has the sizes, the lead player, the deck, the threshold,
the points and the diamond counts of the first. -/
def sameScores (g1 g2 : Game) : Prop :=
  g2.numPlayers = g1.numPlayers ∧ g2.leadPlayer = g1.leadPlayer ∧ g2.handSize = g1.handSize ∧
  g2.threshold = g1.threshold ∧ g2.deck = g1.deck ∧ g2.deckSize = g1.deckSize ∧
  g2.players.length = g1.players.length ∧ g2.round.length = g1.round.length ∧
  g2.players.map Player.points = g1.players.map Player.points ∧
  g2.players.map Player.dWon = g1.players.map Player.dWon

/-- The record of player `i` once the deal has served it, in closed form: the
slots `0 .. h - 1` of the hand hold the slice of the deck that starts at
`i * h`, and the HAND line has been written. -/
def dealt (deck : List Card) (i h : Nat) (p : Player) : Player :=
  { p with
    hand := (List.range h).foldl (fun hd j => hd.set j (deck.getD (i * h + j) default)) p.hand
    write := p.write ++
      ["HAND".toList ++ Libc.fmt_d h ++
        (List.range h).flatMap (fun j => ',' :: fmt_card (deck.getD (i * h + j) default))] }

/-- The sum of the points of all players. -/
def totalPoints (game : Game) : Int :=
  (game.players.map Player.points).sum

/-- The number of slots among the first `handSize` of the hand of a player that
are marked as played. -/
def playedCount (game : Game) (player : Nat) : Nat :=
  (List.range game.handSize).countP
    (fun i => decide (played ((game.player player).hand.getD i default)))

end Hub

namespace PlayerEngine

/-- Stores all player information and game state (`Game` of `player.h`);
`stdout` holds the lines the player has written to the hub. -/
structure Game where
  numPlayers : Int
  playerID : Int
  threshold : Int
  handSize : Int
  turnsRemaining : Int
  hand : List Card
  leadPlayer : Int
  turn : List Card
  playerPoints : List Int
  dWon : List Int
  playerCount : Int
  stdout : List Line
deriving DecidableEq

/-- The expression `a[i]` for an `int` index. -/
def aget {α : Type} [Inhabited α] (a : List α) (i : Int) : α :=
  if 0 ≤ i then a.getD i.toNat default else default

/-- The assignment `a[i] = x` for an `int` index. -/
def aset {α : Type} (a : List α) (i : Int) (x : α) : List α :=
  if 0 ≤ i then a.set i.toNat x else a

/-- The line `PLAY%c%x` that `play_turn` prints. -/
def play_line (card : Card) : Line :=
  "PLAY".toList ++ fmt_card card

/-- The routine `process_played_message`: the returned flag is `false` if
processing was successful, `true` otherwise.  (When the message ends right
after the comma the C code reads the rank from beyond the terminator; the suit
is then NUL and the message is rejected whatever is read.) -/
def process_played_message (message : List Char) (game : Game) : Bool × Game :=
  let message1 := message.drop 6
  let r := Libc.strtol message1 10
  let playerNumber := Libc.toInt32 r.1
  if playerNumber ≠ Libc.crem (game.playerCount + game.leadPlayer) game.numPlayers
      ∨ r.2.head? ≠ some ',' then
    (true, game)
  else
    let message2 := r.2.drop 1
    let suit := message2.headD '\x00'
    let r2 := Libc.strtol (message2.drop 1) 16
    let rank := Libc.toInt32 r2.1
    if isSuit suit = false ∨ rank < MIN_RANK ∨ rank > MAX_RANK ∨ r2.2 ≠ [] then
      (true, game)
    else
      (false,
        { game with
          turn := aset game.turn playerNumber ⟨suit, rank⟩
          playerCount := game.playerCount + 1 })

/-- The routine `play_turn`, for the card selection policy `choose_card` that
the player program is linked with. -/
def play_turn (choose_card : Game → Int) (game : Game) : Game :=
  let chosenCard := choose_card game
  { game with
    stdout := game.stdout ++ [play_line (aget game.hand chosenCard)]
    turn := aset game.turn game.playerID (aget game.hand chosenCard)
    hand := aset game.hand chosenCard { aget game.hand chosenCard with rank := INVALID }
    playerCount := game.playerCount + 1 }

/-- Local variables of the loop of `find_winner`. -/
structure WinnerScan where
  maxRank : Int
  winnerIndex : Int
  dPlayed : Int
deriving DecidableEq

/-- One iteration of the loop of `find_winner`, for seat `i`. -/
def find_winner_step (game : Game) (st : WinnerScan) (i : Nat) : WinnerScan :=
  let c := game.turn.getD i default
  let st1 : WinnerScan :=
    if c.suit = (aget game.turn game.leadPlayer).suit ∧ c.rank > st.maxRank then
      { st with maxRank := c.rank, winnerIndex := i }
    else st
  if c.suit = 'D' then { st1 with dPlayed := st1.dPlayed + 1 } else st1

/-- The loop of `find_winner` over the seats `0 .. numPlayers - 1`. -/
def find_winner_scan (game : Game) : WinnerScan :=
  (List.range game.numPlayers.toNat).foldl (find_winner_step game)
    { maxRank := (aget game.turn game.leadPlayer).rank
      winnerIndex := game.leadPlayer
      dPlayed := 0 }

/-- The routine `find_winner`: determine which player won a round and give
them points and D cards. -/
def find_winner (game : Game) : Game :=
  let st := find_winner_scan game
  { game with
    playerPoints := aset game.playerPoints st.winnerIndex
      (aget game.playerPoints st.winnerIndex + 1)
    dWon := aset game.dWon st.winnerIndex (aget game.dWon st.winnerIndex + st.dPlayed) }

end PlayerEngine

namespace PlayerEngine

/-- Enum for all player exit statuses. -/
inductive ExitStatus
  | NORMAL
  | USAGE
  | INV_PLAYERS
  | INV_POSITION
  | INV_THRESHOLD
  | INV_HAND
  | INV_MESS
  | END_OF_FILE
deriving DecidableEq

/-- Numeric value of an exit status of the player. -/
def ExitStatus.code : ExitStatus → Nat
  | .NORMAL => 0
  | .USAGE => 1
  | .INV_PLAYERS => 2
  | .INV_POSITION => 3
  | .INV_THRESHOLD => 4
  | .INV_HAND => 5
  | .INV_MESS => 6
  | .END_OF_FILE => 7

/-- Categories of messages from hub. -/
inductive HubMessage
  | HAND
  | NEW_ROUND
  | PLAYED
  | GAME_OVER
  | INVALID_MESSAGE
deriving DecidableEq

/-- The test `strncmp(message, word, strlen(word)) == 0`. -/
def startsWith (word message : List Char) : Bool :=
  word.isPrefixOf message

/-- The routine `categorise_message`: determine the type of message that was
received. -/
def categorise_message (message : List Char) : HubMessage :=
  if startsWith "HAND".toList message then .HAND
  else if startsWith "NEWROUND".toList message then .NEW_ROUND
  else if startsWith "PLAYED".toList message then .PLAYED
  else if startsWith "GAMEOVER".toList message then .GAME_OVER
  else .INVALID_MESSAGE

/-- The loop of `process_hand_message`: `k` cards are still to be read, `i` is
the slot of the next one and `rest` is what `end` points to (a comma comes
first).  The game is modified before the entire message is parsed. -/
def hand_loop (handSize : Int) : Nat → Int → List Char → Game → Bool × Game
  | 0, _, _, game => (false, game)
  | k + 1, i, rest, game =>
    let message := rest.drop 1
    let suit := message.headD '\x00'
    if isSuit suit = false then (true, game)
    else
      let game1 : Game :=
        { game with hand := aset game.hand i { aget game.hand i with suit := suit } }
      let r := Libc.strtol (message.drop 1) 16
      let rank := Libc.toInt32 r.1
      if rank < MIN_RANK ∨ rank > MAX_RANK ∨ (i < handSize - 1 ∧ r.2.head? ≠ some ',')
          ∨ (i = handSize - 1 ∧ r.2 ≠ []) then
        (true, game1)
      else
        hand_loop handSize k (i + 1) r.2
          { game1 with hand := aset game1.hand i { aget game1.hand i with rank := rank } }

/-- The routine `process_hand_message`: the returned flag is `false` if
processing was successful, `true` otherwise. -/
def process_hand_message (message : List Char) (game : Game) : Bool × Game :=
  let r := Libc.strtol (message.drop 4) 10
  let handSize := Libc.toInt32 r.1
  if handSize ≠ game.turnsRemaining ∨ r.2.head? ≠ some ',' then (true, game)
  else hand_loop handSize handSize.toNat 0 r.2 game

/-- The routine `process_new_round_message`: the returned flag is `false` if
processing was successful, `true` otherwise. -/
def process_new_round_message (message : List Char) (game : Game) : Bool × Game :=
  if game.turnsRemaining = 0 then (true, game)
  else
    let r := Libc.strtol (message.drop 8) 10
    let leadPlayer := Libc.toInt32 r.1
    if leadPlayer ≥ game.numPlayers ∨ r.2 ≠ [] then (true, game)
    else (false, { game with leadPlayer := leadPlayer, playerCount := 0 })

/-- The routine `process_game_over_message`: the returned flag is `false` if
processing was successful, `true` otherwise. -/
def process_game_over_message (message : List Char) (game : Game) : Bool × Game :=
  if message.drop 8 ≠ [] then (true, game) else (false, game)

/-- The routine `end_of_round` (its diagnostic output on the standard error
stream is left out): the trick is resolved and one turn fewer remains. -/
def end_of_round (game : Game) : Game :=
  let game1 := find_winner game
  { game1 with turnsRemaining := game1.turnsRemaining - 1 }

/-- The routine `setup_game`; `junk` and `junkCount` stand for what the
uninitialised parts of the state hold (the suits of the hand, the trick array
and `playerCount`). -/
def setup_game (numPlayers playerID threshold handSize : Int) (junk : Card)
    (junkCount : Int) : Game :=
  { numPlayers := numPlayers
    playerID := playerID
    threshold := threshold
    handSize := handSize
    turnsRemaining := handSize
    hand := List.replicate handSize.toNat ⟨junk.suit, INVALID⟩
    leadPlayer := -1
    turn := List.replicate numPlayers.toNat junk
    playerPoints := List.replicate numPlayers.toNat 0
    dWon := List.replicate numPlayers.toNat 0
    playerCount := junkCount
    stdout := [] }

/-- Outcome of one round of the main loop of `play_game`: the flag `gameOver`
and the game, or the exit status with the game at the moment of `exit`. -/
abbrev Step := Except (ExitStatus × Game) (Bool × Game)

/-- The body of the main loop of `play_game` for one message read from the
hub. -/
def handle_message (choose_card : Game → Int) (message : List Char) (game : Game) : Step :=
  match categorise_message message with
  | .HAND =>
    let r := process_hand_message message game
    if r.1 then .error (.INV_MESS, r.2) else .ok (false, r.2)
  | .NEW_ROUND =>
    let r := process_new_round_message message game
    if r.1 then .error (.INV_MESS, r.2)
    else if r.2.leadPlayer = r.2.playerID then .ok (false, play_turn choose_card r.2)
    else .ok (false, r.2)
  | .PLAYED =>
    let r := process_played_message message game
    if r.1 then .error (.INV_MESS, r.2)
    else if r.2.playerCount = r.2.numPlayers then .ok (false, end_of_round r.2)
    else if Libc.crem (r.2.leadPlayer + r.2.playerCount) r.2.numPlayers = r.2.playerID then
      let game1 := play_turn choose_card r.2
      if game1.playerCount = game1.numPlayers then .ok (false, end_of_round game1)
      else .ok (false, game1)
    else .ok (false, r.2)
  | .GAME_OVER =>
    let r := process_game_over_message message game
    if r.1 then .error (.INV_MESS, r.2) else .ok (true, r.2)
  | .INVALID_MESSAGE => .error (.INV_MESS, game)

/-- The routine `play_game` followed by the `quit_game(NORMAL)` of `main`: the
messages are the lines that the standard input still holds; the result is the
exit status and the game at the moment of `exit`.  Reading at the end of the
input exits with END_OF_FILE. -/
def play_game (choose_card : Game → Int) : List Line → Game → ExitStatus × Game
  | [], game => (.END_OF_FILE, game)
  | message :: rest, game =>
    match handle_message choose_card message game with
    | .error e => e
    | .ok (true, game1) => (.NORMAL, game1)
    | .ok (false, game1) => play_game choose_card rest game1

/-- The game after the engine has accepted every message of a list in turn,
if it accepts them all (no exit, no GAMEOVER before the last message). -/
def accept_all (choose_card : Game → Int) : List Line → Game → Option Game
  | [], game => some game
  | message :: rest, game =>
    match handle_message choose_card message game with
    | .error _ => none
    | .ok (true, game1) => if rest = [] then some game1 else none
    | .ok (false, game1) => accept_all choose_card rest game1

/-- Local variables of the loops of `find_highest_suit` and
`find_lowest_suit`: the index and the rank found so far. -/
abbrev SuitScan := Int × Int

/-- One iteration of the loop of `find_highest_suit`, for slot `i`. -/
def find_highest_step (game : Game) (suit : Char) (st : SuitScan) (i : Nat) : SuitScan :=
  if (game.hand.getD i default).rank ≠ INVALID ∧ (game.hand.getD i default).suit = suit then
    if (game.hand.getD i default).rank > st.2 then ((i : Int), (game.hand.getD i default).rank)
    else st
  else st

/-- The routine `find_highest_suit`: index of the highest card of the suit in
the hand, or -1 if there is no card with the suit. -/
def find_highest_suit (game : Game) (suit : Char) : Int :=
  ((List.range game.handSize.toNat).foldl (find_highest_step game suit)
    (INVALID, MIN_RANK - 1)).1

/-- One iteration of the loop of `find_lowest_suit`, for slot `i`. -/
def find_lowest_step (game : Game) (suit : Char) (st : SuitScan) (i : Nat) : SuitScan :=
  if (game.hand.getD i default).rank ≠ INVALID ∧ (game.hand.getD i default).suit = suit then
    if (game.hand.getD i default).rank < st.2 then ((i : Int), (game.hand.getD i default).rank)
    else st
  else st

/-- The routine `find_lowest_suit`: index of the lowest card of the suit in the
hand, or -1 if there is no card with the suit. -/
def find_lowest_suit (game : Game) (suit : Char) : Int :=
  ((List.range game.handSize.toNat).foldl (find_lowest_step game suit)
    (INVALID, MAX_RANK + 1)).1

/-- The loop `for each suit of the preference: look the suit up and return the
index if there is one`, written in both policies: the index returned, if the
loop returns. -/
def first_choice (find : Char → Int) : List Char → Option Int
  | [] => none
  | suit :: rest => if find suit ≠ INVALID then some (find suit) else first_choice find rest

end PlayerEngine

namespace Alice

open PlayerEngine

/-- The end of the routine `choose_card` of `alice.c`, after the block for the
lead player: the lowest card of the lead suit, else the highest card of the
suits D, H, S, C in this order, else `INVALID`. -/
def follow (game : Game) : Int :=
  if find_lowest_suit game (aget game.turn game.leadPlayer).suit ≠ -1 then
    find_lowest_suit game (aget game.turn game.leadPlayer).suit
  else
    match first_choice (find_highest_suit game) ['D', 'H', 'S', 'C'] with
    | some cardIndex => cardIndex
    | none => INVALID

/-- The routine `choose_card` of `alice.c`. -/
def choose_card (game : Game) : Int :=
  if game.playerID = game.leadPlayer then
    match first_choice (find_highest_suit game) ['S', 'C', 'D', 'H'] with
    | some cardIndex => cardIndex
    | none => follow game
  else follow game

end Alice

namespace Bob

open PlayerEngine

/-- The routine `threshold_reached`: true iff at least one player has reached
`threshold - 2` D cards. -/
def threshold_reached (game : Game) : Bool :=
  (List.range game.numPlayers.toNat).any
    (fun i => decide (game.dWon.getD i default ≥ game.threshold - 2))

/-- The routine `played_d`: true iff at least one player has played a D card
this round. -/
def played_d (game : Game) : Bool :=
  (List.range game.playerCount.toNat).any
    (fun i => decide
      ((aget game.turn (Libc.crem ((i : Int) + game.leadPlayer) game.numPlayers)).suit = 'D'))

/-- The end of the routine `choose_card` of `bob.c`, after the block for the
lead player. -/
def follow (game : Game) : Int :=
  if threshold_reached game && played_d game then
    if find_highest_suit game (aget game.turn game.leadPlayer).suit ≠ INVALID then
      find_highest_suit game (aget game.turn game.leadPlayer).suit
    else
      match first_choice (find_lowest_suit game) ['S', 'C', 'H', 'D'] with
      | some cardIndex => cardIndex
      | none => -1
  else
    if find_lowest_suit game (aget game.turn game.leadPlayer).suit ≠ INVALID then
      find_lowest_suit game (aget game.turn game.leadPlayer).suit
    else
      match first_choice (find_highest_suit game) ['S', 'C', 'D', 'H'] with
      | some cardIndex => cardIndex
      | none => -1

/-- The routine `choose_card` of `bob.c`. -/
def choose_card (game : Game) : Int :=
  if game.playerID = game.leadPlayer then
    match first_choice (find_lowest_suit game) ['D', 'H', 'S', 'C'] with
    | some cardIndex => cardIndex
    | none => follow game
  else follow game

end Bob

namespace Hub

/-- A concrete start of a game with a deck that holds the card S5 twice: three
players, threshold 2, the deck H0 S5 H5 S1 H1 S5; the players will send the
lines that the programs bob (seat 0), alice (seat 1) and bob (seat 2) send in
this game. -/
def duplicate_game : Game :=
  start_players
    (setup_game 2 6 [⟨'H', 0⟩, ⟨'S', 5⟩, ⟨'H', 5⟩, ⟨'S', 1⟩, ⟨'H', 1⟩, ⟨'S', 5⟩] 3 ⟨'?', 0⟩)
    [["PLAYH0".toList, "PLAYS5".toList], ["PLAYH5".toList, "PLAYS1".toList],
     ["PLAYH1".toList, "PLAYS5".toList]]

end Hub

namespace Hub

/-- The calls of the hub that decide the fate of the player processes and of
the hub itself: a signal sent with `kill(pid, sig)`, a diagnostic written to
the standard error stream, and `exit(status)`. -/
inductive SysCall
  | kill (pid : Nat) (sig : Nat)
  | stderr (text : List Char)
  | exit (status : Nat)
deriving DecidableEq

/-- Whether a call is a call of `kill`. -/
def SysCall.isKill : SysCall → Bool
  | .kill _ _ => true
  | .stderr _ => false
  | .exit _ => false

/-- The routine `quit_game` as the calls it makes: the diagnostic of the
status, if it has one, and `exit(status)`. -/
def quit_game_calls (status : ExitStatus) : List SysCall :=
  (match status with
    | .USAGE => [SysCall.stderr "Usage: 2310hub deck threshold player0 \x7bplayer1\x7d\n".toList]
    | .INV_THRESHOLD => [SysCall.stderr "Invalid threshold\n".toList]
    | .DECK_ERROR => [SysCall.stderr "Deck error\n".toList]
    | .INSUFF_CARDS => [SysCall.stderr "Not enough cards\n".toList]
    | .PLAYER_ERROR => [SysCall.stderr "Player error\n".toList]
    | .PLAYER_EOF => [SysCall.stderr "Player EOF\n".toList]
    | .INV_MESSAGE => [SysCall.stderr "Invalid message\n".toList]
    | .INV_CARD_CHOICE => [SysCall.stderr "Invalid card choice\n".toList]
    | .SIGNAL_RECEIVED => [SysCall.stderr "Exit due to signal\n".toList]
    | .NORMAL => [])
  ++ [SysCall.exit status.code]

/-- The routine `sighup_handler` as the calls it makes; `pids[i]` is
`data->players[i].pid`: every player is sent the signal 9, then the hub
quits. -/
def sighup_handler_calls (game : Game) (pids : List Nat) : List SysCall :=
  (List.range game.numPlayers).map (fun i => SysCall.kill (pids.getD i 0) 9)
    ++ quit_game_calls .SIGNAL_RECEIVED

/-- The end of `main`, `play_game(&game); quit_game(NORMAL);`, as the calls of
`kill`, the diagnostics and the `exit` it makes, when no signal arrives: the
routines `play_game`, `play_hand` and `get_play` hold no call of `kill`, and
when one of them quits the calls are those of `quit_game`. -/
def main_calls (game : Game) : List SysCall :=
  match play_game game with
  | .error e => quit_game_calls e.1
  | .ok _ => quit_game_calls .NORMAL

/-- The sample game after its first trick: player 0 has led S0 and won the
trick with it, player 1 has played H2. -/
def sample_trick1 : Game :=
  { numPlayers := 2
    players :=
      [{ points := 1, dWon := 0, read := ["PLAYS1".toList],
         write := ["HAND2,S0,S1".toList, "NEWROUND0".toList, "PLAYED1,H2".toList],
         hand := [⟨'z', -1⟩, ⟨'S', 1⟩] },
       { points := 0, dWon := 0, read := ["PLAYH3".toList],
         write := ["HAND2,H2,H3".toList, "NEWROUND0".toList, "PLAYED0,S0".toList],
         hand := [⟨'z', -1⟩, ⟨'H', 3⟩] }]
    deckSize := 4
    deck := [⟨'S', 0⟩, ⟨'S', 1⟩, ⟨'H', 2⟩, ⟨'H', 3⟩]
    threshold := 2
    leadPlayer := 0
    handSize := 2
    round := [⟨'S', 0⟩, ⟨'H', 2⟩]
    stdout := "Lead player=0\nCards=S.0 H.2\n".toList }

/-- The sum of the diamond counts of all players. -/
def totalDWon (game : Game) : Int :=
  (game.players.map Player.dWon).sum

/-- The number of cards of suit D in the first `handSize` slots of the hand of
a player. -/
def diamondsHeld (game : Game) (player : Nat) : Nat :=
  (List.range game.handSize).countP
    (fun i => decide (((game.player player).hand.getD i default).suit = 'D'))

/-- The number of cards of suit D in the hands of all players. -/
def diamondsInHands (game : Game) : Nat :=
  ((List.range game.numPlayers).map (diamondsHeld game)).sum

/-- The number of cards of suit D among the dealt cards
`deck[0 .. numPlayers * handSize)`. -/
def dealtDiamonds (deck : List Card) (numPlayers handSize : Nat) : Nat :=
  (List.range (numPlayers * handSize)).countP
    (fun k => decide ((deck.getD k default).suit = 'D'))

end Hub

/-! ## Trick resolution in the hub -/

namespace Hub

/-- The scan of `find_winner` over the positions `1 .. m`. -/
theorem find_winner_scan_inv (round : List Card) (m : Nat) :
    let st := find_winner_scan round (m + 1)
    st.1 ≤ m ∧ st.2 = (round.getD st.1 default).rank ∧
    (round.getD st.1 default).suit = (round.getD 0 default).suit ∧
    (∀ j, j ≤ m → (round.getD j default).suit = (round.getD 0 default).suit →
      (round.getD j default).rank ≤ st.2) ∧
    (∀ j, j < st.1 → (round.getD j default).suit = (round.getD 0 default).suit →
      (round.getD j default).rank < st.2) := by
  induction m with
  | zero =>
    simp only [find_winner_scan, Nat.add_sub_cancel, List.range', List.foldl_nil]
    refine ⟨le_refl _, trivial, trivial, ?_, ?_⟩
    · intro j hj _
      have : j = 0 := by omega
      subst this
      exact le_refl _
    · intro j hj
      omega
  | succ m ih =>
    have hstep : find_winner_scan round (m + 1 + 1) =
        (let st := find_winner_scan round (m + 1)
         let c := round.getD (1 + m) default
         if c.suit = (round.getD 0 default).suit then
           if c.rank > st.2 then (1 + m, c.rank) else st
         else st) := by
      simp only [find_winner_scan, Nat.add_sub_cancel, List.range'_1_concat, List.foldl_append,
        List.foldl_cons, List.foldl_nil]
    rw [hstep]
    obtain ⟨h1, h2, h3, h4, h5⟩ := ih
    generalize find_winner_scan round (m + 1) = st at h1 h2 h3 h4 h5
    dsimp only
    by_cases hs : (round.getD (1 + m) default).suit = (round.getD 0 default).suit
    · rw [if_pos hs]
      by_cases hr : (round.getD (1 + m) default).rank > st.2
      · rw [if_pos hr]
        refine ⟨by simp only; omega, rfl, hs, ?_, ?_⟩
        · intro j hj hjs
          rcases Nat.lt_or_ge j (m + 1) with hlt | hge
          · have := h4 j (by omega) hjs
            simp only
            omega
          · have : j = 1 + m := by omega
            subst this
            exact le_refl _
        · intro j hj hjs
          have := h4 j (by simp only at hj; omega) hjs
          simp only
          omega
      · rw [if_neg hr]
        refine ⟨by omega, h2, h3, ?_, h5⟩
        intro j hj hjs
        rcases Nat.lt_or_ge j (m + 1) with hlt | hge
        · exact h4 j (by omega) hjs
        · have : j = 1 + m := by omega
          subst this
          omega
    · rw [if_neg hs]
      refine ⟨by omega, h2, h3, ?_, h5⟩
      intro j hj hjs
      rcases Nat.lt_or_ge j (m + 1) with hlt | hge
      · exact h4 j (by omega) hjs
      · have : j = 1 + m := by omega
        subst this
        exact absurd hjs hs

/-- Seat arithmetic: the play position of seat `(lead + k) % n` is `k`. -/
theorem seat_position (n lead k : Nat) (hk : k < n) (hl : lead < n) :
    ((k + lead) % n + n - lead) % n = k := by
  rcases Nat.lt_or_ge (k + lead) n with h | h
  · rw [Nat.mod_eq_of_lt h]
    have : k + lead + n - lead = k + n := by omega
    rw [this, Nat.add_mod_right, Nat.mod_eq_of_lt hk]
  · have h2 : (k + lead) % n = k + lead - n := by
      rw [Nat.mod_eq_sub_mod h, Nat.mod_eq_of_lt (by omega)]
    have : k + lead - n + n - lead = k := by omega
    rw [h2, this, Nat.mod_eq_of_lt hk]

/-- C2: for a trick buffer of `numPlayers ≥ 1` cards stored in play order,
`find_winner` returns the seat `(leadPlayer + k) % numPlayers` where `k` is the
smallest play position whose card has the lead suit (the suit at position 0)
and whose rank is the maximum rank among the lead-suit cards of the trick; the
returned seat is below `numPlayers`. -/
theorem find_winner_spec (game : Game) (hn : 1 ≤ game.numPlayers) :
    ∃ k, k < game.numPlayers ∧
      find_winner game = (game.leadPlayer + k) % game.numPlayers ∧
      (game.round.getD k default).suit = (game.round.getD 0 default).suit ∧
      (∀ j, j < game.numPlayers →
        (game.round.getD j default).suit = (game.round.getD 0 default).suit →
        (game.round.getD j default).rank ≤ (game.round.getD k default).rank) ∧
      (∀ j, j < k →
        (game.round.getD j default).suit = (game.round.getD 0 default).suit →
        (game.round.getD j default).rank < (game.round.getD k default).rank) ∧
      find_winner game < game.numPlayers := by
  obtain ⟨m, hm⟩ : ∃ m, game.numPlayers = m + 1 := ⟨game.numPlayers - 1, by omega⟩
  have inv := find_winner_scan_inv game.round m
  rw [← hm] at inv
  obtain ⟨h1, h2, h3, h4, h5⟩ := inv
  refine ⟨(find_winner_scan game.round game.numPlayers).1, by omega, ?_, h3, ?_, ?_, ?_⟩
  · simp only [find_winner, Nat.add_comm]
  · intro j hj hjs
    rw [← h2]
    exact h4 j (by omega) hjs
  · intro j hj hjs
    rw [← h2]
    exact h5 j hj hjs
  · exact Nat.mod_lt _ (by omega)

/-- Witness for `find_winner_spec`: three players, lead seat 1, the trick
S1 S5 S5 is won at play position 1. -/
theorem find_winner_spec_witness :
    ∃ k, k < 3 ∧ find_winner
        { numPlayers := 3, players := [], deckSize := 6, deck := [], threshold := 2,
          leadPlayer := 1, handSize := 2, round := [⟨'S', 1⟩, ⟨'S', 5⟩, ⟨'S', 5⟩],
          stdout := [] } = (1 + k) % 3 :=
  let ⟨k, hk, h, _⟩ := find_winner_spec
    { numPlayers := 3, players := [], deckSize := 6, deck := [], threshold := 2,
      leadPlayer := 1, handSize := 2, round := [⟨'S', 1⟩, ⟨'S', 5⟩, ⟨'S', 5⟩],
      stdout := [] } (by decide)
  ⟨k, hk, h⟩

/-- The position found by the scan is below the number of players and holds a
card of the lead suit. -/
theorem find_winner_scan_suit (round : List Card) (n : Nat) (hn : 1 ≤ n) :
    (find_winner_scan round n).1 < n ∧
    (round.getD (find_winner_scan round n).1 default).suit = (round.getD 0 default).suit := by
  obtain ⟨m, rfl⟩ : ∃ m, n = m + 1 := ⟨n - 1, by omega⟩
  obtain ⟨h1, _, h3, _⟩ := find_winner_scan_inv round m
  exact ⟨by omega, h3⟩

end Hub

namespace PlayerEngine

/-- Reading an array at a natural-number index. -/
theorem aget_natCast {α : Type} [Inhabited α] (a : List α) (i : Nat) :
    aget a (i : Int) = a.getD i default := by
  simp [aget]

/-- A step of the player's scan keeps the winner on a card of the lead suit. -/
theorem find_winner_step_suit (game : Game) (st : WinnerScan) (i : Nat)
    (h : (aget game.turn st.winnerIndex).suit = (aget game.turn game.leadPlayer).suit) :
    (aget game.turn (find_winner_step game st i).winnerIndex).suit
      = (aget game.turn game.leadPlayer).suit := by
  unfold find_winner_step
  dsimp only
  split_ifs with h1 h2 h2
  · dsimp only
    rw [aget_natCast]
    exact h2.1
  · exact h
  · dsimp only
    rw [aget_natCast]
    exact h2.1
  · exact h

/-- The player's scan over any list of seats keeps the winner on a card of the
lead suit. -/
theorem find_winner_foldl_suit (game : Game) (seats : List Nat) (st : WinnerScan)
    (h : (aget game.turn st.winnerIndex).suit = (aget game.turn game.leadPlayer).suit) :
    (aget game.turn (seats.foldl (find_winner_step game) st).winnerIndex).suit
      = (aget game.turn game.leadPlayer).suit := by
  induction seats generalizing st with
  | nil => exact h
  | cons i is ih => exact ih _ (find_winner_step_suit game st i h)

end PlayerEngine

/-- C3: the card of the seat chosen as winner has the lead suit of the trick.
In the hub the seat returned by `find_winner` played at position
`(seat + numPlayers - leadPlayer) % numPlayers` of the trick buffer, and that
card has the suit of `round[0]`; in the player engine the seat to which
`find_winner` gives the point and the D cards holds a card of the suit of
`turn[leadPlayer]`. -/
theorem winner_card_has_lead_suit (hub : Hub.Game) (pl : PlayerEngine.Game)
    (hn : 1 ≤ hub.numPlayers) (hlead : hub.leadPlayer < hub.numPlayers) :
    (hub.round.getD ((Hub.find_winner hub + hub.numPlayers - hub.leadPlayer) % hub.numPlayers)
        default).suit = (hub.round.getD 0 default).suit ∧
    (∃ w : Int,
      PlayerEngine.find_winner pl =
        { pl with
          playerPoints := PlayerEngine.aset pl.playerPoints w
            (PlayerEngine.aget pl.playerPoints w + 1)
          dWon := PlayerEngine.aset pl.dWon w
            (PlayerEngine.aget pl.dWon w + (PlayerEngine.find_winner_scan pl).dPlayed) } ∧
      (PlayerEngine.aget pl.turn w).suit
        = (PlayerEngine.aget pl.turn pl.leadPlayer).suit) := by
  constructor
  · obtain ⟨h1, h2⟩ := Hub.find_winner_scan_suit hub.round hub.numPlayers hn
    unfold Hub.find_winner
    rw [Hub.seat_position _ _ _ h1 hlead]
    exact h2
  · exact ⟨(PlayerEngine.find_winner_scan pl).winnerIndex, rfl,
      PlayerEngine.find_winner_foldl_suit pl _ _ rfl⟩

/-- Witness for `winner_card_has_lead_suit`: a three-seat trick led by seat 1
in the hub (S1 S5 S5 in play order) and in the player engine (seats hold
S5 S1 S5). -/
theorem winner_card_has_lead_suit_witness :
    (([⟨'S', 1⟩, ⟨'S', 5⟩, ⟨'S', 5⟩] : List Card).getD
        ((Hub.find_winner
          { numPlayers := 3, players := [], deckSize := 6, deck := [], threshold := 2,
            leadPlayer := 1, handSize := 2, round := [⟨'S', 1⟩, ⟨'S', 5⟩, ⟨'S', 5⟩],
            stdout := [] } + 3 - 1) % 3) default).suit = 'S' :=
  (winner_card_has_lead_suit
    { numPlayers := 3, players := [], deckSize := 6, deck := [], threshold := 2,
      leadPlayer := 1, handSize := 2, round := [⟨'S', 1⟩, ⟨'S', 5⟩, ⟨'S', 5⟩],
      stdout := [] }
    { numPlayers := 3, playerID := 0, threshold := 2, handSize := 2, turnsRemaining := 2,
      hand := [], leadPlayer := 1, turn := [⟨'S', 5⟩, ⟨'S', 1⟩, ⟨'S', 5⟩],
      playerPoints := [0, 0, 0], dWon := [0, 0, 0], playerCount := 3, stdout := [] }
    (by decide) (by decide)).1

/-! ## The C library conversions -/

namespace Libc

/-- A digit character is read back as the digit it prints. -/
theorem digitVal_digitChar (d : Nat) (hd : d < 16) : digitVal (digitChar d) = some d := by
  interval_cases d <;> rfl

/-- A digit character is a digit of every base above it. -/
theorem digitIn_digitChar (base d : Nat) (hd : d < base) (hb : base ≤ 16) :
    digitIn base (digitChar d) = some d := by
  unfold digitIn
  rw [digitVal_digitChar d (by omega)]
  simp only [hd, if_true]

/-- A digit character is not white space. -/
theorem isspace_digitChar (d : Nat) (hd : d < 16) : isspace (digitChar d) = false := by
  interval_cases d <;> rfl

/-- A digit character is not a sign. -/
theorem scanSign_digitChar (d : Nat) (hd : d < 16) (cs : List Char) :
    scanSign (digitChar d :: cs) = (false, digitChar d :: cs) := by
  interval_cases d <;> rfl

/-- The digits are printed in front of the accumulator. -/
theorem fmtNatAux_append (base : Nat) (fuel : Nat) :
    ∀ (n : Nat) (acc : List Char),
      fmtNatAux base fuel n acc = fmtNatAux base fuel n [] ++ acc := by
  induction fuel with
  | zero => intro n acc; rfl
  | succ fuel ih =>
    intro n acc
    unfold fmtNatAux
    by_cases h : n < base
    · simp only [h, if_true, List.singleton_append]
    · simp only [h, if_false]
      rw [ih (n / base) (digitChar (n % base) :: acc), ih (n / base) [digitChar (n % base)]]
      simp only [List.append_assoc, List.singleton_append]

/-- The printed number starts with a digit character. -/
theorem fmtNatAux_head (base : Nat) (hb : 2 ≤ base) (fuel : Nat) :
    ∀ (n : Nat) (acc : List Char), n < fuel →
      ∃ d cs, d < base ∧ fmtNatAux base fuel n acc = digitChar d :: cs := by
  induction fuel with
  | zero => intro n acc h; omega
  | succ fuel ih =>
    intro n acc hn
    unfold fmtNatAux
    by_cases h : n < base
    · exact ⟨n, acc, h, by simp only [h, if_true]⟩
    · simp only [h, if_false]
      have hdiv : n / base < n := Nat.div_lt_self (by omega) (by omega)
      exact ih (n / base) _ (by omega)

/-- Reading back the digits that were printed in front of `acc`. -/
theorem scanDigits_fmtNatAux (base : Nat) (hb : 2 ≤ base) (hb16 : base ≤ 16) (fuel : Nat) :
    ∀ (n : Nat), n < fuel → ∃ m pw, ∀ (acc : List Char) (a k : Nat),
      scanDigits base (fmtNatAux base fuel n acc) a k
        = scanDigits base acc (a * pw + n) (k + (m + 1)) := by
  induction fuel with
  | zero => intro n h; omega
  | succ fuel ih =>
    intro n hn
    by_cases h : n < base
    · refine ⟨0, base, ?_⟩
      intro acc a k
      unfold fmtNatAux
      simp only [h, if_true]
      rw [scanDigits, digitIn_digitChar base n h hb16]
    · have hdiv : n / base < n := Nat.div_lt_self (by omega) (by omega)
      obtain ⟨m, pw, hm⟩ := ih (n / base) (by omega)
      refine ⟨m + 1, pw * base, ?_⟩
      intro acc a k
      unfold fmtNatAux
      simp only [h, if_false]
      rw [hm, scanDigits, digitIn_digitChar base (n % base) (Nat.mod_lt _ (by omega)) hb16]
      have e1 : (a * pw + n / base) * base + n % base = a * (pw * base) + n := by
        have := Nat.div_add_mod n base
        rw [Nat.add_mul, Nat.mul_assoc, Nat.add_assoc, Nat.mul_comm (n / base) base, this]
      dsimp only
      rw [e1, Nat.add_assoc k (m + 1) 1]

/-- Decimal round trip: `strtol` reads back a number printed with `%d` when the
text is followed by a comma. -/
theorem strtol_fmt_d (p : Nat) (hp : p < 2 ^ 63) (rest : List Char) :
    strtol (fmt_d (p : Int) ++ ',' :: rest) 10 = ((p : Int), ',' :: rest) := by
  have hfmt : fmt_d (p : Int) = fmtNat 10 p := by
    unfold fmt_d
    rw [if_neg (by omega)]
    rfl
  rw [hfmt]
  unfold fmtNat
  have happ : fmtNatAux 10 (p + 1) p [] ++ ',' :: rest = fmtNatAux 10 (p + 1) p (',' :: rest) :=
    (fmtNatAux_append 10 (p + 1) p (',' :: rest)).symm
  rw [happ]
  obtain ⟨d, cs, hd, hhead⟩ := fmtNatAux_head 10 (by omega) (p + 1) p (',' :: rest) (by omega)
  obtain ⟨m, pw, hscan⟩ := scanDigits_fmtNatAux 10 (by omega) (by omega) (p + 1) p (by omega)
  have hskip : skipSpace (fmtNatAux 10 (p + 1) p (',' :: rest))
      = fmtNatAux 10 (p + 1) p (',' :: rest) := by
    rw [hhead, skipSpace, isspace_digitChar d (by omega)]
    rfl
  have hsign : scanSign (fmtNatAux 10 (p + 1) p (',' :: rest))
      = (false, fmtNatAux 10 (p + 1) p (',' :: rest)) := by
    rw [hhead, scanSign_digitChar d (by omega)]
  have hcomma : ∀ a k, scanDigits 10 (',' :: rest) a k = (a, k, ',' :: rest) := by
    intro a k
    rfl
  unfold strtol
  simp only [hskip, hsign, hscan, hcomma]
  have h16 : ¬ ((10 : Nat) = 16 ∧ startsWith0xDigit (fmtNatAux 10 (p + 1) p (',' :: rest)) = true) := by
    intro h
    exact absurd h.1 (by decide)
  simp only [h16, if_false, hscan, hcomma]
  have hm : ¬ (0 + (m + 1) = 0) := by omega
  simp only [hm, if_false, Nat.zero_mul, Nat.zero_add]
  have hlt : (p : Int) < 2 ^ 63 := by exact_mod_cast hp
  have h1 : min (p : Int) (2 ^ 63 - 1) = (p : Int) := min_eq_left (by omega)
  have h2 : max (-(2 : Int) ^ 63) (p : Int) = (p : Int) := max_eq_right (by omega)
  simp only [Bool.false_eq_true, if_false, h1, h2]
  rw [if_neg (by omega)]

/-- Hexadecimal round trip for one digit: `strtol` with base 16 reads back a
rank printed with `%x`. -/
theorem strtol_fmt_x (rank : Int) (h0 : 0 ≤ rank) (h15 : rank ≤ 15) :
    strtol (fmt_x rank) 16 = (rank, []) := by
  interval_cases rank <;> rfl

/-- Hexadecimal round trip for one digit through the conversion `%x`. -/
theorem scanHex_fmt_x (rank : Int) (h0 : 0 ≤ rank) (h15 : rank ≤ 15) :
    scanHex (fmt_x rank) = some (rank.toNat, []) := by
  interval_cases rank <;> rfl

/-- A small `long` is unchanged by the conversion to `int`. -/
theorem toInt32_of_small (x : Int) (h0 : -2 ^ 31 ≤ x) (h1 : x < 2 ^ 31) : toInt32 x = x := by
  unfold toInt32
  omega

end Libc

/-! ## The card codec -/

/-- The hub reads a PLAY line that names a card in canonical form as that
card. -/
theorem sscanf_PLAY_play_line (suit : Char) (rank : Int) (h0 : 0 ≤ rank) (h15 : rank ≤ 15) :
    Libc.sscanf_PLAY (PlayerEngine.play_line ⟨suit, rank⟩) = ⟨2, suit, rank.toNat⟩ := by
  have h : PlayerEngine.play_line ⟨suit, rank⟩
      = 'P' :: 'L' :: 'A' :: 'Y' :: suit :: Libc.fmt_x rank := rfl
  rw [h]
  simp only [Libc.sscanf_PLAY, Libc.scanHex_fmt_x rank h0 h15]

/-- C9: card round trip.  For a suit in D, C, H, S and a rank in 0..15, the
line `PLAY<suit><rank>` printed by the player is read by `get_play` as that
suit and rank (the hub goes on to check exactly that card), and the line
`PLAYED<p>,<suit><rank>` printed by the hub for the expected seat `p` is
accepted by `process_played_message`, which stores exactly that card at
`turn[p]`. -/
theorem card_round_trip (suit : Char) (rank : Int) (hs : isSuit suit = true)
    (h0 : 0 ≤ rank) (h15 : rank ≤ 15) :
    (∀ (game : Hub.Game) (player : Nat) (rest : List Line),
      (game.player player).read = PlayerEngine.play_line ⟨suit, rank⟩ :: rest →
      Hub.get_play game player
        = Hub.get_play_check (game.updPlayer player (fun p => { p with read := rest }))
            player suit rank.toNat) ∧
    (∀ (pl : PlayerEngine.Game) (p : Nat), p < 2 ^ 31 →
      (p : Int) = Libc.crem (pl.playerCount + pl.leadPlayer) pl.numPlayers →
      PlayerEngine.process_played_message (Hub.played_line p ⟨suit, rank⟩) pl
        = (false,
            { pl with
              turn := PlayerEngine.aset pl.turn p ⟨suit, rank⟩
              playerCount := pl.playerCount + 1 })) := by
  constructor
  · intro game player rest hread
    unfold Hub.get_play
    rw [hread]
    simp only [sscanf_PLAY_play_line suit rank h0 h15]
    have hr : ¬ ((2 : Int) ≠ 2 ∨ rank.toNat < Libc.toUInt32 MIN_RANK
        ∨ rank.toNat > Libc.toUInt32 MAX_RANK ∨ isSuit suit = false) := by
      have e0 : Libc.toUInt32 MIN_RANK = 0 := rfl
      have e15 : Libc.toUInt32 MAX_RANK = 15 := rfl
      rw [e0, e15, hs]
      simp only [ne_eq, not_true_eq_false, Nat.not_lt_zero, false_or, Bool.true_eq_false,
        or_false, not_lt, ge_iff_le]
      omega
    rw [if_neg hr]
  · intro pl p hp hseat
    have hline : Hub.played_line p ⟨suit, rank⟩
        = 'P' :: 'L' :: 'A' :: 'Y' :: 'E' :: 'D' ::
            (Libc.fmt_d (p : Int) ++ ',' :: suit :: Libc.fmt_x rank) := rfl
    have hp63 : p < 2 ^ 63 := by omega
    have hp31 : Libc.toInt32 (p : Int) = (p : Int) :=
      Libc.toInt32_of_small _ (by omega) (by exact_mod_cast hp)
    have hr31 : Libc.toInt32 rank = rank := Libc.toInt32_of_small _ (by omega) (by omega)
    have hmin : ¬ rank < MIN_RANK := by
      unfold MIN_RANK
      omega
    have hmax : ¬ rank > MAX_RANK := by
      unfold MAX_RANK
      omega
    unfold PlayerEngine.process_played_message
    simp only [hline, List.drop_succ_cons, List.drop_zero, Libc.strtol_fmt_d p hp63, hp31,
      ← hseat, List.head?_cons, List.headD_cons, Libc.strtol_fmt_x rank h0 h15, hr31, hs,
      hmin, hmax, ne_eq, not_true_eq_false, or_self, if_false, Bool.true_eq_false]

/-- Witness for `card_round_trip`: the card D b. -/
theorem card_round_trip_witness :
    Libc.sscanf_PLAY (PlayerEngine.play_line ⟨'D', 11⟩) = ⟨2, 'D', 11⟩ ∧
    (∀ (game : Hub.Game) (player : Nat) (rest : List Line),
      (game.player player).read = PlayerEngine.play_line ⟨'D', 11⟩ :: rest →
      Hub.get_play game player
        = Hub.get_play_check (game.updPlayer player (fun p => { p with read := rest }))
            player 'D' 11) :=
  ⟨by decide, (card_round_trip 'D' 11 (by decide) (by decide) (by decide)).1⟩

/-- C10 (divergence): `get_play` accepts PLAY lines whose rank is not exactly
one lowercase hexadecimal digit.  With S f in the hand of the lead player, each
of the lines `PLAYSF`, `PLAYS0f`, `PLAYS+f`, `PLAYS0xf`, `PLAYS f` and
`PLAYS0000f` is taken as the card S f and its slot 0 is returned; the hub does
not quit with INV_MESSAGE. -/
theorem get_play_accepts_noncanonical_rank (line : Line)
    (hline : line ∈ ["PLAYSF".toList, "PLAYS0f".toList, "PLAYS+f".toList,
      "PLAYS0xf".toList, "PLAYS f".toList, "PLAYS0000f".toList]) :
    ∃ game1, Hub.get_play
      { numPlayers := 2
        players := [⟨0, 0, [line], [], [⟨'S', 15⟩, ⟨'H', 3⟩]⟩,
                    ⟨0, 0, [], [], [⟨'D', 1⟩, ⟨'C', 2⟩]⟩]
        deckSize := 4
        deck := [⟨'S', 15⟩, ⟨'H', 3⟩, ⟨'D', 1⟩, ⟨'C', 2⟩]
        threshold := 2
        leadPlayer := 0
        handSize := 2
        round := [⟨'?', 0⟩, ⟨'?', 0⟩]
        stdout := [] } 0 = .ok (game1, 0) := by
  simp only [List.mem_cons, List.mem_singleton, List.not_mem_nil, or_false] at hline
  rcases hline with h | h | h | h | h | h <;> subst h <;> exact ⟨_, rfl⟩

/-- Witness for `get_play_accepts_noncanonical_rank`: the line `PLAYSF`. -/
theorem get_play_accepts_noncanonical_rank_witness :
    ∃ game1, Hub.get_play
      { numPlayers := 2
        players := [⟨0, 0, ["PLAYSF".toList], [], [⟨'S', 15⟩, ⟨'H', 3⟩]⟩,
                    ⟨0, 0, [], [], [⟨'D', 1⟩, ⟨'C', 2⟩]⟩]
        deckSize := 4
        deck := [⟨'S', 15⟩, ⟨'H', 3⟩, ⟨'D', 1⟩, ⟨'C', 2⟩]
        threshold := 2
        leadPlayer := 0
        handSize := 2
        round := [⟨'?', 0⟩, ⟨'?', 0⟩]
        stdout := [] } 0 = .ok (game1, 0) :=
  get_play_accepts_noncanonical_rank "PLAYSF".toList (by decide)

/-! ## Updates of the hub state -/

namespace Hub

/-- Reading back the player that was assigned. -/
theorem player_updPlayer_self (game : Game) (i : Nat) (f : Player → Player)
    (h : i < game.players.length) : (game.updPlayer i f).player i = f (game.player i) := by
  simp only [Game.player, Game.updPlayer, List.getD_eq_getElem?_getD, List.getElem?_set, h,
    if_true, Option.getD_some]

/-- The other players are not changed by an assignment. -/
theorem player_updPlayer_ne (game : Game) (i j : Nat) (f : Player → Player) (h : i ≠ j) :
    (game.updPlayer i f).player j = game.player j := by
  simp only [Game.player, Game.updPlayer, List.getD_eq_getElem?_getD, List.getElem?_set, h,
    if_false]

/-- An assignment to a player keeps the number of player records. -/
theorem length_updPlayer (game : Game) (i : Nat) (f : Player → Player) :
    (game.updPlayer i f).players.length = game.players.length := by
  simp only [Game.updPlayer, List.length_set]

/-- A field that the assignment does not touch is the same for every player. -/
theorem player_updPlayer_field {β : Type} (proj : Player → β) (game : Game) (i j : Nat)
    (f : Player → Player) (hf : ∀ p, proj (f p) = proj p) :
    proj ((game.updPlayer i f).player j) = proj (game.player j) := by
  by_cases hij : i = j
  · subst hij
    by_cases hlt : i < game.players.length
    · rw [player_updPlayer_self game i f hlt, hf]
    · have e : game.updPlayer i f = game := by
        simp only [Game.updPlayer, List.set_eq_of_length_le (Nat.le_of_not_lt hlt)]
      rw [e]
  · rw [player_updPlayer_ne game i j f hij]

/-- A seat outside the player array reads as the default record. -/
theorem player_of_length_le (game : Game) (i : Nat) (h : game.players.length ≤ i) :
    game.player i = default := by
  simp only [Game.player, List.getD_eq_default _ _ h]

/-! ## Validation of a play -/

/-- One more slot examined by the loop of `get_play`. -/
theorem get_play_scan_succ (hand : List Card) (n : Nat) (leadSuit suit : Char) (rank : Nat) :
    get_play_scan hand (n + 1) leadSuit suit rank =
      (if (hand.getD n default).suit = leadSuit then true
        else (get_play_scan hand n leadSuit suit rank).1,
       if (hand.getD n default).suit = suit ∧ Libc.toUInt32 (hand.getD n default).rank = rank
        then (n : Int) else (get_play_scan hand n leadSuit suit rank).2) := by
  simp only [get_play_scan, List.range_succ, List.foldl_append, List.foldl_cons, List.foldl_nil]

/-- The flag `hasLead` is set exactly when some examined slot has the lead suit. -/
theorem get_play_scan_hasLead (hand : List Card) (n : Nat) (leadSuit suit : Char) (rank : Nat) :
    (get_play_scan hand n leadSuit suit rank).1 = true ↔
      ∃ i, i < n ∧ (hand.getD i default).suit = leadSuit := by
  induction n with
  | zero =>
    simp only [get_play_scan, List.range_zero, List.foldl_nil, Bool.false_eq_true,
      Nat.not_lt_zero, false_and, exists_false]
  | succ n ih =>
    rw [get_play_scan_succ]
    dsimp only
    by_cases h : (hand.getD n default).suit = leadSuit
    · rw [if_pos h]
      exact ⟨fun _ => ⟨n, Nat.lt_succ_self n, h⟩, fun _ => rfl⟩
    · rw [if_neg h, ih]
      constructor
      · rintro ⟨i, hi, hs⟩
        exact ⟨i, Nat.lt_succ_of_lt hi, hs⟩
      · rintro ⟨i, hi, hs⟩
        rcases Nat.lt_succ_iff_lt_or_eq.mp hi with hlt | heq
        · exact ⟨i, hlt, hs⟩
        · subst heq
          exact absurd hs h

/-- The variable `cardIndex` is `INVALID` when no examined slot holds the named card, and
otherwise the index of a slot that does. -/
theorem get_play_scan_index (hand : List Card) (n : Nat) (leadSuit suit : Char) (rank : Nat) :
    ((get_play_scan hand n leadSuit suit rank).2 = INVALID ∧
      ∀ i, i < n → ¬ ((hand.getD i default).suit = suit ∧
        Libc.toUInt32 (hand.getD i default).rank = rank)) ∨
    (∃ i, i < n ∧ (get_play_scan hand n leadSuit suit rank).2 = (i : Int) ∧
      (hand.getD i default).suit = suit ∧ Libc.toUInt32 (hand.getD i default).rank = rank) := by
  induction n with
  | zero =>
    left
    exact ⟨rfl, fun i hi => absurd hi (Nat.not_lt_zero i)⟩
  | succ n ih =>
    rw [get_play_scan_succ]
    dsimp only
    by_cases h : (hand.getD n default).suit = suit ∧
        Libc.toUInt32 (hand.getD n default).rank = rank
    · rw [if_pos h]
      right
      exact ⟨n, Nat.lt_succ_self n, rfl, h⟩
    · rw [if_neg h]
      rcases ih with ⟨hinv, hnone⟩ | ⟨i, hi, hidx, hm⟩
      · left
        refine ⟨hinv, ?_⟩
        intro i hi
        rcases Nat.lt_succ_iff_lt_or_eq.mp hi with hlt | heq
        · exact hnone i hlt
        · subst heq
          exact h
      · right
        exact ⟨i, Nat.lt_succ_of_lt hi, hidx, hm⟩

/-- A well-formed slot that matches a well-formed named card is that card. -/
theorem slot_eq_of_match (c : Card) (suit : Char) (rank : Nat) (hc : slot_ok c)
    (hsuit : isSuit suit = true) (hrank : rank ≤ 15)
    (hm : c.suit = suit ∧ Libc.toUInt32 c.rank = rank) : c = ⟨suit, (rank : Int)⟩ := by
  obtain ⟨hs, hr⟩ := hm
  rcases hc with ⟨_, h0, h15⟩ | hp
  · unfold MIN_RANK at h0
    unfold MAX_RANK at h15
    have : c.rank = (rank : Int) := by
      unfold Libc.toUInt32 at hr
      omega
    cases c
    simp only [Card.mk.injEq]
    exact ⟨hs, this⟩
  · unfold played at hp
    rw [hp] at hs
    rw [← hs] at hsuit
    exact absurd hsuit (by decide)

/-- The named card matches the slot that holds it. -/
theorem match_of_slot_eq (c : Card) (suit : Char) (rank : Nat) (hrank : rank ≤ 15)
    (h : c = ⟨suit, (rank : Int)⟩) : c.suit = suit ∧ Libc.toUInt32 c.rank = rank := by
  subst h
  refine ⟨rfl, ?_⟩
  unfold Libc.toUInt32
  dsimp only
  omega


/-- The rule check of `get_play` on a hand of well-formed slots: the named card
is accepted exactly when it is in the hand and follows the lead suit rule. -/
theorem get_play_check_spec (game : Game) (player : Nat) (suit : Char) (rank : Nat)
    (hsuit : isSuit suit = true) (hrank : rank ≤ 15)
    (hhand : ∀ i, i < game.handSize → slot_ok ((game.player player).hand.getD i default))
    (hround : player ≠ game.leadPlayer → (game.round.getD 0 default).suit ≠ 'z') :
    ((∃ i, i < game.handSize ∧ ¬ played ((game.player player).hand.getD i default) ∧
          (game.player player).hand.getD i default = ⟨suit, (rank : Int)⟩) ∧
        (player = game.leadPlayer ∨ suit = (game.round.getD 0 default).suit ∨
          ¬ ∃ i, i < game.handSize ∧ ¬ played ((game.player player).hand.getD i default) ∧
            ((game.player player).hand.getD i default).suit = (game.round.getD 0 default).suit) →
      ∃ i, i < game.handSize ∧
        (game.player player).hand.getD i default = ⟨suit, (rank : Int)⟩ ∧
        get_play_check game player suit rank = .ok (game, i)) ∧
    (¬ ((∃ i, i < game.handSize ∧ ¬ played ((game.player player).hand.getD i default) ∧
          (game.player player).hand.getD i default = ⟨suit, (rank : Int)⟩) ∧
        (player = game.leadPlayer ∨ suit = (game.round.getD 0 default).suit ∨
          ¬ ∃ i, i < game.handSize ∧ ¬ played ((game.player player).hand.getD i default) ∧
            ((game.player player).hand.getD i default).suit = (game.round.getD 0 default).suit)) →
      get_play_check game player suit rank = .error (.INV_CARD_CHOICE, game)) := by
  have hscanLead := get_play_scan_hasLead (game.player player).hand game.handSize
    (game.round.getD 0 default).suit suit rank
  rcases get_play_scan_index (game.player player).hand game.handSize
    (game.round.getD 0 default).suit suit rank with ⟨hinv, hnone⟩ | ⟨i, hi, hidx, hm⟩
  · -- the named card is not in the hand
    have hnot : ¬ ∃ i, i < game.handSize ∧ ¬ played ((game.player player).hand.getD i default) ∧
        (game.player player).hand.getD i default = ⟨suit, (rank : Int)⟩ := by
      rintro ⟨i, hi, _, hc⟩
      exact hnone i hi (match_of_slot_eq _ suit rank hrank hc)
    constructor
    · intro h
      exact absurd h.1 hnot
    · intro _
      unfold get_play_check
      simp only [hinv, ne_eq, not_true_eq_false, if_false, quit_game]
  · -- slot `i` holds the named card
    have hcard := slot_eq_of_match _ suit rank (hhand i hi) hsuit hrank hm
    have hne : (get_play_scan (game.player player).hand game.handSize
        (game.round.getD 0 default).suit suit rank).2 ≠ INVALID := by
      rw [hidx]
      unfold INVALID
      omega
    have htoNat : (get_play_scan (game.player player).hand game.handSize
        (game.round.getD 0 default).suit suit rank).2.toNat = i := by
      rw [hidx]
      exact Int.toNat_ofNat i
    have hunplayed : ¬ played ((game.player player).hand.getD i default) := by
      rw [hcard]
      unfold played
      intro h
      have : suit = 'z' := congrArg Card.suit h
      rw [this] at hsuit
      exact absurd hsuit (by decide)
    by_cases hl : player = game.leadPlayer
    · constructor
      · intro _
        refine ⟨i, hi, hcard, ?_⟩
        unfold get_play_check
        dsimp only
        rw [if_pos hne, htoNat, if_pos hl]
      · intro h
        exact absurd ⟨⟨i, hi, hunplayed, hcard⟩, Or.inl hl⟩ h
    · by_cases hs : ((game.player player).hand.getD i default).suit
          = (game.round.getD 0 default).suit
      · constructor
        · intro _
          refine ⟨i, hi, hcard, ?_⟩
          unfold get_play_check
          dsimp only
          rw [if_pos hne, htoNat, if_neg hl, if_pos hs]
        · intro h
          refine absurd ⟨⟨i, hi, hunplayed, hcard⟩, Or.inr (Or.inl ?_)⟩ h
          rw [← hs, hcard]
      · by_cases hh : (get_play_scan (game.player player).hand game.handSize
            (game.round.getD 0 default).suit suit rank).1 = false
        · constructor
          · intro _
            refine ⟨i, hi, hcard, ?_⟩
            unfold get_play_check
            dsimp only
            rw [if_pos hne, htoNat, if_neg hl, if_neg hs, if_pos hh]
          · intro h
            refine absurd ⟨⟨i, hi, hunplayed, hcard⟩, Or.inr (Or.inr ?_)⟩ h
            rintro ⟨j, hj, _, hjs⟩
            have := hscanLead.mpr ⟨j, hj, hjs⟩
            rw [hh] at this
            exact absurd this (by decide)
        · have hh1 : (get_play_scan (game.player player).hand game.handSize
              (game.round.getD 0 default).suit suit rank).1 = true := by
            simpa using hh
          obtain ⟨j, hj, hjs⟩ := hscanLead.mp hh1
          have hjun : ¬ played ((game.player player).hand.getD j default) := by
            intro hp
            unfold played at hp
            rw [hp] at hjs
            exact hround hl hjs.symm
          constructor
          · rintro ⟨_, h | h | h⟩
            · exact absurd h hl
            · rw [hcard] at hs
              exact absurd h hs
            · exact absurd ⟨j, hj, hjun, hjs⟩ h
          · intro _
            unfold get_play_check
            dsimp only
            rw [if_pos hne, htoNat, if_neg hl, if_neg hs, if_neg hh]
            rfl

/-- C5: for a PLAY line that passes the message checks of `get_play` and names
the card (suit, rank), on a hand of well-formed slots (and, for a player who is
not the leader, a real lead card in `round[0]`): `get_play` returns a hand
index exactly when the hand holds an unplayed slot equal to the named card and
the player is the leader, or the suit is the lead suit, or the player holds no
unplayed card of the lead suit; the returned slot holds exactly the named card;
in every other case the hub quits with INV_CARD_CHOICE (exit status 8). -/
theorem get_play_legality (game : Game) (player : Nat) (message : Line) (rest : List Line)
    (suit : Char) (rank : Nat)
    (hread : (game.player player).read = message :: rest)
    (hparse : Libc.sscanf_PLAY message = ⟨2, suit, rank⟩)
    (hsuit : isSuit suit = true) (hrank : rank ≤ 15)
    (hhand : ∀ i, i < game.handSize → slot_ok ((game.player player).hand.getD i default))
    (hround : player ≠ game.leadPlayer → (game.round.getD 0 default).suit ≠ 'z') :
    ((∃ r, get_play game player = .ok r) ↔
      ((∃ i, i < game.handSize ∧ ¬ played ((game.player player).hand.getD i default) ∧
          (game.player player).hand.getD i default = ⟨suit, (rank : Int)⟩) ∧
        (player = game.leadPlayer ∨ suit = (game.round.getD 0 default).suit ∨
          ¬ ∃ i, i < game.handSize ∧ ¬ played ((game.player player).hand.getD i default) ∧
            ((game.player player).hand.getD i default).suit
              = (game.round.getD 0 default).suit))) ∧
    (∀ game1 i, get_play game player = .ok (game1, i) →
      i < game.handSize ∧ (game.player player).hand.getD i default = ⟨suit, (rank : Int)⟩) ∧
    ((¬ ∃ r, get_play game player = .ok r) →
      ∃ game1, get_play game player = .error (.INV_CARD_CHOICE, game1) ∧
        ExitStatus.code .INV_CARD_CHOICE = 8) := by
  have hlen : player < game.players.length := by
    by_contra hge
    rw [player_of_length_le game player (Nat.le_of_not_lt hge)] at hread
    have hd : (default : Player).read = [] := rfl
    rw [hd] at hread
    exact List.noConfusion hread
  obtain ⟨game1, hg1⟩ : ∃ g, g = game.updPlayer player (fun p => { p with read := rest }) :=
    ⟨_, rfl⟩
  have hgp : get_play game player = get_play_check game1 player suit rank := by
    unfold get_play
    rw [hread]
    simp only [hparse]
    have hr : ¬ ((2 : Int) ≠ 2 ∨ rank < Libc.toUInt32 MIN_RANK
        ∨ rank > Libc.toUInt32 MAX_RANK ∨ isSuit suit = false) := by
      have e0 : Libc.toUInt32 MIN_RANK = 0 := rfl
      have e15 : Libc.toUInt32 MAX_RANK = 15 := rfl
      rw [e0, e15, hsuit]
      simp only [ne_eq, not_true_eq_false, Nat.not_lt_zero, false_or, Bool.true_eq_false,
        or_false, not_lt, ge_iff_le]
      exact hrank
    rw [if_neg hr, hg1]
  have hH : (game1.player player).hand = (game.player player).hand := by
    rw [hg1, player_updPlayer_self game player _ hlen]
  have hS : game1.handSize = game.handSize := by rw [hg1]; rfl
  have hR : game1.round = game.round := by rw [hg1]; rfl
  have hL : game1.leadPlayer = game.leadPlayer := by rw [hg1]; rfl
  have spec := get_play_check_spec game1 player suit rank hsuit hrank
    (by rw [hH, hS]; exact hhand) (by rw [hL, hR]; exact hround)
  rw [hH, hS, hR, hL, ← hgp] at spec
  obtain ⟨hyes, hno⟩ := spec
  refine ⟨⟨?_, ?_⟩, ?_, ?_⟩
  · rintro ⟨r, hr⟩
    by_contra hn
    rw [hno hn] at hr
    exact Except.noConfusion hr
  · intro h
    obtain ⟨i, _, _, hok⟩ := hyes h
    exact ⟨_, hok⟩
  · intro g i hok
    by_cases hleg : ((∃ i, i < game.handSize ∧ ¬ played ((game.player player).hand.getD i default) ∧
          (game.player player).hand.getD i default = ⟨suit, (rank : Int)⟩) ∧
        (player = game.leadPlayer ∨ suit = (game.round.getD 0 default).suit ∨
          ¬ ∃ i, i < game.handSize ∧ ¬ played ((game.player player).hand.getD i default) ∧
            ((game.player player).hand.getD i default).suit
              = (game.round.getD 0 default).suit))
    · obtain ⟨j, hj, hc, hok2⟩ := hyes hleg
      rw [hok2] at hok
      injection hok with hok
      injection hok with _ hji
      subst hji
      exact ⟨hj, hc⟩
    · rw [hno hleg] at hok
      exact Except.noConfusion hok
  · intro hnone
    refine ⟨game1, ?_, rfl⟩
    apply hno
    intro hleg
    obtain ⟨i, _, _, hok⟩ := hyes hleg
    exact hnone ⟨_, hok⟩

end Hub

/-! ## The state without its streams -/

namespace Hub

/-- Assigning to a slot the value it holds changes nothing. -/
theorem set_getD_self {α : Type} (l : List α) (i : Nat) (d : α) : l.set i (l.getD i d) = l := by
  by_cases h : i < l.length
  · apply List.ext_getElem
    · simp only [List.length_set]
    · intro n h1 h2
      rw [List.getElem_set]
      by_cases hin : i = n
      · subst hin
        rw [if_pos rfl, List.getD_eq_getElem l d h]
      · rw [if_neg hin]
  · exact List.set_eq_of_length_le (Nat.le_of_not_lt h)

/-- The player records of the erased game. -/
theorem erase_player (game : Game) (j : Nat) : game.erase.player j = (game.player j).strip := by
  have h := List.getD_map game.players (default : Player) (n := j) Player.strip
  exact h

/-- The erased game has the points of the game. -/
theorem points_of_erase_eq {g1 g2 : Game} (h : g1.erase = g2.erase) (j : Nat) :
    (g1.player j).points = (g2.player j).points := by
  have := congrArg (fun e => (e.player j).points) h
  simpa only [erase_player] using this

/-- The erased game has the diamond counts of the game. -/
theorem dWon_of_erase_eq {g1 g2 : Game} (h : g1.erase = g2.erase) (j : Nat) :
    (g1.player j).dWon = (g2.player j).dWon := by
  have := congrArg (fun e => (e.player j).dWon) h
  simpa only [erase_player] using this

/-- The erased game has the hands of the game. -/
theorem hand_of_erase_eq {g1 g2 : Game} (h : g1.erase = g2.erase) (j : Nat) :
    (g1.player j).hand = (g2.player j).hand := by
  have := congrArg (fun e => (e.player j).hand) h
  simpa only [erase_player] using this

/-- The erased game has as many player records as the game. -/
theorem length_of_erase_eq {g1 g2 : Game} (h : g1.erase = g2.erase) :
    g1.players.length = g2.players.length := by
  have := congrArg (fun e => e.players.length) h
  simpa only [Game.erase, List.length_map] using this

/-- The erased game has the total of points of the game. -/
theorem totalPoints_of_erase_eq {g1 g2 : Game} (h : g1.erase = g2.erase) :
    totalPoints g1 = totalPoints g2 := by
  have h1 : ∀ g : Game, totalPoints g = totalPoints g.erase := by
    intro g
    simp only [totalPoints, Game.erase, List.map_map]
    rfl
  rw [h1 g1, h1 g2, h]

/-- An assignment to the streams of a player is not seen in the erased game. -/
theorem erase_updPlayer_streams (game : Game) (i : Nat) (f : Player → Player)
    (hf : ∀ p, (f p).strip = p.strip) : (game.updPlayer i f).erase = game.erase := by
  have hp : (game.players.set i (f (game.player i))).map Player.strip
      = game.players.map Player.strip := by
    rw [List.map_set, hf, ← List.map_set]
    unfold Game.player
    rw [set_getD_self]
  simp only [Game.erase, Game.updPlayer, hp]

/-- An assignment to the other fields of a player acts on the erased game. -/
theorem erase_updPlayer_board (game : Game) (i : Nat) (f : Player → Player)
    (hf : ∀ p, (f p).strip = f p.strip) :
    (game.updPlayer i f).erase = game.erase.updPlayer i f := by
  have hp : (game.players.set i (f (game.player i))).map Player.strip
      = (game.players.map Player.strip).set i (f (game.erase.player i)) := by
    rw [List.map_set, hf, erase_player]
  simp only [Game.erase, Game.updPlayer] at hp ⊢
  rw [hp]

/-- Writing a line to a player is not seen in the erased game. -/
theorem erase_send (game : Game) (j : Nat) (line : Line) : (send game j line).erase = game.erase :=
  erase_updPlayer_streams game j _ (fun _ => rfl)

/-- Printing is not seen in the erased game. -/
theorem erase_print (game : Game) (text : List Char) : (print game text).erase = game.erase :=
  rfl

/-- A loop whose steps are not seen in the erased game is not seen either. -/
theorem erase_foldl {α : Type} (step : Game → α → Game)
    (hstep : ∀ g a, (step g a).erase = g.erase) (l : List α) (game : Game) :
    (l.foldl step game).erase = game.erase := by
  induction l generalizing game with
  | nil => rfl
  | cons a l ih => rw [List.foldl_cons, ih, hstep]

/-! ## One play and one trick in the hub -/

/-- What `get_play_check` returns when it returns: the game unchanged and the
index of a slot that matches the named card. -/
theorem get_play_check_ok (game : Game) (player : Nat) (suit : Char) (rank : Nat)
    (game1 : Game) (idx : Nat) (h : get_play_check game player suit rank = .ok (game1, idx)) :
    game1 = game ∧ idx < game.handSize ∧
      ((game.player player).hand.getD idx default).suit = suit ∧
      Libc.toUInt32 ((game.player player).hand.getD idx default).rank = rank := by
  unfold get_play_check at h
  dsimp only at h
  rcases get_play_scan_index (game.player player).hand game.handSize
    (game.round.getD 0 default).suit suit rank with ⟨hinv, _⟩ | ⟨i, hi, hidx, hm⟩
  · rw [if_neg (not_not.mpr hinv)] at h
    exact Except.noConfusion h
  · have htoNat : (get_play_scan (game.player player).hand game.handSize
        (game.round.getD 0 default).suit suit rank).2.toNat = i := by
      rw [hidx]
      exact Int.toNat_ofNat i
    rw [htoNat] at h
    have key : ∀ r : Run (Game × Nat), r = .ok (game1, idx) → (r = .ok (game, i) ∨
        r = quit_game .INV_CARD_CHOICE game) → game1 = game ∧ idx = i := by
      intro r hr hcase
      rcases hcase with hc | hc
      · rw [hc] at hr
        injection hr with hr
        injection hr with h1 h2
        exact ⟨h1.symm, h2.symm⟩
      · rw [hc] at hr
        exact Except.noConfusion hr
    have hcases := key _ h (by split_ifs <;> simp only [true_or, or_true])
    obtain ⟨h1, h2⟩ := hcases
    subst h1
    subst h2
    exact ⟨rfl, hi, hm⟩

/-- What `get_play` returns when it returns: only the input stream of the
player has changed, and the returned slot holds a card with a real suit. -/
theorem get_play_ok (game : Game) (player : Nat) (game1 : Game) (idx : Nat)
    (h : get_play game player = .ok (game1, idx)) :
    game1.erase = game.erase ∧ idx < game.handSize ∧
      isSuit ((game.player player).hand.getD idx default).suit = true := by
  unfold get_play at h
  cases hread : (game.player player).read with
  | nil =>
    rw [hread] at h
    exact Except.noConfusion h
  | cons message rest =>
    rw [hread] at h
    dsimp only at h
    by_cases hc : (Libc.sscanf_PLAY message).count ≠ 2 ∨
        (Libc.sscanf_PLAY message).rank < Libc.toUInt32 MIN_RANK ∨
        (Libc.sscanf_PLAY message).rank > Libc.toUInt32 MAX_RANK ∨
        isSuit (Libc.sscanf_PLAY message).suit = false
    · rw [if_pos hc] at h
      exact Except.noConfusion h
    · rw [if_neg hc] at h
      obtain ⟨h1, h2, h3, _⟩ := get_play_check_ok _ _ _ _ _ _ h
      have he : (game.updPlayer player (fun p => { p with read := rest })).erase = game.erase :=
        erase_updPlayer_streams game player _ (fun _ => rfl)
      have hsuit : isSuit (Libc.sscanf_PLAY message).suit = true := by
        by_contra hs
        exact hc (Or.inr (Or.inr (Or.inr (by simpa using hs))))
      have hhand := hand_of_erase_eq he player
      rw [hhand] at h3
      rw [h1, he]
      refine ⟨rfl, h2, ?_⟩
      rw [h3]
      exact hsuit

/-- Storing a card in the trick buffer acts on the erased game. -/
theorem erase_setRound (game : Game) (i : Nat) (card : Card) :
    (game.setRound i card).erase = game.erase.setRound i card :=
  rfl

/-- Marking a slot as played acts on the erased game. -/
theorem erase_markPlayed (game : Game) (player idx : Nat) :
    (game.markPlayed player idx).erase = game.erase.markPlayed player idx :=
  erase_updPlayer_board game player
    (fun p => { p with hand := p.hand.set idx ⟨'z', INVALID⟩ }) (fun _ => rfl)

/-- What `play_card` does to the game when it returns: position `i` of the
trick buffer receives the card of a slot of the current player, that slot held
a card with a real suit, and it is marked as played. -/
theorem play_card_ok (game : Game) (i : Nat) (game1 : Game) (h : play_card game i = .ok game1) :
    ∃ idx, idx < game.handSize ∧
      isSuit ((game.player ((game.leadPlayer + i) % game.numPlayers)).hand.getD idx default).suit
        = true ∧
      game1.erase =
        (game.erase.setRound i
          ((game.player ((game.leadPlayer + i) % game.numPlayers)).hand.getD idx default)).markPlayed
          ((game.leadPlayer + i) % game.numPlayers) idx := by
  unfold play_card at h
  dsimp only at h
  cases hg : get_play game ((game.leadPlayer + i) % game.numPlayers) with
  | error e =>
    rw [hg] at h
    exact Except.noConfusion h
  | ok r =>
    obtain ⟨g1, idx⟩ := r
    rw [hg] at h
    dsimp only at h
    injection h with h
    obtain ⟨he, hidx, hsuit⟩ := get_play_ok _ _ _ _ hg
    refine ⟨idx, hidx, hsuit, ?_⟩
    have hh := hand_of_erase_eq he ((game.leadPlayer + i) % game.numPlayers)
    rw [← h, erase_markPlayed, erase_foldl, erase_setRound, he, hh]
    intro g j
    split_ifs
    · exact erase_send _ _ _
    · rfl


/-- The relation `sameScores` is reflexive. -/
theorem sameScores_refl (g : Game) : sameScores g g :=
  ⟨rfl, rfl, rfl, rfl, rfl, rfl, rfl, rfl, rfl, rfl⟩

/-- The relation `sameScores` is transitive. -/
theorem sameScores_trans {g1 g2 g3 : Game} (h12 : sameScores g1 g2) (h23 : sameScores g2 g3) :
    sameScores g1 g3 := by
  obtain ⟨a1, a2, a3, a4, a5, a6, a7, a8, a9, a10⟩ := h12
  obtain ⟨b1, b2, b3, b4, b5, b6, b7, b8, b9, b10⟩ := h23
  exact ⟨b1.trans a1, b2.trans a2, b3.trans a3, b4.trans a4, b5.trans a5, b6.trans a6,
    b7.trans a7, b8.trans a8, b9.trans a9, b10.trans a10⟩

/-- A field that an assignment to a player does not touch keeps its values. -/
theorem map_updPlayer_field {β : Type} (proj : Player → β) (game : Game) (i : Nat)
    (f : Player → Player) (hf : ∀ p, proj (f p) = proj p) :
    (game.updPlayer i f).players.map proj = game.players.map proj := by
  simp only [Game.updPlayer]
  rw [List.map_set, hf, ← List.map_set]
  unfold Game.player
  rw [set_getD_self]

/-- Games that are equal without their streams have the same scores. -/
theorem sameScores_of_erase_eq {g1 g2 : Game} (h : g1.erase = g2.erase) : sameScores g1 g2 := by
  have hmapP : ∀ g : Game, g.erase.players.map Player.points = g.players.map Player.points := by
    intro g
    simp only [Game.erase, List.map_map]
    rfl
  have hmapD : ∀ g : Game, g.erase.players.map Player.dWon = g.players.map Player.dWon := by
    intro g
    simp only [Game.erase, List.map_map]
    rfl
  refine ⟨(congrArg Game.numPlayers h).symm, (congrArg Game.leadPlayer h).symm,
    (congrArg Game.handSize h).symm, (congrArg Game.threshold h).symm,
    (congrArg Game.deck h).symm, (congrArg Game.deckSize h).symm,
    (length_of_erase_eq h).symm, ?_, ?_, ?_⟩
  · exact (congrArg (fun e => e.round.length) h).symm
  · rw [← hmapP g2, ← hmapP g1, h]
  · rw [← hmapD g2, ← hmapD g1, h]

/-- Storing a card of the trick and marking a slot do not change the scores. -/
theorem sameScores_setRound_markPlayed (game : Game) (i : Nat) (card : Card) (p idx : Nat) :
    sameScores game ((game.setRound i card).markPlayed p idx) := by
  refine ⟨rfl, rfl, rfl, rfl, rfl, rfl, ?_, ?_, ?_, ?_⟩
  · simp only [Game.markPlayed, Game.updPlayer, Game.setRound, List.length_set]
  · simp only [Game.markPlayed, Game.updPlayer, Game.setRound, List.length_set]
  · exact map_updPlayer_field Player.points (game.setRound i card) p _ (fun _ => rfl)
  · exact map_updPlayer_field Player.dWon (game.setRound i card) p _ (fun _ => rfl)

/-- One play does not change the scores. -/
theorem sameScores_play_card (game : Game) (i : Nat) (game1 : Game)
    (h : play_card game i = .ok game1) : sameScores game game1 := by
  obtain ⟨idx, _, _, he⟩ := play_card_ok game i game1 h
  rw [← erase_setRound, ← erase_markPlayed] at he
  exact sameScores_trans (sameScores_setRound_markPlayed game i _ _ idx)
    (sameScores_of_erase_eq he.symm)

/-- The plays of a trick do not change the scores. -/
theorem sameScores_play_cards (is : List Nat) (game game1 : Game)
    (h : play_cards is game = .ok game1) : sameScores game game1 := by
  induction is generalizing game with
  | nil =>
    unfold play_cards at h
    injection h with h
    rw [h]
    exact sameScores_refl game1
  | cons i is ih =>
    unfold play_cards at h
    cases hc : play_card game i with
    | error e =>
      rw [hc] at h
      exact Except.noConfusion h
    | ok g1 =>
      rw [hc] at h
      exact sameScores_trans (sameScores_play_card game i g1 hc) (ih g1 h)

/-- The points of one player in a game with the same scores. -/
theorem points_of_sameScores {g1 g2 : Game} (h : sameScores g1 g2) (j : Nat) :
    (g2.player j).points = (g1.player j).points := by
  have h9 := h.2.2.2.2.2.2.2.2.1
  have e : ∀ g : Game, (g.player j).points = (g.players.map Player.points).getD j 0 := by
    intro g
    exact (List.getD_map g.players (default : Player) (n := j) Player.points).symm
  rw [e g2, e g1, h9]

/-- The diamond count of one player in a game with the same scores. -/
theorem dWon_of_sameScores {g1 g2 : Game} (h : sameScores g1 g2) (j : Nat) :
    (g2.player j).dWon = (g1.player j).dWon := by
  have h10 := h.2.2.2.2.2.2.2.2.2
  have e : ∀ g : Game, (g.player j).dWon = (g.players.map Player.dWon).getD j 0 := by
    intro g
    exact (List.getD_map g.players (default : Player) (n := j) Player.dWon).symm
  rw [e g2, e g1, h10]

end Hub

/-! ## Scoring a trick -/

namespace Hub

/-- An assignment that gives every field its own value changes nothing. -/
theorem updPlayer_eq_self (game : Game) (i : Nat) (f : Player → Player) (hf : ∀ p, f p = p) :
    game.updPlayer i f = game := by
  simp only [Game.updPlayer, hf]
  unfold Game.player
  rw [set_getD_self]

/-- Two assignments to the same player are one assignment. -/
theorem updPlayer_updPlayer (game : Game) (i : Nat) (f f2 : Player → Player) :
    (game.updPlayer i f).updPlayer i f2 = game.updPlayer i (fun p => f2 (f p)) := by
  by_cases h : i < game.players.length
  · have h1 : (game.updPlayer i f).player i = f (game.player i) :=
      player_updPlayer_self game i f h
    simp only [Game.updPlayer] at h1 ⊢
    rw [h1, List.set_set]
  · have e : ∀ g : Player → Player, game.updPlayer i g = game := by
      intro g
      simp only [Game.updPlayer, List.set_eq_of_length_le (Nat.le_of_not_lt h)]
    rw [e f, e f2, e]

/-- The number of trick positions in `is` that hold a card of suit D. -/
theorem addDWon_loop (w : Nat) (is : List Nat) (game : Game) :
    is.foldl (fun g i => if (g.round.getD i default).suit = 'D' then g.addDWon w else g) game
      = game.updPlayer w (fun p =>
          { p with dWon := p.dWon +
              ((is.filter (fun i => decide ((game.round.getD i default).suit = 'D'))).length : Int) }) := by
  induction is generalizing game with
  | nil =>
    rw [List.foldl_nil]
    exact (updPlayer_eq_self game w _ (fun p => by simp)).symm
  | cons i is ih =>
    rw [List.foldl_cons]
    by_cases hd : (game.round.getD i default).suit = 'D'
    · rw [if_pos hd, ih]
      have hr : (game.addDWon w).round = game.round := rfl
      rw [hr]
      unfold Game.addDWon
      rw [updPlayer_updPlayer]
      congr 1
      funext p
      simp only [List.filter_cons, hd, decide_True, if_true, List.length_cons, Nat.cast_add,
        Nat.cast_one]
      congr 1
      omega
    · rw [if_neg hd, ih]
      congr 1
      funext p
      simp only [List.filter_cons, hd, decide_False, Bool.false_eq_true, if_false]

/-- Counting over the positions of a buffer is counting over its cards. -/
theorem filter_range_length (l : List Card) (q : Card → Bool) :
    ((List.range l.length).filter (fun i => q (l.getD i default))).length = l.countP q := by
  induction l with
  | nil => rfl
  | cons a t ih =>
    rw [List.length_cons, List.range_succ_eq_map, List.filter_cons, List.filter_map,
      List.countP_cons]
    have h0 : (a :: t).getD 0 default = a := rfl
    have hs : ((fun i => q ((a :: t).getD i default)) ∘ Nat.succ)
        = fun i => q (t.getD i default) := by
      funext i
      rfl
    rw [h0, hs]
    by_cases hq : q a = true
    · simp only [hq, if_true, List.length_cons, List.length_map, ih]
    · simp only [hq, Bool.false_eq_true, if_false, List.length_map, ih, Nat.add_zero]

/-- The sum of a list of numbers after one of them is replaced. -/
theorem sum_set_int (l : List Int) (i : Nat) (v : Int) (h : i < l.length) :
    (l.set i v).sum = l.sum + (v - l.getD i 0) := by
  induction l generalizing i with
  | nil => exact absurd h (Nat.not_lt_zero i)
  | cons a t ih =>
    cases i with
    | zero =>
      simp only [List.set_cons_zero, List.sum_cons, List.getD_cons_zero]
      omega
    | succ i =>
      have hi : i < t.length := Nat.lt_of_succ_lt_succ h
      simp only [List.set_cons_succ, List.sum_cons, List.getD_cons_succ, ih i hi]
      omega

/-- The closed form of `score_round`. -/
theorem score_round_eq (game : Game) :
    score_round game
      = Game.updPlayer { game.addPoint (find_winner game) with leadPlayer := find_winner game }
          (find_winner game)
          (fun p => { p with dWon := p.dWon +
            (((List.range game.numPlayers).filter
              (fun i => decide ((game.round.getD i default).suit = 'D'))).length : Int) }) := by
  unfold score_round
  dsimp only
  rw [addDWon_loop]
  rfl

/-- What `score_round` does: the winner found by `find_winner` becomes the
lead player, gets one point and one `dWon` for every card of suit D among the
first `numPlayers` cards of the trick buffer; nothing else changes. -/
theorem score_round_spec (game : Game) (hw : find_winner game < game.players.length) :
    (score_round game).leadPlayer = find_winner game ∧
    (score_round game).numPlayers = game.numPlayers ∧
    (score_round game).handSize = game.handSize ∧
    (score_round game).round = game.round ∧
    (score_round game).players.length = game.players.length ∧
    ((score_round game).player (find_winner game)).points
      = (game.player (find_winner game)).points + 1 ∧
    ((score_round game).player (find_winner game)).dWon
      = (game.player (find_winner game)).dWon +
        (((List.range game.numPlayers).filter
          (fun i => decide ((game.round.getD i default).suit = 'D'))).length : Int) ∧
    (∀ j, j ≠ find_winner game → (score_round game).player j = game.player j) ∧
    (∀ j, ((score_round game).player j).hand = (game.player j).hand) ∧
    totalPoints (score_round game) = totalPoints game + 1 := by
  rw [score_round_eq]
  generalize hk : (((List.range game.numPlayers).filter
    (fun i => decide ((game.round.getD i default).suit = 'D'))).length : Int) = k
  generalize find_winner game = w at hw ⊢
  unfold Game.addPoint
  have hcomb : Game.updPlayer { game.updPlayer w (fun p => { p with points := p.points + 1 }) with
        leadPlayer := w } w (fun p => { p with dWon := p.dWon + k })
      = { game.updPlayer w (fun p => { p with points := p.points + 1, dWon := p.dWon + k }) with
        leadPlayer := w } := by
    have := updPlayer_updPlayer game w (fun p => { p with points := p.points + 1 })
      (fun p => { p with dWon := p.dWon + k })
    simp only [Game.updPlayer, Game.player] at this ⊢
    simp only [Game.mk.injEq, true_and, and_true] at this ⊢
    exact this
  rw [hcomb]
  have hself := player_updPlayer_self game w
    (fun p => { p with points := p.points + 1, dWon := p.dWon + k }) hw
  refine ⟨rfl, rfl, rfl, rfl, ?_, ?_, ?_, ?_, ?_, ?_⟩
  · exact length_updPlayer game w (fun p => { p with points := p.points + 1, dWon := p.dWon + k })
  · exact congrArg Player.points hself
  · exact congrArg Player.dWon hself
  · intro j hj
    exact player_updPlayer_ne game w j (fun p => { p with points := p.points + 1, dWon := p.dWon + k }) (Ne.symm hj)
  · intro j
    exact player_updPlayer_field Player.hand game w j (fun p => { p with points := p.points + 1, dWon := p.dWon + k }) (fun _ => rfl)
  · show (List.map Player.points (game.players.set w _)).sum = totalPoints game + 1
    rw [List.map_set, sum_set_int _ _ _ (by rw [List.length_map]; exact hw)]
    unfold totalPoints
    have e : (game.players.map Player.points).getD w 0 = (game.player w).points :=
      List.getD_map game.players (default : Player) (n := w) Player.points
    rw [e]
    dsimp only
    omega

end Hub

/-! ## A trick, and the whole game -/

namespace Hub

/-- The stages of `play_hand` when it returns: the announcement of the round
changes only the streams, then the cards are played, then the trick is
scored. -/
theorem play_hand_ok (game game1 : Game) (h : play_hand game = .ok game1) :
    ∃ g0 g3, g0.erase = game.erase ∧
      play_cards (List.range game.numPlayers) g0 = .ok g3 ∧
      game1 = score_round (print g3 (cards_text g3)) := by
  unfold play_hand at h
  dsimp only at h
  have he : (print ((List.range game.numPlayers).foldl
      (fun g i => send g i (newround_line g.leadPlayer)) game)
      ("Lead player=".toList ++ Libc.fmt_d ((List.range game.numPlayers).foldl
        (fun g i => send g i (newround_line g.leadPlayer)) game).leadPlayer ++ ['\n'])).erase
      = game.erase := by
    rw [erase_print, erase_foldl]
    intro g a
    exact erase_send _ _ _
  generalize (print ((List.range game.numPlayers).foldl
      (fun g i => send g i (newround_line g.leadPlayer)) game)
      ("Lead player=".toList ++ Libc.fmt_d ((List.range game.numPlayers).foldl
        (fun g i => send g i (newround_line g.leadPlayer)) game).leadPlayer ++ ['\n'])) = g0
    at h he
  have hn : g0.numPlayers = game.numPlayers := (sameScores_of_erase_eq he).1.symm
  rw [hn] at h
  cases hc : play_cards (List.range game.numPlayers) g0 with
  | error e =>
    rw [hc] at h
    exact Except.noConfusion h
  | ok g3 =>
    rw [hc] at h
    injection h with h
    exact ⟨g0, g3, he, hc, h.symm⟩

/-- The scores after the cards of a trick have been played and printed. -/
theorem sameScores_before_score (game g0 g3 : Game) (he : g0.erase = game.erase)
    (hc : play_cards (List.range game.numPlayers) g0 = .ok g3) :
    sameScores game (print g3 (cards_text g3)) :=
  sameScores_trans (sameScores_of_erase_eq he.symm)
    (sameScores_trans (sameScores_play_cards _ g0 g3 hc)
      (sameScores_of_erase_eq (erase_print g3 (cards_text g3)).symm))

/-- The winner found by `find_winner` is a seat of the game. -/
theorem find_winner_lt (game : Game) (hn : 1 ≤ game.numPlayers) :
    find_winner game < game.numPlayers :=
  Nat.mod_lt _ (by omega)

/-- C4: after `play_hand` has resolved a trick, the lead player is the winner
that `find_winner` finds for the trick in the buffer; the points of the winner
have increased by exactly 1 and the `dWon` of the winner by exactly the number
of cards of suit D in the trick (all of them); the points and the `dWon` of
every other player are unchanged. -/
theorem play_hand_scores (game game1 : Game) (hn : 1 ≤ game.numPlayers)
    (hlen : game.players.length = game.numPlayers)
    (hround : game.round.length = game.numPlayers)
    (h : play_hand game = .ok game1) :
    game1.leadPlayer < game.numPlayers ∧
    game1.leadPlayer = find_winner { game1 with leadPlayer := game.leadPlayer } ∧
    (game1.player game1.leadPlayer).points = (game.player game1.leadPlayer).points + 1 ∧
    (game1.player game1.leadPlayer).dWon
      = (game.player game1.leadPlayer).dWon
        + (game1.round.countP (fun c => decide (c.suit = 'D')) : Int) ∧
    (∀ j, j ≠ game1.leadPlayer →
      (game1.player j).points = (game.player j).points ∧
      (game1.player j).dWon = (game.player j).dWon) := by
  obtain ⟨g0, g3, he, hc, hg1⟩ := play_hand_ok game game1 h
  have hs := sameScores_before_score game g0 g3 he hc
  generalize print g3 (cards_text g3) = g4 at hs hg1
  obtain ⟨s1, s2, s3, s4, s5, s6, s7, s8, s9, s10⟩ := id hs
  have hw : find_winner g4 < g4.players.length := by
    rw [s7, hlen, ← s1]
    exact find_winner_lt g4 (by omega)
  obtain ⟨r1, r2, r3, r4, r5, r6, r7, r8, r9, r10⟩ := score_round_spec g4 hw
  rw [← hg1] at r1 r2 r3 r4 r5 r6 r7 r8 r9 r10
  have hlead : game1.leadPlayer < game.numPlayers := by
    rw [r1, ← s1]
    exact find_winner_lt g4 (by omega)
  have hcount : (((List.range g4.numPlayers).filter
      (fun i => decide ((g4.round.getD i default).suit = 'D'))).length : Int)
      = (game1.round.countP (fun c => decide (c.suit = 'D')) : Int) := by
    have hl : g4.numPlayers = g4.round.length := by rw [s8, hround, s1]
    rw [hl, filter_range_length g4.round (fun c => decide (c.suit = 'D')), r4]
  refine ⟨hlead, ?_, ?_, ?_, ?_⟩
  · rw [r1]
    unfold find_winner
    dsimp only
    rw [r4, r2, s2]
  · rw [r1, r6, points_of_sameScores hs]
  · rw [r1, r7, dWon_of_sameScores hs, hcount]
  · intro j hj
    rw [r1] at hj
    rw [r8 j hj]
    exact ⟨points_of_sameScores hs j, dWon_of_sameScores hs j⟩

/-- One trick adds one point in total and keeps the shape of the game. -/
theorem play_hand_total (game game1 : Game) (hn : 1 ≤ game.numPlayers)
    (hlen : game.players.length = game.numPlayers) (h : play_hand game = .ok game1) :
    totalPoints game1 = totalPoints game + 1 ∧ game1.numPlayers = game.numPlayers ∧
      game1.players.length = game.players.length := by
  obtain ⟨g0, g3, he, hc, hg1⟩ := play_hand_ok game game1 h
  have hs := sameScores_before_score game g0 g3 he hc
  generalize print g3 (cards_text g3) = g4 at hs hg1
  obtain ⟨s1, s2, s3, s4, s5, s6, s7, s8, s9, s10⟩ := id hs
  have hw : find_winner g4 < g4.players.length := by
    rw [s7, hlen, ← s1]
    exact find_winner_lt g4 (by omega)
  obtain ⟨r1, r2, r3, r4, r5, r6, r7, r8, r9, r10⟩ := score_round_spec g4 hw
  rw [← hg1] at r2 r5 r10
  refine ⟨?_, r2.trans s1, r5.trans s7⟩
  rw [r10]
  unfold totalPoints
  rw [s9]

/-- The tricks of a game add one point each. -/
theorem play_hands_total (n : Nat) (game game1 : Game) (hn : 1 ≤ game.numPlayers)
    (hlen : game.players.length = game.numPlayers) (h : play_hands n game = .ok game1) :
    totalPoints game1 = totalPoints game + n := by
  induction n generalizing game with
  | zero =>
    unfold play_hands at h
    injection h with h
    rw [h]
    simp only [Nat.cast_zero, add_zero]
  | succ n ih =>
    unfold play_hands at h
    cases hc : play_hand game with
    | error e =>
      rw [hc] at h
      exact Except.noConfusion h
    | ok g1 =>
      rw [hc] at h
      obtain ⟨t1, t2, t3⟩ := play_hand_total game g1 hn hlen hc
      rw [ih g1 (by omega) (by omega) h, t1]
      push_cast
      omega

end Hub

/-! ## Dealing -/

namespace Hub

/-- An assignment to fields other than the points and the diamond count keeps
the scores. -/
theorem sameScores_updPlayer (game : Game) (i : Nat) (f : Player → Player)
    (hp : ∀ p, (f p).points = p.points) (hd : ∀ p, (f p).dWon = p.dWon) :
    sameScores game (game.updPlayer i f) :=
  ⟨rfl, rfl, rfl, rfl, rfl, rfl, length_updPlayer game i f, rfl,
    map_updPlayer_field Player.points game i f hp, map_updPlayer_field Player.dWon game i f hd⟩

/-- A loop whose steps keep the scores keeps the scores. -/
theorem sameScores_foldl {α : Type} (step : Game → α → Game)
    (hstep : ∀ g a, sameScores g (step g a)) (l : List α) (game : Game) :
    sameScores game (l.foldl step game) := by
  induction l generalizing game with
  | nil => exact sameScores_refl game
  | cons a l ih => exact sameScores_trans (hstep game a) (ih (step game a))

/-- The closed form of the inner loop of the deal over the slots `js`: the
text of the cards is appended to the line, and the cards are stored in the hand
of player `i`. -/
theorem deal_cards_loop (i h : Nat) (js : List Nat) (acc : Line × Game) :
    js.foldl
      (fun (acc : Line × Game) j =>
        (acc.1 ++ ',' :: fmt_card (acc.2.deck.getD (i * h + j) default),
         acc.2.updPlayer i (fun p =>
           { p with hand := p.hand.set j (acc.2.deck.getD (i * h + j) default) })))
      acc
    = (acc.1 ++ js.flatMap (fun j => ',' :: fmt_card (acc.2.deck.getD (i * h + j) default)),
       acc.2.updPlayer i (fun p =>
         { p with
           hand := List.foldl (fun hd j => hd.set j (acc.2.deck.getD (i * h + j) default))
             p.hand js })) := by
  induction js generalizing acc with
  | nil =>
    simp only [List.foldl_nil, List.flatMap_nil, List.append_nil]
    rw [updPlayer_eq_self acc.2 i _ (fun _ => rfl)]
  | cons j js ih =>
    rw [List.foldl_cons, ih]
    have hdeck : (acc.2.updPlayer i (fun p =>
        { p with hand := p.hand.set j (acc.2.deck.getD (i * h + j) default) })).deck
        = acc.2.deck := rfl
    simp only [hdeck, updPlayer_updPlayer, List.flatMap_cons, List.append_assoc,
      List.foldl_cons, List.cons_append]

/-- The closed form of one round of the outer loop of the deal. -/
theorem deal_step (game : Game) (i h : Nat) :
    send (deal_cards game i h).2 i (deal_cards game i h).1
      = game.updPlayer i (dealt game.deck i h) := by
  unfold deal_cards
  rw [deal_cards_loop i h (List.range h) ("HAND".toList ++ Libc.fmt_d h, game)]
  unfold send
  rw [updPlayer_updPlayer]
  rfl

/-- The state after the first `n` rounds of the outer loop of the deal. -/
theorem deal_loop (game : Game) (h n : Nat) (hn : n ≤ game.players.length) :
    ((List.range n).foldl (fun g i => send (deal_cards g i h).2 i (deal_cards g i h).1) game).deck
      = game.deck ∧
    ((List.range n).foldl (fun g i => send (deal_cards g i h).2 i (deal_cards g i h).1)
      game).players.length = game.players.length ∧
    ∀ j, ((List.range n).foldl (fun g i => send (deal_cards g i h).2 i (deal_cards g i h).1)
      game).player j = if j < n then dealt game.deck j h (game.player j) else game.player j := by
  induction n with
  | zero =>
    refine ⟨rfl, rfl, ?_⟩
    intro j
    rw [if_neg (Nat.not_lt_zero j)]
    rfl
  | succ n ih =>
    obtain ⟨h1, h2, h3⟩ := ih (by omega)
    rw [List.range_succ, List.foldl_append, List.foldl_cons, List.foldl_nil, deal_step]
    generalize (List.range n).foldl
      (fun g i => send (deal_cards g i h).2 i (deal_cards g i h).1) game = g at h1 h2 h3
    refine ⟨h1, ?_, ?_⟩
    · rw [length_updPlayer, h2]
    · intro j
      by_cases hj : n = j
      · subst hj
        rw [player_updPlayer_self g n _ (by omega), h3 n, if_neg (Nat.lt_irrefl n),
          if_pos (Nat.lt_succ_self n), h1]
      · rw [player_updPlayer_ne g n j _ hj, h3 j]
        by_cases hlt : j < n
        · rw [if_pos hlt, if_pos (by omega)]
        · rw [if_neg hlt, if_neg (by omega)]

/-- Storing values in the slots `js` of an array, read back. -/
theorem getD_foldl_set {α : Type} (f : Nat → α) (d : α) (js : List Nat) (l : List α) (j : Nat)
    (hj : j < l.length) :
    (js.foldl (fun hd k => hd.set k (f k)) l).getD j d = if j ∈ js then f j else l.getD j d := by
  induction js generalizing l with
  | nil => simp only [List.foldl_nil, List.not_mem_nil, if_false]
  | cons k js ih =>
    rw [List.foldl_cons, ih (l.set k (f k)) (by rw [List.length_set]; exact hj)]
    by_cases hmem : j ∈ js
    · rw [if_pos hmem, if_pos (List.mem_cons_of_mem k hmem)]
    · rw [if_neg hmem]
      by_cases hk : k = j
      · subst hk
        rw [if_pos (List.mem_cons_self k js), List.getD_eq_getElem?_getD, List.getElem?_set,
          if_pos rfl, if_pos hj]
        rfl
      · have : j ∉ k :: js := by
          intro hc
          rcases List.mem_cons.mp hc with h1 | h1
          · exact hk h1.symm
          · exact hmem h1
        rw [if_neg this, List.getD_eq_getElem?_getD, List.getElem?_set, if_neg hk,
          ← List.getD_eq_getElem?_getD]

/-- The deal keeps the scores. -/
theorem sameScores_deal (game : Game) : sameScores game (deal game) := by
  unfold deal
  apply sameScores_foldl
  intro g a
  dsimp only
  rw [deal_step]
  exact sameScores_updPlayer g a _ (fun _ => rfl) (fun _ => rfl)

/-- C8: when the hub deals, with `handSize = deckSize / numPlayers`, slot `j` of
the hand of player `i` receives `deck[i * handSize + j]`, for every player `i`
and every `j < handSize`, and the one line written to player `i` is `HAND`,
the hand size in decimal, and `,<suit><rank>` for exactly those cards in that
order. -/
theorem deal_spec (game : Game) (i : Nat)
    (hlen : game.players.length = game.numPlayers)
    (hhands : ∀ k, k < game.numPlayers →
      (game.player k).hand.length = game.deckSize / game.numPlayers)
    (hi : i < game.numPlayers) :
    (∀ j, j < game.deckSize / game.numPlayers →
      ((deal game).player i).hand.getD j default
        = game.deck.getD (i * (game.deckSize / game.numPlayers) + j) default) ∧
    ((deal game).player i).hand.length = game.deckSize / game.numPlayers ∧
    ((deal game).player i).write = (game.player i).write ++
      ["HAND".toList ++ Libc.fmt_d (game.deckSize / game.numPlayers : Nat) ++
        (List.range (game.deckSize / game.numPlayers)).flatMap
          (fun j => ',' :: fmt_card (((deal game).player i).hand.getD j default))] := by
  obtain ⟨_, _, h3⟩ := deal_loop game (game.deckSize / game.numPlayers) game.numPlayers
    (by omega)
  have hp : (deal game).player i
      = dealt game.deck i (game.deckSize / game.numPlayers) (game.player i) := by
    unfold deal
    dsimp only
    rw [h3 i, if_pos hi]
  have hslot : ∀ j, j < game.deckSize / game.numPlayers →
      ((deal game).player i).hand.getD j default
        = game.deck.getD (i * (game.deckSize / game.numPlayers) + j) default := by
    intro j hj
    rw [hp]
    unfold dealt
    dsimp only
    rw [getD_foldl_set (fun j => game.deck.getD (i * (game.deckSize / game.numPlayers) + j) default)
      default _ _ j (by rw [hhands i hi]; exact hj), if_pos (List.mem_range.mpr hj)]
  refine ⟨hslot, ?_, ?_⟩
  · rw [hp]
    unfold dealt
    dsimp only
    have hl : ∀ (js : List Nat) (l : List Card),
        (js.foldl (fun hd j => hd.set j
          (game.deck.getD (i * (game.deckSize / game.numPlayers) + j) default)) l).length
          = l.length := by
      intro js
      induction js with
      | nil => intro l; rfl
      | cons k js ih =>
        intro l
        rw [List.foldl_cons, ih, List.length_set]
    rw [hl, hhands i hi]
  · have hw : ((deal game).player i).write = (game.player i).write ++
        ["HAND".toList ++ Libc.fmt_d (game.deckSize / game.numPlayers : Nat) ++
          (List.range (game.deckSize / game.numPlayers)).flatMap
            (fun j => ',' :: fmt_card
              (game.deck.getD (i * (game.deckSize / game.numPlayers) + j) default))] := by
      rw [hp]
      rfl
    rw [hw]
    congr 3
    apply List.flatMap_congr
    intro j hj
    rw [hslot j (List.mem_range.mp hj)]

end Hub

/-! ## The whole game: points and final scores -/

namespace Hub

/-- The stages of `play_game` when it returns: the deal, the tricks, and the
announcement of the end, after which the scores are printed. -/
theorem play_game_ok (game final : Game) (h : play_game game = .ok final) :
    ∃ g1 g2, play_hands (game.deckSize / game.numPlayers) (deal game) = .ok g1 ∧
      g2.erase = g1.erase ∧ final = print g2 (scores_text g2) := by
  unfold play_game at h
  dsimp only at h
  cases hc : play_hands (game.deckSize / game.numPlayers) (deal game) with
  | error e =>
    rw [hc] at h
    exact Except.noConfusion h
  | ok g1 =>
    rw [hc] at h
    injection h with h
    refine ⟨g1, _, rfl, ?_, h.symm⟩
    apply erase_foldl
    intro g a
    exact erase_send _ _ _

/-- A completed game adds `deckSize / numPlayers` points in total. -/
theorem play_game_total (game final : Game) (hn : 1 ≤ game.numPlayers)
    (hlen : game.players.length = game.numPlayers) (h : play_game game = .ok final) :
    totalPoints final = totalPoints game + (game.deckSize / game.numPlayers : Nat) := by
  obtain ⟨g1, g2, hp, he, hf⟩ := play_game_ok game final h
  obtain ⟨s1, _, _, _, _, _, s7, _, s9, _⟩ := sameScores_deal game
  have ht := play_hands_total _ (deal game) g1 (by omega) (by omega) hp
  have h2 : totalPoints final = totalPoints g1 := by
    rw [hf]
    exact totalPoints_of_erase_eq ((erase_print g2 _).trans he)
  rw [h2, ht]
  unfold totalPoints
  rw [s9]

/-- The state that `setup_game` and `start_players` build has no points yet and
one record for each player. -/
theorem start_state (threshold : Int) (deckSize : Nat) (deck : List Card) (numPlayers : Nat)
    (junk : Card) (peers : List (List Line)) :
    sameScores (setup_game threshold deckSize deck numPlayers junk)
      (start_players (setup_game threshold deckSize deck numPlayers junk) peers) := by
  unfold start_players
  apply sameScores_foldl
  intro g a
  exact sameScores_updPlayer g a _ (fun _ => rfl) (fun _ => rfl)

/-- C1: for every deck and every number of players (at least 1, so also for
2 or more), when `play_game` runs to completion on the state built by
`setup_game` and `start_players`, whatever the players send, the sum of the
points of all players at the end equals `deckSize / numPlayers`, the hand
size. -/
theorem total_points_eq_handSize (threshold : Int) (deckSize : Nat) (deck : List Card)
    (numPlayers : Nat) (junk : Card) (peers : List (List Line)) (final : Game)
    (hn : 1 ≤ numPlayers)
    (h : play_game
      (start_players (setup_game threshold deckSize deck numPlayers junk) peers) = .ok final) :
    totalPoints final = ((deckSize / numPlayers : Nat) : Int) := by
  obtain ⟨s1, _, _, _, _, s6, s7, _, s9, _⟩ :=
    start_state threshold deckSize deck numPlayers junk peers
  have hnum : (setup_game threshold deckSize deck numPlayers junk).numPlayers = numPlayers := rfl
  have hdeck : (setup_game threshold deckSize deck numPlayers junk).deckSize = deckSize := rfl
  have hlen : (setup_game threshold deckSize deck numPlayers junk).players.length = numPlayers := by
    simp only [setup_game, List.length_replicate]
  have hzero : totalPoints (setup_game threshold deckSize deck numPlayers junk) = 0 := by
    simp only [totalPoints, setup_game, List.map_replicate, List.sum_replicate, smul_zero]
  have ht := play_game_total _ final (by rw [s1, hnum]; exact hn) (by rw [s7, hlen, s1, hnum]) h
  rw [ht, s6, s1, hnum, hdeck]
  unfold totalPoints
  rw [s9]
  unfold totalPoints at hzero
  rw [hzero, zero_add]

/-- A loop that appends one piece of text per element. -/
theorem foldl_append_flatMap {α : Type} (f : α → List Char) (l : List α) (init : List Char) :
    l.foldl (fun out a => out ++ f a) init = init ++ l.flatMap f := by
  induction l generalizing init with
  | nil => simp only [List.foldl_nil, List.flatMap_nil, List.append_nil]
  | cons a l ih => rw [List.foldl_cons, ih, List.flatMap_cons, List.append_assoc]

/-- C7: when `play_game` completes, the last thing the hub has printed is the
score line: for every player `i`, in order, `i`, a colon, and the score, which
is `points - dWon` when `dWon < threshold` and `points + dWon` when
`dWon >= threshold` (points and `dWon` of the final state), followed by a
space, or by the end of the line after the last player. -/
theorem final_scores (game final : Game) (h : play_game game = .ok final) :
    ∃ before, final.stdout = before ++
      (List.range final.numPlayers).flatMap (fun (i : Nat) =>
        Libc.fmt_d i ++ ':' ::
          Libc.fmt_d
            (if (final.player i).dWon < final.threshold then
              (final.player i).points - (final.player i).dWon
            else (final.player i).points + (final.player i).dWon)
          ++ (if i = final.numPlayers - 1 then ['\n'] else [' '])) := by
  obtain ⟨g1, g2, _, _, hf⟩ := play_game_ok game final h
  refine ⟨g2.stdout, ?_⟩
  rw [hf]
  have : scores_text g2 = (List.range g2.numPlayers).flatMap (fun (i : Nat) =>
        Libc.fmt_d i ++ ':' :: Libc.fmt_d (score g2 i)
          ++ (if i = g2.numPlayers - 1 then ['\n'] else [' '])) := by
    unfold scores_text
    have hstep : (fun (out : List Char) (i : Nat) =>
          out ++ Libc.fmt_d i ++ ':' :: Libc.fmt_d (score g2 i)
            ++ (if i = g2.numPlayers - 1 then ['\n'] else [' ']))
        = (fun (out : List Char) (i : Nat) =>
          out ++ (Libc.fmt_d i ++ ':' :: Libc.fmt_d (score g2 i)
            ++ (if i = g2.numPlayers - 1 then ['\n'] else [' ']))) := by
      funext out i
      simp only [List.append_assoc]
    rw [hstep, foldl_append_flatMap, List.nil_append]
  show g2.stdout ++ scores_text g2 = _
  rw [this]
  rfl

end Hub

/-! ## Played cards -/

namespace Hub

/-- A card with a real suit is not the mark of a played card. -/
theorem not_played_of_isSuit (c : Card) (h : isSuit c.suit = true) : ¬ played c := by
  intro hp
  unfold played at hp
  rw [hp] at h
  exact absurd h (by decide)

/-- The hands after one play: the current player has one slot, which held a
card with a real suit, marked as played; the other hands are unchanged. -/
theorem play_card_hands (game : Game) (i : Nat) (game1 : Game)
    (hcur : (game.leadPlayer + i) % game.numPlayers < game.players.length)
    (h : play_card game i = .ok game1) :
    (∃ idx, idx < game.handSize ∧
      isSuit ((game.player ((game.leadPlayer + i) % game.numPlayers)).hand.getD idx default).suit
        = true ∧
      (game1.player ((game.leadPlayer + i) % game.numPlayers)).hand
        = (game.player ((game.leadPlayer + i) % game.numPlayers)).hand.set idx ⟨'z', INVALID⟩) ∧
    (∀ j, j ≠ (game.leadPlayer + i) % game.numPlayers →
      (game1.player j).hand = (game.player j).hand) := by
  obtain ⟨idx, hidx, hsuit, he⟩ := play_card_ok game i game1 h
  rw [← erase_setRound, ← erase_markPlayed] at he
  constructor
  · refine ⟨idx, hidx, hsuit, ?_⟩
    rw [hand_of_erase_eq he]
    unfold Game.markPlayed
    rw [player_updPlayer_self (game.setRound i _) _ _ hcur]
    rfl
  · intro j hj
    rw [hand_of_erase_eq he]
    unfold Game.markPlayed
    rw [player_updPlayer_ne (game.setRound i _) _ j _ (Ne.symm hj)]
    rfl

/-- The hands after the plays at the trick positions `is`, when these positions
belong to different seats: every seat that played has one slot, which held a
card with a real suit, marked as played; the other hands are unchanged. -/
theorem play_cards_hands (is : List Nat) (game game1 : Game)
    (hnd : (is.map (fun i => (game.leadPlayer + i) % game.numPlayers)).Nodup)
    (hcur : ∀ i, i ∈ is → (game.leadPlayer + i) % game.numPlayers < game.players.length)
    (h : play_cards is game = .ok game1) :
    ∀ p,
      (p ∈ is.map (fun i => (game.leadPlayer + i) % game.numPlayers) →
        ∃ idx, idx < game.handSize ∧ isSuit ((game.player p).hand.getD idx default).suit = true ∧
          (game1.player p).hand = (game.player p).hand.set idx ⟨'z', INVALID⟩) ∧
      (p ∉ is.map (fun i => (game.leadPlayer + i) % game.numPlayers) →
        (game1.player p).hand = (game.player p).hand) := by
  induction is generalizing game with
  | nil =>
    intro p
    unfold play_cards at h
    injection h with h
    rw [h]
    exact ⟨fun hm => absurd hm (List.not_mem_nil p), fun _ => rfl⟩
  | cons i is ih =>
    unfold play_cards at h
    cases hc : play_card game i with
    | error e =>
      rw [hc] at h
      exact Except.noConfusion h
    | ok g1 =>
      rw [hc] at h
      obtain ⟨s1, s2, s3, _, _, _, s7, _, _, _⟩ := sameScores_play_card game i g1 hc
      obtain ⟨⟨idx, hidx, hsuit, hset⟩, hothers⟩ :=
        play_card_hands game i g1 (hcur i (List.mem_cons_self i is)) hc
      rw [List.map_cons, List.nodup_cons] at hnd
      have ih1 := ih g1 (by rw [s1, s2]; exact hnd.2)
        (by
          intro k hk
          rw [s1, s2, s7]
          exact hcur k (List.mem_cons_of_mem i hk)) h
      rw [s1, s2, s3] at ih1
      intro p
      obtain ⟨ihin, ihout⟩ := ih1 p
      by_cases hp : p = (game.leadPlayer + i) % game.numPlayers
      · constructor
        · intro _
          refine ⟨idx, hidx, ?_, ?_⟩
          · rw [hp]; exact hsuit
          · rw [ihout (by rw [hp]; exact hnd.1), hp, hset]
        · intro hnot
          rw [List.map_cons] at hnot
          exact absurd (by rw [hp]; exact List.mem_cons_self _ _) hnot
      · constructor
        · intro hmem
          rw [List.map_cons] at hmem
          rcases List.mem_cons.mp hmem with h1 | h1
          · exact absurd h1 hp
          · obtain ⟨idx2, hidx2, hsuit2, hset2⟩ := ihin h1
            rw [hothers p hp] at hsuit2 hset2
            exact ⟨idx2, hidx2, hsuit2, hset2⟩
        · intro hnot
          rw [List.map_cons] at hnot
          have h2 : p ∉ is.map (fun i => (game.leadPlayer + i) % game.numPlayers) :=
            fun hc2 => hnot (List.mem_cons_of_mem _ hc2)
          rw [ihout h2, hothers p hp]

/-- The seats of the trick positions `0 .. n - 1` are all different. -/
theorem seats_nodup (lead n : Nat) :
    ((List.range n).map (fun i => (lead + i) % n)).Nodup := by
  apply List.Nodup.map_on
  · intro i hi j hj hij
    have hi1 := List.mem_range.mp hi
    have hj1 := List.mem_range.mp hj
    have h1 : (lead + i) ≡ (lead + j) [MOD n] := hij
    have h2 : i ≡ j [MOD n] := Nat.ModEq.add_left_cancel' lead h1
    unfold Nat.ModEq at h2
    rw [Nat.mod_eq_of_lt hi1, Nat.mod_eq_of_lt hj1] at h2
    exact h2
  · exact List.nodup_range n

/-- Every seat plays at some position of the trick. -/
theorem seat_mem (lead n p : Nat) (hp : p < n) :
    p ∈ (List.range n).map (fun i => (lead + i) % n) := by
  rw [List.mem_map]
  refine ⟨(p + (n - lead % n)) % n, List.mem_range.mpr (Nat.mod_lt _ (by omega)), ?_⟩
  have hl : lead % n < n := Nat.mod_lt _ (by omega)
  have : lead % n + (p + (n - lead % n)) = p + n := by omega
  show (lead + (p + (n - lead % n)) % n) % n = p
  rw [Nat.add_mod_mod, ← Nat.mod_add_mod, this, Nat.add_mod_right, Nat.mod_eq_of_lt hp]

/-- The hands after one trick: every player has exactly one slot, which was not
played before, marked as played. -/
theorem play_hand_hands (game game1 : Game) (hn : 1 ≤ game.numPlayers)
    (hlen : game.players.length = game.numPlayers) (h : play_hand game = .ok game1) :
    game1.handSize = game.handSize ∧ game1.numPlayers = game.numPlayers ∧
    game1.players.length = game.players.length ∧
    ∀ p, p < game.numPlayers →
      ∃ idx, idx < game.handSize ∧ idx < (game.player p).hand.length ∧
        ¬ played ((game.player p).hand.getD idx default) ∧
        (game1.player p).hand = (game.player p).hand.set idx ⟨'z', INVALID⟩ := by
  obtain ⟨g0, g3, he, hc, hg1⟩ := play_hand_ok game game1 h
  have hs := sameScores_before_score game g0 g3 he hc
  obtain ⟨a1, a2, a3, _, _, _, a7, _, _, _⟩ := sameScores_of_erase_eq he
  obtain ⟨s1, s2, s3, _, _, _, s7, _, _, _⟩ := id hs
  have hw : find_winner (print g3 (cards_text g3)) < (print g3 (cards_text g3)).players.length := by
    rw [s7, hlen, ← s1]
    exact find_winner_lt _ (by omega)
  obtain ⟨_, r2, r3, _, r5, _, _, _, r9, _⟩ := score_round_spec _ hw
  rw [← hg1] at r2 r3 r5 r9
  refine ⟨r3.trans s3, r2.trans s1, r5.trans s7, ?_⟩
  intro p hp
  have hcards := play_cards_hands (List.range game.numPlayers) g0 g3
    (by rw [← a2, ← a1]; exact seats_nodup _ _)
    (by
      intro i _
      rw [← a7, hlen, ← a1]
      exact Nat.mod_lt _ (by omega)) hc p
  rw [← a2, ← a1, ← a3] at hcards
  obtain ⟨idx, hidx, hsuit, hset⟩ := hcards.1 (seat_mem _ _ p hp)
  have hh0 : (g0.player p).hand = (game.player p).hand := hand_of_erase_eq he p
  rw [hh0] at hsuit hset
  refine ⟨idx, hidx, ?_, not_played_of_isSuit _ hsuit, ?_⟩
  · by_contra hge
    rw [List.getD_eq_default _ _ (Nat.le_of_not_lt hge)] at hsuit
    exact absurd hsuit (by decide)
  · rw [r9 p]
    exact hset

/-- Marking one more slot raises the number of marked slots by one. -/
theorem countP_mark (hand : List Card) (idx : Nat) (hin : idx < hand.length)
    (hun : ¬ played (hand.getD idx default)) (h : Nat) :
    (List.range h).countP
        (fun i => decide (played ((hand.set idx ⟨'z', INVALID⟩).getD i default)))
      = (List.range h).countP (fun i => decide (played (hand.getD i default)))
        + (if idx < h then 1 else 0) := by
  induction h with
  | zero => rfl
  | succ h ih =>
    rw [List.range_succ, List.countP_append, List.countP_append, ih]
    simp only [List.countP_cons, List.countP_nil, Nat.zero_add]
    by_cases hk : idx = h
    · subst hk
      have h1 : (hand.set idx ⟨'z', INVALID⟩).getD idx default = ⟨'z', INVALID⟩ := by
        rw [List.getD_eq_getElem?_getD, List.getElem?_set, if_pos rfl, if_pos hin]
        rfl
      have h2 : decide (played (⟨'z', INVALID⟩ : Card)) = true := decide_eq_true rfl
      have h3 : decide (played (hand.getD idx default)) = false := decide_eq_false hun
      rw [h1, h2, h3]
      simp only [Nat.lt_irrefl, Nat.lt_succ_self, if_true, if_false, Bool.false_eq_true,
        Nat.add_zero]
    · have h1 : (hand.set idx ⟨'z', INVALID⟩).getD h default = hand.getD h default := by
        rw [List.getD_eq_getElem?_getD, List.getElem?_set, if_neg hk,
          ← List.getD_eq_getElem?_getD]
      rw [h1]
      split_ifs <;> omega

/-- One trick raises the number of played slots of every player by one. -/
theorem play_hand_playedCount (game game1 : Game) (hn : 1 ≤ game.numPlayers)
    (hlen : game.players.length = game.numPlayers) (h : play_hand game = .ok game1)
    (p : Nat) (hp : p < game.numPlayers) :
    playedCount game1 p = playedCount game p + 1 := by
  obtain ⟨h1, _, _, h4⟩ := play_hand_hands game game1 hn hlen h
  obtain ⟨idx, hidx, hin, hun, hset⟩ := h4 p hp
  unfold playedCount
  rw [h1, hset, countP_mark _ idx hin hun, if_pos hidx]

/-- The tricks of a game raise the number of played slots of every player by
one each. -/
theorem play_hands_playedCount (n : Nat) (game game1 : Game) (hn : 1 ≤ game.numPlayers)
    (hlen : game.players.length = game.numPlayers) (h : play_hands n game = .ok game1)
    (p : Nat) (hp : p < game.numPlayers) :
    playedCount game1 p = playedCount game p + n ∧ game1.handSize = game.handSize := by
  induction n generalizing game with
  | zero =>
    unfold play_hands at h
    injection h with h
    rw [h]
    exact ⟨rfl, rfl⟩
  | succ n ih =>
    unfold play_hands at h
    cases hc : play_hand game with
    | error e =>
      rw [hc] at h
      exact Except.noConfusion h
    | ok g1 =>
      rw [hc] at h
      obtain ⟨t1, t2, t3, _⟩ := play_hand_hands game g1 hn hlen hc
      obtain ⟨i1, i2⟩ := ih g1 (by omega) (by omega) h (by omega)
      rw [i1, play_hand_playedCount game g1 hn hlen hc p hp, i2, t1]
      exact ⟨by omega, rfl⟩

/-- C6: a played card is never selected again.  `get_play` never returns a slot
that is marked as played, whatever line the player sends; every trick marks,
for every player, exactly one slot of the hand that was not marked before and
leaves the other slots as they are; and at the end of a completed game every
one of the `handSize` slots of every player is marked, so each slot has been
played exactly once. -/
theorem played_card_never_reselected (game final : Game) (hn : 1 ≤ game.numPlayers)
    (hlen : game.players.length = game.numPlayers)
    (hsize : game.handSize = game.deckSize / game.numPlayers)
    (h : play_game game = .ok final) :
    (∀ (g : Game) (p i : Nat) (g1 : Game) (j : Nat),
      played ((g.player p).hand.getD i default) → get_play g p = .ok (g1, j) → j ≠ i) ∧
    (∀ (g g1 : Game), 1 ≤ g.numPlayers → g.players.length = g.numPlayers →
      play_hand g = .ok g1 → ∀ p, p < g.numPlayers →
        ∃ idx, idx < g.handSize ∧ idx < (g.player p).hand.length ∧
          ¬ played ((g.player p).hand.getD idx default) ∧
          (g1.player p).hand = (g.player p).hand.set idx ⟨'z', INVALID⟩) ∧
    (∀ p i, p < game.numPlayers → i < game.handSize →
      played ((final.player p).hand.getD i default)) := by
  refine ⟨?_, ?_, ?_⟩
  · intro g p i g1 j hplayed hget hji
    obtain ⟨_, _, hsuit⟩ := get_play_ok g p g1 j hget
    rw [hji] at hsuit
    exact not_played_of_isSuit _ hsuit hplayed
  · intro g g1 hn1 hlen1 hplay p hp
    exact (play_hand_hands g g1 hn1 hlen1 hplay).2.2.2 p hp
  · intro p i hp hi
    obtain ⟨g1, g2, hplay, he, hf⟩ := play_game_ok game final h
    obtain ⟨s1, _, s3, _, _, _, s7, _, _, _⟩ := sameScores_deal game
    obtain ⟨c1, c2⟩ := play_hands_playedCount _ (deal game) g1 (by omega) (by omega) hplay p
      (by omega)
    have hfe : final.erase = g1.erase := by
      rw [hf]
      exact (erase_print g2 _).trans he
    have hhand : (final.player p).hand = (g1.player p).hand := hand_of_erase_eq hfe p
    have hle : playedCount g1 p ≤ g1.handSize := by
      unfold playedCount
      exact (List.countP_le_length _).trans (by rw [List.length_range])
    have hcount : playedCount g1 p = (List.range g1.handSize).length := by
      rw [List.length_range]
      rw [c2, s3] at hle ⊢
      rw [hsize] at hle ⊢
      omega
    unfold playedCount at hcount
    have hall := List.countP_eq_length.mp hcount i
      (List.mem_range.mpr (by rw [c2, s3]; exact hi))
    rw [hhand]
    exact of_decide_eq_true hall

end Hub

/-! ## The theorems at a concrete game -/

namespace Hub

/-- Witness for `total_points_eq_handSize`: the sample game completes and two
points have been given. -/
theorem total_points_eq_handSize_witness :
    ∃ final, play_game sample_game = .ok final ∧ totalPoints final = 2 :=
  ⟨Run.game (play_game sample_game), rfl,
    total_points_eq_handSize 2 4 [⟨'S', 0⟩, ⟨'S', 1⟩, ⟨'H', 2⟩, ⟨'H', 3⟩] 2 ⟨'?', 0⟩
      [["PLAYS0".toList, "PLAYS1".toList], ["PLAYH2".toList, "PLAYH3".toList]]
      (Run.game (play_game sample_game)) (by decide) rfl⟩

/-- Witness for `play_hand_scores`: the first trick of the sample game. -/
theorem play_hand_scores_witness :
    ∃ game1, play_hand (deal sample_game) = .ok game1 ∧
      game1.leadPlayer < 2 ∧
      (game1.player game1.leadPlayer).points
        = ((deal sample_game).player game1.leadPlayer).points + 1 :=
  ⟨Run.game (play_hand (deal sample_game)), rfl,
    (play_hand_scores (deal sample_game) (Run.game (play_hand (deal sample_game)))
      (by decide) (by decide) (by decide) rfl).1,
    (play_hand_scores (deal sample_game) (Run.game (play_hand (deal sample_game)))
      (by decide) (by decide) (by decide) rfl).2.2.1⟩

/-- Witness for `get_play_legality`: in the first trick of the sample game,
after player 0 has led S0, player 1, who holds no card of suit S, sends
`PLAYH2`. -/
theorem get_play_legality_witness :
    (∃ r, get_play (Run.game (play_card (deal sample_game) 0)) 1 = .ok r) ↔
      ((∃ i, i < 2 ∧
          ¬ played (((Run.game (play_card (deal sample_game) 0)).player 1).hand.getD i default) ∧
          ((Run.game (play_card (deal sample_game) 0)).player 1).hand.getD i default
            = ⟨'H', 2⟩) ∧
        (1 = 0 ∨ 'H' = 'S' ∨
          ¬ ∃ i, i < 2 ∧
            ¬ played (((Run.game (play_card (deal sample_game) 0)).player 1).hand.getD i default) ∧
            (((Run.game (play_card (deal sample_game) 0)).player 1).hand.getD i default).suit
              = 'S')) :=
  (get_play_legality (Run.game (play_card (deal sample_game) 0)) 1 "PLAYH2".toList
    ["PLAYH3".toList] 'H' 2 rfl rfl rfl (by decide) (by decide) (by decide)).1

/-- Witness for `played_card_never_reselected`: at the end of the sample game
slot 0 of player 0 is marked as played. -/
theorem played_card_never_reselected_witness :
    played (((Run.game (play_game sample_game)).player 0).hand.getD 0 default) :=
  (played_card_never_reselected sample_game (Run.game (play_game sample_game))
    (by decide) (by decide) (by decide) rfl).2.2 0 0 (by decide) (by decide)

/-- Witness for `final_scores`: the sample game ends with the line
`0:2 1:0`. -/
theorem final_scores_witness :
    ∃ before, (Run.game (play_game sample_game)).stdout = before ++ "0:2 1:0\n".toList :=
  final_scores sample_game (Run.game (play_game sample_game)) rfl

/-- Witness for `deal_spec`: player 1 of the sample game receives H2 H3. -/
theorem deal_spec_witness :
    ((deal sample_game).player 1).hand.getD 1 default = ⟨'H', 3⟩ ∧
    ((deal sample_game).player 1).write = ["HAND2,H2,H3".toList] :=
  ⟨(deal_spec sample_game 1 (by decide) (by decide) (by decide)).1 1 (by decide),
    (deal_spec sample_game 1 (by decide) (by decide) (by decide)).2.2⟩

end Hub

/-! ## A malformed PLAY line -/

namespace Libc

/-- What is left after white space has been skipped is part of the string. -/
theorem mem_of_mem_skipSpace (s : List Char) (d : Char) (h : d ∈ skipSpace s) : d ∈ s := by
  induction s with
  | nil => exact h
  | cons c cs ih =>
    unfold skipSpace at h
    split_ifs at h
    · exact List.mem_cons_of_mem c (ih h)
    · exact h

/-- What is left after the sign is part of the string. -/
theorem mem_of_mem_scanSign (s : List Char) (d : Char) (h : d ∈ (scanSign s).2) : d ∈ s := by
  unfold scanSign at h
  split at h
  · exact List.mem_cons_of_mem _ h
  · exact List.mem_cons_of_mem _ h
  · exact h

/-- No digit is read from a string that holds none. -/
theorem scanDigits_of_no_digit (base : Nat) (s : List Char) (a k : Nat)
    (h : ∀ d, d ∈ s → digitIn base d = none) : scanDigits base s a k = (a, k, s) := by
  cases s with
  | nil => rfl
  | cons c cs =>
    unfold scanDigits
    rw [h c (List.mem_cons_self c cs)]

/-- The conversion `%x` fails on a string without a hexadecimal digit. -/
theorem scanHex_of_no_digit (s : List Char) (h : ∀ d, d ∈ s → digitIn 16 d = none) :
    scanHex s = none := by
  have h1 : ∀ d, d ∈ (scanSign (skipSpace s)).2 → digitIn 16 d = none :=
    fun d hd => h d (mem_of_mem_skipSpace s d (mem_of_mem_scanSign _ d hd))
  have h2 : ∀ d, d ∈ (if startsWith0x (scanSign (skipSpace s)).2 then
      (scanSign (skipSpace s)).2.drop 2 else (scanSign (skipSpace s)).2) →
      digitIn 16 d = none := by
    intro d hd
    split_ifs at hd
    · exact h1 d (List.mem_of_mem_drop hd)
    · exact h1 d hd
  unfold scanHex
  simp only [scanDigits_of_no_digit 16 _ 0 0 h2, if_true]

/-- The outcome of `sscanf` on a line that starts with `PLAY` and one more
character. -/
theorem sscanf_PLAY_cons (c : Char) (rest : List Char) :
    sscanf_PLAY ('P' :: 'L' :: 'A' :: 'Y' :: c :: rest) =
      match scanHex rest with
      | none => ⟨1, c, 0⟩
      | some (rank, rest2) =>
        match rest2 with
        | [] => ⟨2, c, rank⟩
        | _ :: _ => ⟨3, c, rank⟩ := by
  simp only [sscanf_PLAY]

/-- A line `PLAY`, a character that is not a suit or a suit without a
hexadecimal digit after it, fails the message check of `get_play`. -/
theorem sscanf_PLAY_bad (c : Char) (rest : List Char)
    (hbad : isSuit c = false ∨ ∀ d, d ∈ rest → digitIn 16 d = none) :
    (sscanf_PLAY ('P' :: 'L' :: 'A' :: 'Y' :: c :: rest)).count ≠ 2 ∨
      isSuit (sscanf_PLAY ('P' :: 'L' :: 'A' :: 'Y' :: c :: rest)).suit = false := by
  rw [sscanf_PLAY_cons]
  rcases hbad with hc | hd
  · right
    cases scanHex rest with
    | none => exact hc
    | some r =>
      obtain ⟨rank, rest2⟩ := r
      cases rest2 with
      | nil => exact hc
      | cons x xs => exact hc
  · left
    rw [scanHex_of_no_digit rest hd]
    show (1 : Int) ≠ 2
    decide

end Libc

namespace Hub

/-- Writing a line to a player leaves every input stream as it is. -/
theorem read_send (game : Game) (i j : Nat) (line : Line) :
    ((send game i line).player j).read = (game.player j).read :=
  player_updPlayer_field Player.read game i j _ (fun _ => rfl)

/-- The lines that a loop of writes of one and the same line leaves in the
output stream of a player are the old ones and that line; the input streams
and the rest of the game are as before. -/
theorem broadcast_spec (line : Game → Line) (hline : ∀ g i, line (send g i (line g)) = line g)
    (is : List Nat) (game : Game) :
    (is.foldl (fun g i => send g i (line g)) game).erase = game.erase ∧
    (∀ j, ((is.foldl (fun g i => send g i (line g)) game).player j).read
      = (game.player j).read) ∧
    (∀ j l, l ∈ ((is.foldl (fun g i => send g i (line g)) game).player j).write →
      l ∈ (game.player j).write ∨ l = line game) := by
  induction is generalizing game with
  | nil => exact ⟨rfl, fun _ => rfl, fun _ l hl => Or.inl hl⟩
  | cons i is ih =>
    obtain ⟨h1, h2, h3⟩ := ih (send game i (line game))
    rw [List.foldl_cons]
    refine ⟨h1.trans (erase_send _ _ _), ?_, ?_⟩
    · intro j
      rw [h2 j, read_send]
    · intro j l hl
      rcases h3 j l hl with h | h
      · by_cases hij : i = j
        · subst hij
          by_cases hlt : i < game.players.length
          · unfold send at h
            rw [player_updPlayer_self game i _ hlt] at h
            rcases List.mem_append.mp h with h' | h'
            · exact Or.inl h'
            · exact Or.inr (List.mem_singleton.mp h')
          · have e : send game i (line game) = game := by
              unfold send
              simp only [Game.updPlayer, List.set_eq_of_length_le (Nat.le_of_not_lt hlt)]
            rw [e] at h
            exact Or.inl h
        · unfold send at h
          rw [player_updPlayer_ne game i j _ hij] at h
          exact Or.inl h
      · right
        rw [h, hline]

/-- C11: a line `PLAY` followed by a character outside D, C, H, S, or by a
suit with no hexadecimal digit after it, makes `get_play` quit with
INV_MESSAGE (exit status 7) whatever the hand and the trick are; the iteration
of `play_hand` that reads it exits at once, in a state whose trick buffer and
output streams are those from before the line was read, so no card is recorded
and no PLAYED message is written, and no later iteration runs.  When the line
comes from the lead player, `play_hand` as a whole exits with INV_MESSAGE with
the trick buffer unchanged and nothing written but the NEWROUND lines. -/
theorem invalid_play_quits (game : Game) (i : Nat) (c : Char) (rest : List Char)
    (more : List Line)
    (hread : (game.player ((game.leadPlayer + i) % game.numPlayers)).read
      = ('P' :: 'L' :: 'A' :: 'Y' :: c :: rest) :: more)
    (hbad : isSuit c = false ∨ ∀ d, d ∈ rest → Libc.digitIn 16 d = none) :
    get_play game ((game.leadPlayer + i) % game.numPlayers)
      = .error (.INV_MESSAGE,
          game.updPlayer ((game.leadPlayer + i) % game.numPlayers)
            (fun p => { p with read := more })) ∧
    ExitStatus.code .INV_MESSAGE = 7 ∧
    play_card game i
      = .error (.INV_MESSAGE,
          game.updPlayer ((game.leadPlayer + i) % game.numPlayers)
            (fun p => { p with read := more })) ∧
    (game.updPlayer ((game.leadPlayer + i) % game.numPlayers)
      (fun p => { p with read := more })).round = game.round ∧
    (∀ j, ((game.updPlayer ((game.leadPlayer + i) % game.numPlayers)
      (fun p => { p with read := more })).player j).write = (game.player j).write) ∧
    (∀ is, play_cards (i :: is) game
      = .error (.INV_MESSAGE,
          game.updPlayer ((game.leadPlayer + i) % game.numPlayers)
            (fun p => { p with read := more }))) ∧
    (i = 0 → 1 ≤ game.numPlayers →
      ∃ game1, play_hand game = .error (.INV_MESSAGE, game1) ∧ game1.round = game.round ∧
        ∀ j l, l ∈ (game1.player j).write →
          l ∈ (game.player j).write ∨ l = newround_line game.leadPlayer) := by
  have hget : ∀ g : Game,
      (g.player ((g.leadPlayer + i) % g.numPlayers)).read
        = ('P' :: 'L' :: 'A' :: 'Y' :: c :: rest) :: more →
      get_play g ((g.leadPlayer + i) % g.numPlayers)
        = .error (.INV_MESSAGE,
            g.updPlayer ((g.leadPlayer + i) % g.numPlayers)
              (fun p => { p with read := more })) := by
    intro g hr
    unfold get_play
    rw [hr]
    dsimp only
    have hcond : (Libc.sscanf_PLAY ('P' :: 'L' :: 'A' :: 'Y' :: c :: rest)).count ≠ 2 ∨
        (Libc.sscanf_PLAY ('P' :: 'L' :: 'A' :: 'Y' :: c :: rest)).rank
          < Libc.toUInt32 MIN_RANK ∨
        (Libc.sscanf_PLAY ('P' :: 'L' :: 'A' :: 'Y' :: c :: rest)).rank
          > Libc.toUInt32 MAX_RANK ∨
        isSuit (Libc.sscanf_PLAY ('P' :: 'L' :: 'A' :: 'Y' :: c :: rest)).suit = false := by
      rcases Libc.sscanf_PLAY_bad c rest hbad with h | h
      · exact Or.inl h
      · exact Or.inr (Or.inr (Or.inr h))
    rw [if_pos hcond]
    rfl
  have hcard : ∀ g : Game,
      (g.player ((g.leadPlayer + i) % g.numPlayers)).read
        = ('P' :: 'L' :: 'A' :: 'Y' :: c :: rest) :: more →
      play_card g i
        = .error (.INV_MESSAGE,
            g.updPlayer ((g.leadPlayer + i) % g.numPlayers)
              (fun p => { p with read := more })) := by
    intro g hr
    unfold play_card
    dsimp only
    rw [hget g hr]
  have hcards : ∀ (g : Game) (is : List Nat),
      (g.player ((g.leadPlayer + i) % g.numPlayers)).read
        = ('P' :: 'L' :: 'A' :: 'Y' :: c :: rest) :: more →
      play_cards (i :: is) g
        = .error (.INV_MESSAGE,
            g.updPlayer ((g.leadPlayer + i) % g.numPlayers)
              (fun p => { p with read := more })) := by
    intro g is hr
    unfold play_cards
    rw [hcard g hr]
  refine ⟨hget game hread, rfl, hcard game hread, rfl, ?_, fun is => hcards game is hread, ?_⟩
  · intro j
    exact player_updPlayer_field Player.write game _ j _ (fun _ => rfl)
  · intro hi hn
    subst hi
    obtain ⟨b1, b2, b3⟩ := broadcast_spec (fun g => newround_line g.leadPlayer)
      (fun _ _ => rfl) (List.range game.numPlayers) game
    obtain ⟨s1, s2, _, _, _, _, _, _, _, _⟩ := sameScores_of_erase_eq b1
    generalize hg0 : (List.range game.numPlayers).foldl
      (fun g i => send g i (newround_line g.leadPlayer)) game = g0 at b1 b2 b3 s1 s2
    obtain ⟨m, hm⟩ : ∃ m, game.numPlayers = m + 1 := ⟨game.numPlayers - 1, by omega⟩
    have hrange : List.range game.numPlayers = 0 :: (List.range m).map Nat.succ := by
      rw [hm, List.range_succ_eq_map]
    obtain ⟨P, hP⟩ : ∃ P, P = print g0 ("Lead player=".toList ++ Libc.fmt_d g0.leadPlayer ++ ['\n']) :=
      ⟨_, rfl⟩
    have p1 : P.numPlayers = game.numPlayers := by rw [hP]; exact s1.symm
    have p2 : P.leadPlayer = game.leadPlayer := by rw [hP]; exact s2.symm
    have p3 : ∀ j, (P.player j).read = (game.player j).read := by
      intro j
      rw [hP]
      exact b2 j
    have p4 : ∀ j, (P.player j).write = (g0.player j).write := by
      intro j
      rw [hP]
      rfl
    have p5 : P.round = game.round := by
      rw [hP]
      have hb : g0.erase.round = game.erase.round := by rw [b1]
      exact hb
    have hr2 : (P.player ((P.leadPlayer + 0) % P.numPlayers)).read
        = ('P' :: 'L' :: 'A' :: 'Y' :: c :: rest) :: more := by
      rw [p1, p2, p3]
      exact hread
    refine ⟨P.updPlayer ((P.leadPlayer + 0) % P.numPlayers) (fun p => { p with read := more }),
      ?_, p5, ?_⟩
    · unfold play_hand
      dsimp only
      have hrangeP : List.range P.numPlayers = 0 :: (List.range m).map Nat.succ := by
        rw [p1]
        exact hrange
      rw [hg0, ← hP, hrangeP, hcards P _ hr2]
    · intro j l hl
      have hw : ((P.updPlayer ((P.leadPlayer + 0) % P.numPlayers)
          (fun p => { p with read := more })).player j).write = (P.player j).write :=
        player_updPlayer_field Player.write P _ j _ (fun _ => rfl)
      rw [hw, p4] at hl
      exact b3 j l hl

/-- Witness for `invalid_play_quits`: the lead player of the sample game sends
`PLAY@` after the deal. -/
theorem invalid_play_quits_witness :
    ∃ game1,
      play_hand ((deal sample_game).updPlayer 0 (fun p => { p with read := ["PLAY@".toList] }))
        = .error (.INV_MESSAGE, game1) ∧
      game1.round = [⟨'?', 0⟩, ⟨'?', 0⟩] ∧
      (game1.player 1).write = ["HAND2,H2,H3".toList, "NEWROUND0".toList] :=
  let ⟨g, h1, h2, _⟩ :=
    (invalid_play_quits
      ((deal sample_game).updPlayer 0 (fun p => { p with read := ["PLAY@".toList] }))
      0 '@' [] [] rfl (Or.inl (by decide))).2.2.2.2.2.2 rfl (by decide)
  ⟨g, h1, h2, by
    have h3 : play_hand
        ((deal sample_game).updPlayer 0 (fun p => { p with read := ["PLAY@".toList] }))
        = .error (.INV_MESSAGE, Run.game (play_hand
          ((deal sample_game).updPlayer 0 (fun p => { p with read := ["PLAY@".toList] })))) :=
      rfl
    rw [h3] at h1
    injection h1 with h1
    injection h1 with _ h1
    rw [← h1]
    rfl⟩

end Hub

/-! ## The player engine at concrete messages -/

/-- C12 (divergence): the player engine does not resolve every trick as the hub
does.  For the trick led by seat 1 in which seat 1 plays S1 and seats 2 and 0
both play S5, the hub (which scans the plays in play order) gives the trick to
seat 2, the player engine (which scans the seats in index order) to seat 0.
In the game `duplicate_game`, whose lines are those that bob, alice and bob
send, the hub ends with the points 0, 1, 1, while the engine of seat 1, fed
with exactly the lines the hub wrote to it, ends normally with the points
1, 1, 0. -/
theorem find_winner_tie_differs :
    Hub.find_winner
      { numPlayers := 3, players := [], deckSize := 6, deck := [], threshold := 2,
        leadPlayer := 1, handSize := 2, round := [⟨'S', 1⟩, ⟨'S', 5⟩, ⟨'S', 5⟩],
        stdout := [] } = 2 ∧
    (PlayerEngine.find_winner_scan
      { numPlayers := 3, playerID := 1, threshold := 2, handSize := 2, turnsRemaining := 1,
        hand := [], leadPlayer := 1, turn := [⟨'S', 5⟩, ⟨'S', 1⟩, ⟨'S', 5⟩],
        playerPoints := [0, 1, 0], dWon := [0, 0, 0], playerCount := 3,
        stdout := [] }).winnerIndex = 0 ∧
    (Hub.Run.game (Hub.play_game Hub.duplicate_game)).players.map Hub.Player.points
      = [0, 1, 1] ∧
    ((Hub.Run.game (Hub.play_game Hub.duplicate_game)).player 1).write
      = ["HAND2,H5,S1".toList, "NEWROUND0".toList, "PLAYED0,H0".toList, "PLAYED2,H1".toList,
         "NEWROUND1".toList, "PLAYED2,S5".toList, "PLAYED0,S5".toList, "GAMEOVER".toList] ∧
    (PlayerEngine.play_game Alice.choose_card
      ((Hub.Run.game (Hub.play_game Hub.duplicate_game)).player 1).write
      (PlayerEngine.setup_game 3 1 2 2 ⟨'?', 0⟩ 0)).1 = .NORMAL ∧
    (PlayerEngine.play_game Alice.choose_card
      ((Hub.Run.game (Hub.play_game Hub.duplicate_game)).player 1).write
      (PlayerEngine.setup_game 3 1 2 2 ⟨'?', 0⟩ 0)).2.playerPoints = [1, 1, 0] ∧
    (PlayerEngine.play_game Alice.choose_card
      ((Hub.Run.game (Hub.play_game Hub.duplicate_game)).player 1).write
      (PlayerEngine.setup_game 3 1 2 2 ⟨'?', 0⟩ 0)).2.stdout
      = ["PLAYH5".toList, "PLAYS1".toList] ∧
    (PlayerEngine.play_game Bob.choose_card
      ((Hub.Run.game (Hub.play_game Hub.duplicate_game)).player 0).write
      (PlayerEngine.setup_game 3 0 2 2 ⟨'?', 0⟩ 0)).2.stdout
      = ["PLAYH0".toList, "PLAYS5".toList] ∧
    (PlayerEngine.play_game Bob.choose_card
      ((Hub.Run.game (Hub.play_game Hub.duplicate_game)).player 2).write
      (PlayerEngine.setup_game 3 2 2 2 ⟨'?', 0⟩ 0)).2.stdout
      = ["PLAYH1".toList, "PLAYS5".toList] :=
  ⟨rfl, rfl, rfl, rfl, rfl, rfl, rfl, rfl, rfl⟩

/-- C14 (divergence): `process_hand_message` compares the declared card count
with `turnsRemaining`, not with the hand size agreed at startup.  After one
trick of a two-card game (`handSize` 2, `turnsRemaining` 1) the message
`HAND1,S5` is accepted and overwrites slot 0 of the hand (slot 1 is the card
already played), the engine goes on to
a normal exit, and the message `HAND2,S5,S6`, whose count is the hand size, is
the one that is rejected with exit status 6. -/
theorem hand_count_checked_against_turnsRemaining :
    (PlayerEngine.play_game Alice.choose_card
      ["HAND2,H2,H3".toList, "NEWROUND0".toList, "PLAYED0,S0".toList]
      (PlayerEngine.setup_game 2 1 2 2 ⟨'?', 0⟩ 0)).2.handSize = 2 ∧
    (PlayerEngine.play_game Alice.choose_card
      ["HAND2,H2,H3".toList, "NEWROUND0".toList, "PLAYED0,S0".toList]
      (PlayerEngine.setup_game 2 1 2 2 ⟨'?', 0⟩ 0)).2.turnsRemaining = 1 ∧
    (PlayerEngine.process_hand_message "HAND1,S5".toList
      (PlayerEngine.play_game Alice.choose_card
        ["HAND2,H2,H3".toList, "NEWROUND0".toList, "PLAYED0,S0".toList]
        (PlayerEngine.setup_game 2 1 2 2 ⟨'?', 0⟩ 0)).2).1 = false ∧
    (PlayerEngine.process_hand_message "HAND1,S5".toList
      (PlayerEngine.play_game Alice.choose_card
        ["HAND2,H2,H3".toList, "NEWROUND0".toList, "PLAYED0,S0".toList]
        (PlayerEngine.setup_game 2 1 2 2 ⟨'?', 0⟩ 0)).2).2.hand = [⟨'S', 5⟩, ⟨'H', INVALID⟩] ∧
    (PlayerEngine.play_game Alice.choose_card
      ["HAND2,H2,H3".toList, "NEWROUND0".toList, "PLAYED0,S0".toList, "HAND1,S5".toList,
       "GAMEOVER".toList]
      (PlayerEngine.setup_game 2 1 2 2 ⟨'?', 0⟩ 0)).1 = .NORMAL ∧
    (PlayerEngine.play_game Alice.choose_card
      ["HAND2,H2,H3".toList, "NEWROUND0".toList, "PLAYED0,S0".toList, "HAND2,S5,S6".toList,
       "GAMEOVER".toList]
      (PlayerEngine.setup_game 2 1 2 2 ⟨'?', 0⟩ 0)).1 = .INV_MESS ∧
    PlayerEngine.ExitStatus.code .INV_MESS = 6 :=
  ⟨rfl, rfl, rfl, rfl, rfl, rfl, rfl⟩

/-- C16 (divergence): the player engine accepts card fields that are not a suit
letter and exactly one lowercase hexadecimal digit.  In a PLAYED message for
the expected seat 0 the fields `SF`, `S0f`, `S+f`, `S0xf`, `S f` are all read
as the card S f and the field `S` (no rank digit) as the card S 0; in a HAND
message the fields `SF` and `S` are accepted in the same way, and an engine fed
with such lines ends with the exit status 0, not 6. -/
theorem player_accepts_noncanonical_card_field :
    ["PLAYED0,SF", "PLAYED0,S0f", "PLAYED0,S+f", "PLAYED0,S0xf", "PLAYED0,S f"].map
        (fun line => PlayerEngine.process_played_message line.toList
          { PlayerEngine.setup_game 2 1 2 1 ⟨'?', 0⟩ 0 with leadPlayer := 0 })
      = List.replicate 5 (false,
          { PlayerEngine.setup_game 2 1 2 1 ⟨'?', 0⟩ 0 with
            leadPlayer := 0, turn := [⟨'S', 15⟩, ⟨'?', 0⟩], playerCount := 1 }) ∧
    PlayerEngine.process_played_message "PLAYED0,S".toList
        { PlayerEngine.setup_game 2 1 2 1 ⟨'?', 0⟩ 0 with leadPlayer := 0 }
      = (false,
          { PlayerEngine.setup_game 2 1 2 1 ⟨'?', 0⟩ 0 with
            leadPlayer := 0, turn := [⟨'S', 0⟩, ⟨'?', 0⟩], playerCount := 1 }) ∧
    PlayerEngine.process_hand_message "HAND1,SF".toList
        (PlayerEngine.setup_game 2 1 2 1 ⟨'?', 0⟩ 0)
      = (false, { PlayerEngine.setup_game 2 1 2 1 ⟨'?', 0⟩ 0 with hand := [⟨'S', 15⟩] }) ∧
    PlayerEngine.process_hand_message "HAND2,S,D".toList
        (PlayerEngine.setup_game 2 1 2 2 ⟨'?', 0⟩ 0)
      = (false,
          { PlayerEngine.setup_game 2 1 2 2 ⟨'?', 0⟩ 0 with hand := [⟨'S', 0⟩, ⟨'D', 0⟩] }) ∧
    (PlayerEngine.play_game Alice.choose_card
      ["HAND1,SF".toList, "NEWROUND0".toList, "PLAYED0,S0xf".toList, "GAMEOVER".toList]
      (PlayerEngine.setup_game 2 1 2 1 ⟨'?', 0⟩ 0)).1 = .NORMAL :=
  ⟨rfl, rfl, rfl, rfl, rfl⟩

/-- C17 (divergence): `process_new_round_message` has no lower bound on the
lead index and does not notice a missing index.  `NEWROUND-1` is accepted and
sets `leadPlayer` to -1, `NEWROUND` alone is accepted as lead 0, and the engine
does not exit with the status 6 on either; only an index at or above
`numPlayers` is rejected. -/
theorem new_round_accepts_bad_index :
    PlayerEngine.process_new_round_message "NEWROUND-1".toList
        (PlayerEngine.setup_game 2 1 2 2 ⟨'?', 0⟩ 5)
      = (false,
          { PlayerEngine.setup_game 2 1 2 2 ⟨'?', 0⟩ 5 with leadPlayer := -1, playerCount := 0 }) ∧
    PlayerEngine.process_new_round_message "NEWROUND".toList
        (PlayerEngine.setup_game 2 1 2 2 ⟨'?', 0⟩ 5)
      = (false,
          { PlayerEngine.setup_game 2 1 2 2 ⟨'?', 0⟩ 5 with leadPlayer := 0, playerCount := 0 }) ∧
    (PlayerEngine.process_new_round_message "NEWROUND2".toList
        (PlayerEngine.setup_game 2 1 2 2 ⟨'?', 0⟩ 5)).1 = true ∧
    (PlayerEngine.play_game Alice.choose_card
      ["HAND2,H2,H3".toList, "NEWROUND-1".toList, "GAMEOVER".toList]
      (PlayerEngine.setup_game 2 1 2 2 ⟨'?', 0⟩ 5)).1 = .NORMAL ∧
    (PlayerEngine.play_game Alice.choose_card
      ["HAND2,H2,H3".toList, "NEWROUND".toList, "GAMEOVER".toList]
      (PlayerEngine.setup_game 2 1 2 2 ⟨'?', 0⟩ 5)).1 = .NORMAL :=
  ⟨rfl, rfl, rfl, rfl, rfl⟩

/-- C18 (divergence): the player engine accepts a PLAYED message after the
trick is complete.  For player 1 of 2, after `HAND2,H2,H3`, `NEWROUND0` and
`PLAYED0,S0` the engine has played and `playerCount` is 2, the number of
players; a further `PLAYED0,S1` without a NEWROUND is accepted, the engine
plays once more, and `playerCount` is 4. -/
theorem played_accepted_after_full_trick :
    (PlayerEngine.accept_all Alice.choose_card
      ["HAND2,H2,H3".toList, "NEWROUND0".toList, "PLAYED0,S0".toList]
      (PlayerEngine.setup_game 2 1 2 2 ⟨'?', 0⟩ 0)).map
        (fun g => (g.numPlayers, g.playerCount, g.stdout))
      = some (2, 2, ["PLAYH3".toList]) ∧
    (PlayerEngine.accept_all Alice.choose_card
      ["HAND2,H2,H3".toList, "NEWROUND0".toList, "PLAYED0,S0".toList, "PLAYED0,S1".toList]
      (PlayerEngine.setup_game 2 1 2 2 ⟨'?', 0⟩ 0)).map
        (fun g => (g.numPlayers, g.playerCount, g.stdout))
      = some (2, 4, ["PLAYH3".toList, "PLAYH2".toList]) :=
  ⟨rfl, rfl⟩

/-! ## The PLAYED message in the player engine -/

namespace PlayerEngine

end PlayerEngine

/-! ## The HAND message -/

namespace Libc

/-- With base 16, `strtol` reads one printed rank digit and stops at the end of
the string or at a comma. -/
theorem strtol_fmt_x_tail (rank : Int) (h0 : 0 ≤ rank) (h15 : rank ≤ 15) (tail : List Char)
    (htail : tail = [] ∨ ∃ t, tail = ',' :: t) :
    strtol (fmt_x rank ++ tail) 16 = (rank, tail) := by
  rcases htail with ht | ⟨t, ht⟩
  · subst ht
    rw [List.append_nil]
    exact strtol_fmt_x rank h0 h15
  · subst ht
    interval_cases rank
    · cases t with
      | nil => rfl
      | cons x xs => rfl
    all_goals rfl

end Libc

namespace PlayerEngine

/-- Assigning to an array at a natural-number index. -/
theorem aset_natCast {α : Type} (a : List α) (i : Nat) (x : α) :
    aset a (i : Int) x = a.set i x := by
  simp [aset]

/-- The first `m + 1` elements of an array after element `m` was assigned. -/
theorem take_succ_set {α : Type} (l : List α) (m : Nat) (a : α) (h : m < l.length) :
    (l.set m a).take (m + 1) = l.take m ++ [a] := by
  induction l generalizing m with
  | nil => exact absurd h (Nat.not_lt_zero m)
  | cons x xs ih =>
    cases m with
    | zero => rfl
    | succ k =>
      have hk : k < xs.length := Nat.lt_of_succ_lt_succ h
      simp only [List.set_cons_succ, List.take_succ_cons, List.cons_append, ih k hk]

/-- One round of the loop of `process_hand_message` on the text of a
well-formed card: the card is stored in slot `m` and the loop goes on behind
the card. -/
theorem hand_loop_step (H : Int) (k m : Nat) (suit : Char) (rank : Int) (tail : List Char)
    (game : Game) (hs : isSuit suit = true) (h0 : 0 ≤ rank) (h15 : rank ≤ 15)
    (htail : tail = [] ∨ ∃ t, tail = ',' :: t)
    (hend : ¬ (((m : Int) < H - 1 ∧ tail.head? ≠ some ',') ∨ ((m : Int) = H - 1 ∧ tail ≠ [])))
    (hm : m < game.hand.length) :
    hand_loop H (k + 1) (m : Int) (',' :: suit :: (Libc.fmt_x rank ++ tail)) game
      = hand_loop H k ((m + 1 : Nat) : Int) tail
          { game with hand := game.hand.set m ⟨suit, rank⟩ } := by
  have hstr := Libc.strtol_fmt_x_tail rank h0 h15 tail htail
  have hr31 : Libc.toInt32 rank = rank := Libc.toInt32_of_small _ (by omega) (by omega)
  have hcond : ¬ (rank < MIN_RANK ∨ rank > MAX_RANK ∨
      ((m : Int) < H - 1 ∧ tail.head? ≠ some ',') ∨ ((m : Int) = H - 1 ∧ tail ≠ [])) := by
    unfold MIN_RANK MAX_RANK
    rintro (h | h | h | h)
    · omega
    · omega
    · exact hend (Or.inl h)
    · exact hend (Or.inr h)
  have hcast : (m : Int) + 1 = ((m + 1 : Nat) : Int) := by push_cast; rfl
  have hback : (game.hand.set m ⟨suit, (game.hand.getD m default).rank⟩).getD m default
      = ⟨suit, (game.hand.getD m default).rank⟩ := by
    rw [List.getD_eq_getElem?_getD, List.getElem?_set, if_pos rfl, if_pos hm]
    rfl
  conv_lhs => rw [hand_loop]
  simp only [List.drop_succ_cons, List.drop_zero, List.headD_cons, hs, hstr, hr31,
    Bool.true_eq_false, if_false, hcond, hcast, aset_natCast, aget_natCast, hback, List.set_set]

/-- The loop of `process_hand_message` on the text of well-formed cards: the
cards are stored in the slots from `m` on. -/
theorem hand_loop_cards (H : Int) (cs : List Card)
    (hvalid : ∀ c, c ∈ cs → isSuit c.suit = true ∧ 0 ≤ c.rank ∧ c.rank ≤ 15) :
    ∀ (m : Nat) (game : Game), (m : Int) + cs.length = H →
      game.hand.length = m + cs.length →
      hand_loop H cs.length (m : Int) (cs.flatMap (fun c => ',' :: fmt_card c)) game
        = (false, { game with hand := game.hand.take m ++ cs }) := by
  induction cs with
  | nil =>
    intro m game _ hlen
    have : game.hand.take m = game.hand := List.take_of_length_le (by simp at hlen; omega)
    simp only [List.length_nil, hand_loop, List.flatMap_nil, List.append_nil, this]
  | cons c cs ih =>
    intro m game hH hlen
    obtain ⟨hs, h0, h15⟩ := hvalid c (List.mem_cons_self c cs)
    have htail : cs.flatMap (fun c => ',' :: fmt_card c) = [] ∨
        ∃ t, cs.flatMap (fun c => ',' :: fmt_card c) = ',' :: t := by
      cases cs with
      | nil => exact Or.inl rfl
      | cons d ds => exact Or.inr ⟨_, rfl⟩
    have hflat : (c :: cs).flatMap (fun c => ',' :: fmt_card c)
        = ',' :: c.suit :: (Libc.fmt_x c.rank ++ cs.flatMap (fun c => ',' :: fmt_card c)) := rfl
    have hm : m < game.hand.length := by
      rw [hlen]
      simp only [List.length_cons]
      omega
    simp only [List.length_cons, Nat.cast_add, Nat.cast_one] at hH hlen
    have hend : ¬ (((m : Int) < H - 1 ∧
          (cs.flatMap (fun c => ',' :: fmt_card c)).head? ≠ some ',') ∨
        ((m : Int) = H - 1 ∧ cs.flatMap (fun c => ',' :: fmt_card c) ≠ [])) := by
      rintro (⟨h, h2⟩ | ⟨h, h2⟩)
      · cases cs with
        | nil =>
          simp only [List.length_nil, Nat.cast_zero] at hH
          omega
        | cons d ds => exact h2 rfl
      · cases cs with
        | nil => exact h2 rfl
        | cons d ds =>
          simp only [List.length_cons, Nat.cast_add, Nat.cast_one] at hH
          omega
    have ih1 := ih (fun d hd => hvalid d (List.mem_cons_of_mem c hd)) (m + 1)
      { game with hand := game.hand.set m ⟨c.suit, c.rank⟩ }
      (by push_cast; omega)
      (by simp only [List.length_set]; omega)
    rw [hflat, List.length_cons,
      hand_loop_step H cs.length m c.suit c.rank _ game hs h0 h15 htail hend hm, ih1]
    simp only [take_succ_set _ _ _ hm, List.append_assoc, List.singleton_append]

/-- A freshly set-up player engine accepts the HAND line of well-formed cards
and then holds exactly these cards. -/
theorem process_hand_message_cards (cards : List Card) (numPlayers playerID threshold : Int)
    (junk : Card) (junkCount : Int) (h1 : 1 ≤ cards.length) (h31 : cards.length < 2 ^ 31)
    (hvalid : ∀ c, c ∈ cards → isSuit c.suit = true ∧ 0 ≤ c.rank ∧ c.rank ≤ 15) :
    process_hand_message
        ("HAND".toList ++ Libc.fmt_d (cards.length : Int)
          ++ cards.flatMap (fun c => ',' :: fmt_card c))
        (setup_game numPlayers playerID threshold (cards.length : Int) junk junkCount)
      = (false,
          { setup_game numPlayers playerID threshold (cards.length : Int) junk junkCount with
            hand := cards }) := by
  obtain ⟨c, cs, hc⟩ : ∃ c cs, cards = c :: cs := by
    cases cards with
    | nil => simp at h1
    | cons c cs => exact ⟨c, cs, rfl⟩
  have hflat : cards.flatMap (fun c => ',' :: fmt_card c)
      = ',' :: (c.suit :: Libc.fmt_x c.rank ++ cs.flatMap (fun c => ',' :: fmt_card c)) := by
    rw [hc]
    rfl
  have hdrop : ("HAND".toList ++ Libc.fmt_d (cards.length : Int)
      ++ cards.flatMap (fun c => ',' :: fmt_card c)).drop 4
      = Libc.fmt_d (cards.length : Int) ++ ',' ::
        (c.suit :: Libc.fmt_x c.rank ++ cs.flatMap (fun c => ',' :: fmt_card c)) := by
    rw [hflat, List.append_assoc]
    rfl
  have h63 : cards.length < 2 ^ 63 := by omega
  have hlt : (cards.length : Int) < 2 ^ 31 := by exact_mod_cast h31
  have hn31 : Libc.toInt32 (cards.length : Int) = (cards.length : Int) :=
    Libc.toInt32_of_small _ (by omega) hlt
  unfold process_hand_message
  simp only [hdrop, Libc.strtol_fmt_d cards.length h63, hn31]
  have hturns : (setup_game numPlayers playerID threshold (cards.length : Int) junk
      junkCount).turnsRemaining = (cards.length : Int) := rfl
  have hcond : ¬ ((cards.length : Int) ≠ (setup_game numPlayers playerID threshold
      (cards.length : Int) junk junkCount).turnsRemaining ∨
      (',' :: (c.suit :: Libc.fmt_x c.rank ++ cs.flatMap (fun c => ',' :: fmt_card c))).head?
        ≠ some ',') := by
    rw [hturns]
    simp only [ne_eq, not_true_eq_false, List.head?_cons, or_self, not_false_eq_true]
  rw [if_neg hcond, ← hflat, Int.toNat_ofNat]
  have hz : (0 : Int) = ((0 : Nat) : Int) := rfl
  rw [hz, hand_loop_cards _ cards hvalid 0 _ (by simp)
    (by simp only [setup_game, List.length_replicate, Int.toNat_ofNat, Nat.zero_add])]
  simp only [List.take_zero, List.nil_append]

end PlayerEngine

/-- C15: HAND round trip.  When the hub deals hands of `handSize` cards, with
`1 ≤ handSize < 2 ^ 31` and every card of the slice of player `i` having a
suit in D, C, H, S and a rank in 0..15, the HAND line that the hub writes to
player `i` is accepted by a freshly set-up player engine configured with that
hand size, and afterwards the hand of the player is exactly the hand that the
hub holds for player `i`, slot by slot. -/
theorem hand_round_trip (hub : Hub.Game) (i : Nat) (numPlayers playerID threshold : Int)
    (junk : Card) (junkCount : Int)
    (hlen : hub.players.length = hub.numPlayers)
    (hhands : ∀ k, k < hub.numPlayers →
      (hub.player k).hand.length = hub.deckSize / hub.numPlayers)
    (hi : i < hub.numPlayers)
    (h1 : 1 ≤ hub.deckSize / hub.numPlayers) (h31 : hub.deckSize / hub.numPlayers < 2 ^ 31)
    (hvalid : ∀ j, j < hub.deckSize / hub.numPlayers →
      isSuit (hub.deck.getD (i * (hub.deckSize / hub.numPlayers) + j) default).suit = true ∧
      0 ≤ (hub.deck.getD (i * (hub.deckSize / hub.numPlayers) + j) default).rank ∧
      (hub.deck.getD (i * (hub.deckSize / hub.numPlayers) + j) default).rank ≤ 15) :
    ∃ line, ((Hub.deal hub).player i).write = (hub.player i).write ++ [line] ∧
      PlayerEngine.process_hand_message line
          (PlayerEngine.setup_game numPlayers playerID threshold
            ((hub.deckSize / hub.numPlayers : Nat) : Int) junk junkCount)
        = (false,
            { PlayerEngine.setup_game numPlayers playerID threshold
                ((hub.deckSize / hub.numPlayers : Nat) : Int) junk junkCount with
              hand := ((Hub.deal hub).player i).hand }) := by
  obtain ⟨_, _, h3⟩ := Hub.deal_loop hub (hub.deckSize / hub.numPlayers) hub.numPlayers
    (by omega)
  have hp : (Hub.deal hub).player i
      = Hub.dealt hub.deck i (hub.deckSize / hub.numPlayers) (hub.player i) := by
    unfold Hub.deal
    dsimp only
    rw [h3 i, if_pos hi]
  generalize hh : hub.deckSize / hub.numPlayers = h at *
  obtain ⟨cards, hcards⟩ : ∃ cards, cards
      = (List.range h).map (fun j => hub.deck.getD (i * h + j) default) := ⟨_, rfl⟩
  have hclen : cards.length = h := by
    rw [hcards, List.length_map, List.length_range]
  have hhand : ((Hub.deal hub).player i).hand = cards := by
    rw [hp]
    unfold Hub.dealt
    dsimp only
    have hl : ∀ (js : List Nat) (l : List Card),
        (js.foldl (fun hd j => hd.set j (hub.deck.getD (i * h + j) default)) l).length
          = l.length := by
      intro js
      induction js with
      | nil => intro l; rfl
      | cons k js ih =>
        intro l
        rw [List.foldl_cons, ih, List.length_set]
    apply List.ext_getElem
    · rw [hl, hhands i hi, hclen]
    · intro n hn1 hn2
      rw [hl, hhands i hi] at hn1
      have e1 := Hub.getD_foldl_set (fun j => hub.deck.getD (i * h + j) default) default
        (List.range h) (hub.player i).hand n (by rw [hhands i hi]; exact hn1)
      rw [if_pos (List.mem_range.mpr hn1), List.getD_eq_getElem _ _ (by rw [hl, hhands i hi]; exact hn1)]
        at e1
      rw [e1]
      simp only [hcards, List.getElem_map, List.getElem_range]
  have hline : ((Hub.deal hub).player i).write = (hub.player i).write ++
      ["HAND".toList ++ Libc.fmt_d (cards.length : Int)
        ++ cards.flatMap (fun c => ',' :: fmt_card c)] := by
    rw [hp, hclen, hcards, List.flatMap_map]
    rfl
  refine ⟨_, hline, ?_⟩
  rw [hhand, ← hclen]
  apply PlayerEngine.process_hand_message_cards
  · rw [hclen]; exact h1
  · rw [hclen]; exact h31
  · intro c hc
    rw [hcards, List.mem_map] at hc
    obtain ⟨j, hj, hjc⟩ := hc
    rw [← hjc]
    exact hvalid j (List.mem_range.mp hj)

/-- Witness for `hand_round_trip`: player 1 of the sample game receives
`HAND2,H2,H3`, and a fresh engine with hand size 2 then holds H2 H3. -/
theorem hand_round_trip_witness :
    ∃ line, ((Hub.deal Hub.sample_game).player 1).write = [] ++ [line] ∧
      PlayerEngine.process_hand_message line (PlayerEngine.setup_game 2 1 2 2 ⟨'?', 0⟩ 0)
        = (false,
            { PlayerEngine.setup_game 2 1 2 2 ⟨'?', 0⟩ 0 with
              hand := ((Hub.deal Hub.sample_game).player 1).hand }) :=
  hand_round_trip Hub.sample_game 1 2 1 2 ⟨'?', 0⟩ 0 (by decide) (by decide) (by decide)
    (by decide) (by decide) (by decide)

/-! ## The card selection policies -/

namespace PlayerEngine

/-- The four suits. -/
theorem isSuit_iff (c : Char) :
    isSuit c = true ↔ c = 'D' ∨ c = 'C' ∨ c = 'H' ∨ c = 'S' := by
  simp only [isSuit, Bool.or_eq_true, beq_iff_eq, or_assoc]

/-- The loop of `find_highest_suit` over the slots `0 .. m - 1`: either no
index has been found, and then no unplayed card of the suit has a rank above
-1; or the index found holds an unplayed card of the suit whose rank is the
highest among the unplayed cards of the suit, and is the first slot with that
rank. -/
theorem find_highest_inv (game : Game) (suit : Char) (m : Nat) :
    (((List.range m).foldl (find_highest_step game suit) (INVALID, MIN_RANK - 1)) = (-1, -1) ∧
      ∀ j, j < m → (game.hand.getD j default).rank ≠ -1 →
        (game.hand.getD j default).suit = suit →
        (game.hand.getD j default).rank ≤ -1) ∨
    (∃ j, j < m ∧
      ((List.range m).foldl (find_highest_step game suit) (INVALID, MIN_RANK - 1))
        = ((j : Int), (game.hand.getD j default).rank) ∧
      (game.hand.getD j default).rank ≠ -1 ∧ (game.hand.getD j default).suit = suit ∧
      (∀ k, k < m → (game.hand.getD k default).rank ≠ -1 →
        (game.hand.getD k default).suit = suit →
        (game.hand.getD k default).rank ≤ (game.hand.getD j default).rank) ∧
      (∀ k, k < j → (game.hand.getD k default).rank ≠ -1 →
        (game.hand.getD k default).suit = suit →
        (game.hand.getD k default).rank < (game.hand.getD j default).rank)) := by
  induction m with
  | zero =>
    left
    exact ⟨rfl, fun j hj => absurd hj (Nat.not_lt_zero j)⟩
  | succ m ih =>
    rw [List.range_succ, List.foldl_append, List.foldl_cons, List.foldl_nil]
    generalize (List.range m).foldl (find_highest_step game suit) (INVALID, MIN_RANK - 1) = st
      at ih
    unfold find_highest_step INVALID
    by_cases hmatch : (game.hand.getD m default).rank ≠ -1 ∧
        (game.hand.getD m default).suit = suit
    · rw [if_pos hmatch]
      rcases ih with ⟨hst, hnone⟩ | ⟨j, hj, hst, hjr, hjs, hmax, hfirst⟩
      · rw [hst]
        dsimp only
        by_cases hgt : (game.hand.getD m default).rank > -1
        · rw [if_pos hgt]
          right
          refine ⟨m, Nat.lt_succ_self m, rfl, hmatch.1, hmatch.2, ?_, ?_⟩
          · intro k hk hkr hks
            rcases Nat.lt_succ_iff_lt_or_eq.mp hk with hlt | heq
            · have h1 := hnone k hlt hkr hks
              omega
            · rw [heq]
          · intro k hk hkr hks
            have h1 := hnone k hk hkr hks
            omega
        · rw [if_neg hgt]
          left
          refine ⟨rfl, ?_⟩
          intro k hk hkr hks
          rcases Nat.lt_succ_iff_lt_or_eq.mp hk with hlt | heq
          · exact hnone k hlt hkr hks
          · rw [heq]
            omega
      · rw [hst]
        dsimp only
        by_cases hgt : (game.hand.getD m default).rank > (game.hand.getD j default).rank
        · rw [if_pos hgt]
          right
          refine ⟨m, Nat.lt_succ_self m, rfl, hmatch.1, hmatch.2, ?_, ?_⟩
          · intro k hk hkr hks
            rcases Nat.lt_succ_iff_lt_or_eq.mp hk with hlt | heq
            · have h1 := hmax k hlt hkr hks
              omega
            · rw [heq]
          · intro k hk hkr hks
            have h1 := hmax k hk hkr hks
            omega
        · rw [if_neg hgt]
          right
          refine ⟨j, Nat.lt_succ_of_lt hj, rfl, hjr, hjs, ?_, hfirst⟩
          intro k hk hkr hks
          rcases Nat.lt_succ_iff_lt_or_eq.mp hk with hlt | heq
          · exact hmax k hlt hkr hks
          · rw [heq]
            omega
    · rw [if_neg hmatch]
      rcases ih with ⟨hst, hnone⟩ | ⟨j, hj, hst, hjr, hjs, hmax, hfirst⟩
      · left
        refine ⟨hst, ?_⟩
        intro k hk hkr hks
        rcases Nat.lt_succ_iff_lt_or_eq.mp hk with hlt | heq
        · exact hnone k hlt hkr hks
        · rw [heq] at hkr hks
          exact absurd ⟨hkr, hks⟩ hmatch
      · right
        refine ⟨j, Nat.lt_succ_of_lt hj, hst, hjr, hjs, ?_, hfirst⟩
        intro k hk hkr hks
        rcases Nat.lt_succ_iff_lt_or_eq.mp hk with hlt | heq
        · exact hmax k hlt hkr hks
        · rw [heq] at hkr hks
          exact absurd ⟨hkr, hks⟩ hmatch

/-- The loop of `find_lowest_suit` over the slots `0 .. m - 1`: either no index
has been found, and then no unplayed card of the suit has a rank below 16; or
the index found holds an unplayed card of the suit whose rank is the lowest
among the unplayed cards of the suit, and is the first slot with that rank. -/
theorem find_lowest_inv (game : Game) (suit : Char) (m : Nat) :
    (((List.range m).foldl (find_lowest_step game suit) (INVALID, MAX_RANK + 1)) = (-1, 16) ∧
      ∀ j, j < m → (game.hand.getD j default).rank ≠ -1 →
        (game.hand.getD j default).suit = suit →
        16 ≤ (game.hand.getD j default).rank) ∨
    (∃ j, j < m ∧
      ((List.range m).foldl (find_lowest_step game suit) (INVALID, MAX_RANK + 1))
        = ((j : Int), (game.hand.getD j default).rank) ∧
      (game.hand.getD j default).rank ≠ -1 ∧ (game.hand.getD j default).suit = suit ∧
      (∀ k, k < m → (game.hand.getD k default).rank ≠ -1 →
        (game.hand.getD k default).suit = suit →
        (game.hand.getD j default).rank ≤ (game.hand.getD k default).rank) ∧
      (∀ k, k < j → (game.hand.getD k default).rank ≠ -1 →
        (game.hand.getD k default).suit = suit →
        (game.hand.getD j default).rank < (game.hand.getD k default).rank)) := by
  induction m with
  | zero =>
    left
    exact ⟨rfl, fun j hj => absurd hj (Nat.not_lt_zero j)⟩
  | succ m ih =>
    rw [List.range_succ, List.foldl_append, List.foldl_cons, List.foldl_nil]
    generalize (List.range m).foldl (find_lowest_step game suit) (INVALID, MAX_RANK + 1) = st
      at ih
    unfold find_lowest_step INVALID
    by_cases hmatch : (game.hand.getD m default).rank ≠ -1 ∧
        (game.hand.getD m default).suit = suit
    · rw [if_pos hmatch]
      rcases ih with ⟨hst, hnone⟩ | ⟨j, hj, hst, hjr, hjs, hmin, hfirst⟩
      · rw [hst]
        dsimp only
        by_cases hlt16 : (game.hand.getD m default).rank < 16
        · rw [if_pos hlt16]
          right
          refine ⟨m, Nat.lt_succ_self m, rfl, hmatch.1, hmatch.2, ?_, ?_⟩
          · intro k hk hkr hks
            rcases Nat.lt_succ_iff_lt_or_eq.mp hk with hlt | heq
            · have h1 := hnone k hlt hkr hks
              omega
            · rw [heq]
          · intro k hk hkr hks
            have h1 := hnone k hk hkr hks
            omega
        · rw [if_neg hlt16]
          left
          refine ⟨rfl, ?_⟩
          intro k hk hkr hks
          rcases Nat.lt_succ_iff_lt_or_eq.mp hk with hlt | heq
          · exact hnone k hlt hkr hks
          · rw [heq]
            omega
      · rw [hst]
        dsimp only
        by_cases hlow : (game.hand.getD m default).rank < (game.hand.getD j default).rank
        · rw [if_pos hlow]
          right
          refine ⟨m, Nat.lt_succ_self m, rfl, hmatch.1, hmatch.2, ?_, ?_⟩
          · intro k hk hkr hks
            rcases Nat.lt_succ_iff_lt_or_eq.mp hk with hlt | heq
            · have h1 := hmin k hlt hkr hks
              omega
            · rw [heq]
          · intro k hk hkr hks
            have h1 := hmin k hk hkr hks
            omega
        · rw [if_neg hlow]
          right
          refine ⟨j, Nat.lt_succ_of_lt hj, rfl, hjr, hjs, ?_, hfirst⟩
          intro k hk hkr hks
          rcases Nat.lt_succ_iff_lt_or_eq.mp hk with hlt | heq
          · exact hmin k hlt hkr hks
          · rw [heq]
            omega
    · rw [if_neg hmatch]
      rcases ih with ⟨hst, hnone⟩ | ⟨j, hj, hst, hjr, hjs, hmin, hfirst⟩
      · left
        refine ⟨hst, ?_⟩
        intro k hk hkr hks
        rcases Nat.lt_succ_iff_lt_or_eq.mp hk with hlt | heq
        · exact hnone k hlt hkr hks
        · rw [heq] at hkr hks
          exact absurd ⟨hkr, hks⟩ hmatch
      · right
        refine ⟨j, Nat.lt_succ_of_lt hj, hst, hjr, hjs, ?_, hfirst⟩
        intro k hk hkr hks
        rcases Nat.lt_succ_iff_lt_or_eq.mp hk with hlt | heq
        · exact hmin k hlt hkr hks
        · rw [heq] at hkr hks
          exact absurd ⟨hkr, hks⟩ hmatch

/-- An index that `find_highest_suit` returns is a slot of the hand that holds
an unplayed card of the suit. -/
theorem find_highest_found (game : Game) (suit : Char)
    (h : find_highest_suit game suit ≠ INVALID) :
    0 ≤ find_highest_suit game suit ∧ find_highest_suit game suit < game.handSize ∧
      (aget game.hand (find_highest_suit game suit)).rank ≠ INVALID ∧
      (aget game.hand (find_highest_suit game suit)).suit = suit := by
  unfold find_highest_suit at h ⊢
  rcases find_highest_inv game suit game.handSize.toNat with ⟨hst, _⟩ | ⟨j, hj, hst, hjr, hjs, _⟩
  · rw [hst] at h
    exact absurd rfl h
  · rw [hst]
    dsimp only
    rw [aget_natCast]
    exact ⟨by omega, by omega, hjr, hjs⟩

/-- When the hand holds an unplayed card of the suit with a rank of at least 0,
`find_highest_suit` returns an index. -/
theorem find_highest_exists (game : Game) (suit : Char)
    (h : ∃ j, j < game.handSize.toNat ∧ (game.hand.getD j default).rank ≠ INVALID ∧
      (game.hand.getD j default).suit = suit ∧ 0 ≤ (game.hand.getD j default).rank) :
    find_highest_suit game suit ≠ INVALID := by
  obtain ⟨j, hj, hjr, hjs, hj0⟩ := h
  unfold find_highest_suit
  rcases find_highest_inv game suit game.handSize.toNat with ⟨_, hnone⟩ | ⟨k, _, hst, _⟩
  · have := hnone j hj hjr hjs
    omega
  · rw [hst]
    unfold INVALID
    dsimp only
    omega

/-- An index that `find_lowest_suit` returns is a slot of the hand that holds
an unplayed card of the suit. -/
theorem find_lowest_found (game : Game) (suit : Char)
    (h : find_lowest_suit game suit ≠ INVALID) :
    0 ≤ find_lowest_suit game suit ∧ find_lowest_suit game suit < game.handSize ∧
      (aget game.hand (find_lowest_suit game suit)).rank ≠ INVALID ∧
      (aget game.hand (find_lowest_suit game suit)).suit = suit := by
  unfold find_lowest_suit at h ⊢
  rcases find_lowest_inv game suit game.handSize.toNat with ⟨hst, _⟩ | ⟨j, hj, hst, hjr, hjs, _⟩
  · rw [hst] at h
    exact absurd rfl h
  · rw [hst]
    dsimp only
    rw [aget_natCast]
    exact ⟨by omega, by omega, hjr, hjs⟩

/-- When the hand holds an unplayed card of the suit with a rank of at most 15,
`find_lowest_suit` returns an index. -/
theorem find_lowest_exists (game : Game) (suit : Char)
    (h : ∃ j, j < game.handSize.toNat ∧ (game.hand.getD j default).rank ≠ INVALID ∧
      (game.hand.getD j default).suit = suit ∧ (game.hand.getD j default).rank ≤ 15) :
    find_lowest_suit game suit ≠ INVALID := by
  obtain ⟨j, hj, hjr, hjs, hj15⟩ := h
  unfold find_lowest_suit
  rcases find_lowest_inv game suit game.handSize.toNat with ⟨_, hnone⟩ | ⟨k, _, hst, _⟩
  · have := hnone j hj hjr hjs
    omega
  · rw [hst]
    unfold INVALID
    dsimp only
    omega

/-- An index that the loop over a suit preference returns is an index that the
search returned for one of the suits. -/
theorem first_choice_some (find : Char → Int) (suits : List Char) (i : Int)
    (h : first_choice find suits = some i) : ∃ s, s ∈ suits ∧ find s = i ∧ find s ≠ INVALID := by
  induction suits with
  | nil => exact Option.noConfusion h
  | cons s rest ih =>
    unfold first_choice at h
    by_cases hs : find s ≠ INVALID
    · rw [if_pos hs] at h
      injection h with h
      exact ⟨s, List.mem_cons_self s rest, h, hs⟩
    · rw [if_neg hs] at h
      obtain ⟨t, ht, hti, htn⟩ := ih h
      exact ⟨t, List.mem_cons_of_mem s ht, hti, htn⟩

/-- The loop over a suit preference returns when the search finds a card for
one of the suits. -/
theorem first_choice_ne_none (find : Char → Int) (suits : List Char)
    (h : ∃ s, s ∈ suits ∧ find s ≠ INVALID) : first_choice find suits ≠ none := by
  induction suits with
  | nil =>
    obtain ⟨s, hs, _⟩ := h
    exact absurd hs (List.not_mem_nil s)
  | cons s rest ih =>
    unfold first_choice
    by_cases hs : find s ≠ INVALID
    · rw [if_pos hs]
      exact Option.noConfusion
    · rw [if_neg hs]
      apply ih
      obtain ⟨t, ht, htn⟩ := h
      rcases List.mem_cons.mp ht with h1 | h1
      · rw [h1] at htn
        exact absurd htn hs
      · exact ⟨t, h1, htn⟩

/-- A search over the four suits in any order, by highest or by lowest card,
returns a slot with an unplayed card when the hand holds an unplayed card and
the unplayed cards are well-formed. -/
theorem first_choice_valid (game : Game) (suits : List Char)
    (hall : ∀ c, isSuit c = true → c ∈ suits)
    (hvalid : ∀ j, j < game.handSize.toNat → (game.hand.getD j default).rank ≠ INVALID →
      isSuit (game.hand.getD j default).suit = true ∧ 0 ≤ (game.hand.getD j default).rank ∧
        (game.hand.getD j default).rank ≤ 15)
    (hex : ∃ j, j < game.handSize.toNat ∧ (game.hand.getD j default).rank ≠ INVALID) :
    (∃ i, first_choice (find_highest_suit game) suits = some i ∧ 0 ≤ i ∧ i < game.handSize ∧
      (aget game.hand i).rank ≠ INVALID) ∧
    (∃ i, first_choice (find_lowest_suit game) suits = some i ∧ 0 ≤ i ∧ i < game.handSize ∧
      (aget game.hand i).rank ≠ INVALID) := by
  obtain ⟨j, hj, hjr⟩ := hex
  obtain ⟨hjs, hj0, hj15⟩ := hvalid j hj hjr
  constructor
  · have hne := first_choice_ne_none (find_highest_suit game) suits
      ⟨_, hall _ hjs, find_highest_exists game _ ⟨j, hj, hjr, rfl, hj0⟩⟩
    cases hc : first_choice (find_highest_suit game) suits with
    | none => exact absurd hc hne
    | some i =>
      obtain ⟨s, _, hsi, hsn⟩ := first_choice_some _ _ _ hc
      obtain ⟨f1, f2, f3, _⟩ := find_highest_found game s hsn
      rw [hsi] at f1 f2 f3
      exact ⟨i, rfl, f1, f2, f3⟩
  · have hne := first_choice_ne_none (find_lowest_suit game) suits
      ⟨_, hall _ hjs, find_lowest_exists game _ ⟨j, hj, hjr, rfl, hj15⟩⟩
    cases hc : first_choice (find_lowest_suit game) suits with
    | none => exact absurd hc hne
    | some i =>
      obtain ⟨s, _, hsi, hsn⟩ := first_choice_some _ _ _ hc
      obtain ⟨f1, f2, f3, _⟩ := find_lowest_found game s hsn
      rw [hsi] at f1 f2 f3
      exact ⟨i, rfl, f1, f2, f3⟩

end PlayerEngine

/-- C19: for both policies, in a player state whose hand holds at least one
unplayed card and whose unplayed cards all have a suit in D, C, H, S and a rank
in 0..15, `choose_card` returns an index `i` with `0 ≤ i < handSize` whose slot
is unplayed (`hand[i].rank != INVALID`): it does not return -1 and does not
name a played slot. -/
theorem choose_card_valid (game : PlayerEngine.Game)
    (hvalid : ∀ j, j < game.handSize.toNat → (game.hand.getD j default).rank ≠ INVALID →
      isSuit (game.hand.getD j default).suit = true ∧ 0 ≤ (game.hand.getD j default).rank ∧
        (game.hand.getD j default).rank ≤ 15)
    (hex : ∃ j, j < game.handSize.toNat ∧ (game.hand.getD j default).rank ≠ INVALID) :
    (0 ≤ Alice.choose_card game ∧ Alice.choose_card game < game.handSize ∧
      (PlayerEngine.aget game.hand (Alice.choose_card game)).rank ≠ INVALID) ∧
    (0 ≤ Bob.choose_card game ∧ Bob.choose_card game < game.handSize ∧
      (PlayerEngine.aget game.hand (Bob.choose_card game)).rank ≠ INVALID) := by
  have hmem : ∀ (suits : List Char), ('D' ∈ suits ∧ 'C' ∈ suits ∧ 'H' ∈ suits ∧ 'S' ∈ suits) →
      ∀ c, isSuit c = true → c ∈ suits := by
    intro suits hs c hc
    rcases (PlayerEngine.isSuit_iff c).mp hc with h | h | h | h <;> rw [h]
    · exact hs.1
    · exact hs.2.1
    · exact hs.2.2.1
    · exact hs.2.2.2
  have hsearch : ∀ (suits : List Char),
      ('D' ∈ suits ∧ 'C' ∈ suits ∧ 'H' ∈ suits ∧ 'S' ∈ suits) → _ :=
    fun suits hs => PlayerEngine.first_choice_valid game suits (hmem suits hs) hvalid hex
  have hlow : ∀ s, PlayerEngine.find_lowest_suit game s ≠ INVALID →
      0 ≤ PlayerEngine.find_lowest_suit game s ∧
      PlayerEngine.find_lowest_suit game s < game.handSize ∧
      (PlayerEngine.aget game.hand (PlayerEngine.find_lowest_suit game s)).rank ≠ INVALID :=
    fun s h => ⟨(PlayerEngine.find_lowest_found game s h).1,
      (PlayerEngine.find_lowest_found game s h).2.1,
      (PlayerEngine.find_lowest_found game s h).2.2.1⟩
  have hhigh : ∀ s, PlayerEngine.find_highest_suit game s ≠ INVALID →
      0 ≤ PlayerEngine.find_highest_suit game s ∧
      PlayerEngine.find_highest_suit game s < game.handSize ∧
      (PlayerEngine.aget game.hand (PlayerEngine.find_highest_suit game s)).rank ≠ INVALID :=
    fun s h => ⟨(PlayerEngine.find_highest_found game s h).1,
      (PlayerEngine.find_highest_found game s h).2.1,
      (PlayerEngine.find_highest_found game s h).2.2.1⟩
  have hAfollow : 0 ≤ Alice.follow game ∧ Alice.follow game < game.handSize ∧
      (PlayerEngine.aget game.hand (Alice.follow game)).rank ≠ INVALID := by
    unfold Alice.follow
    split_ifs with h1
    · exact hlow _ h1
    · obtain ⟨i, hi, hp⟩ := (hsearch ['D', 'H', 'S', 'C'] (by decide)).1
      rw [hi]
      exact hp
  have hBfollow : 0 ≤ Bob.follow game ∧ Bob.follow game < game.handSize ∧
      (PlayerEngine.aget game.hand (Bob.follow game)).rank ≠ INVALID := by
    unfold Bob.follow
    split_ifs with h1 h2 h3
    · exact hhigh _ h2
    · obtain ⟨i, hi, hp⟩ := (hsearch ['S', 'C', 'H', 'D'] (by decide)).2
      rw [hi]
      exact hp
    · exact hlow _ h3
    · obtain ⟨i, hi, hp⟩ := (hsearch ['S', 'C', 'D', 'H'] (by decide)).1
      rw [hi]
      exact hp
  constructor
  · unfold Alice.choose_card
    split_ifs with h1
    · obtain ⟨i, hi, hp⟩ := (hsearch ['S', 'C', 'D', 'H'] (by decide)).1
      rw [hi]
      exact hp
    · exact hAfollow
  · unfold Bob.choose_card
    split_ifs with h1
    · obtain ⟨i, hi, hp⟩ := (hsearch ['D', 'H', 'S', 'C'] (by decide)).2
      rw [hi]
      exact hp
    · exact hBfollow

/-- Witness for `choose_card_valid`: player 1 of 2 holds H2 and a played slot,
seat 0 has led S0. -/
theorem choose_card_valid_witness :
    (0 ≤ Alice.choose_card
        { numPlayers := 2, playerID := 1, threshold := 2, handSize := 2, turnsRemaining := 1,
          hand := [⟨'H', 2⟩, ⟨'H', -1⟩], leadPlayer := 0, turn := [⟨'S', 0⟩, ⟨'H', 3⟩],
          playerPoints := [1, 0], dWon := [0, 0], playerCount := 1, stdout := [] } ∧
      Alice.choose_card
        { numPlayers := 2, playerID := 1, threshold := 2, handSize := 2, turnsRemaining := 1,
          hand := [⟨'H', 2⟩, ⟨'H', -1⟩], leadPlayer := 0, turn := [⟨'S', 0⟩, ⟨'H', 3⟩],
          playerPoints := [1, 0], dWon := [0, 0], playerCount := 1, stdout := [] } < 2) ∧
    Bob.choose_card
        { numPlayers := 2, playerID := 1, threshold := 2, handSize := 2, turnsRemaining := 1,
          hand := [⟨'H', 2⟩, ⟨'H', -1⟩], leadPlayer := 0, turn := [⟨'S', 0⟩, ⟨'H', 3⟩],
          playerPoints := [1, 0], dWon := [0, 0], playerCount := 1, stdout := [] } = 0 :=
  ⟨⟨(choose_card_valid
      { numPlayers := 2, playerID := 1, threshold := 2, handSize := 2, turnsRemaining := 1,
        hand := [⟨'H', 2⟩, ⟨'H', -1⟩], leadPlayer := 0, turn := [⟨'S', 0⟩, ⟨'H', 3⟩],
        playerPoints := [1, 0], dWon := [0, 0], playerCount := 1, stdout := [] }
      (by decide) (by decide)).1.1,
    (choose_card_valid
      { numPlayers := 2, playerID := 1, threshold := 2, handSize := 2, turnsRemaining := 1,
        hand := [⟨'H', 2⟩, ⟨'H', -1⟩], leadPlayer := 0, turn := [⟨'S', 0⟩, ⟨'H', 3⟩],
        playerPoints := [1, 0], dWon := [0, 0], playerCount := 1, stdout := [] }
      (by decide) (by decide)).1.2.1⟩, by decide⟩

/-- C20: for both policies, on a turn on which the player does not lead
(`playerID != leadPlayer`) and holds at least one unplayed card of the lead
suit `turn[leadPlayer].suit` (a card, with a rank in 0..15), the card at the
index that `choose_card` returns has the lead suit. -/
theorem choose_card_follows_lead (game : PlayerEngine.Game)
    (hturn : game.playerID ≠ game.leadPlayer)
    (hlead : ∃ j, j < game.handSize.toNat ∧ (game.hand.getD j default).rank ≠ INVALID ∧
      (game.hand.getD j default).suit = (PlayerEngine.aget game.turn game.leadPlayer).suit ∧
      0 ≤ (game.hand.getD j default).rank ∧ (game.hand.getD j default).rank ≤ 15) :
    (PlayerEngine.aget game.hand (Alice.choose_card game)).suit
      = (PlayerEngine.aget game.turn game.leadPlayer).suit ∧
    (PlayerEngine.aget game.hand (Bob.choose_card game)).suit
      = (PlayerEngine.aget game.turn game.leadPlayer).suit := by
  obtain ⟨j, hj, hjr, hjs, hj0, hj15⟩ := hlead
  have hlow := PlayerEngine.find_lowest_exists game
    (PlayerEngine.aget game.turn game.leadPlayer).suit ⟨j, hj, hjr, hjs, hj15⟩
  have hhigh := PlayerEngine.find_highest_exists game
    (PlayerEngine.aget game.turn game.leadPlayer).suit ⟨j, hj, hjr, hjs, hj0⟩
  constructor
  · unfold Alice.choose_card
    rw [if_neg hturn]
    unfold Alice.follow
    have hlow1 : PlayerEngine.find_lowest_suit game
        (PlayerEngine.aget game.turn game.leadPlayer).suit ≠ -1 := hlow
    rw [if_pos hlow1]
    exact (PlayerEngine.find_lowest_found game _ hlow).2.2.2
  · unfold Bob.choose_card
    rw [if_neg hturn]
    unfold Bob.follow
    split_ifs
    · exact (PlayerEngine.find_highest_found game _ hhigh).2.2.2
    · exact (PlayerEngine.find_lowest_found game _ hlow).2.2.2

/-- Witness for `choose_card_follows_lead`: player 1 of 2 holds H2 and S7, seat
0 has led S0; both policies choose S7. -/
theorem choose_card_follows_lead_witness :
    (PlayerEngine.aget [(⟨'H', 2⟩ : Card), ⟨'S', 7⟩]
      (Alice.choose_card
        { numPlayers := 2, playerID := 1, threshold := 2, handSize := 2, turnsRemaining := 2,
          hand := [⟨'H', 2⟩, ⟨'S', 7⟩], leadPlayer := 0, turn := [⟨'S', 0⟩, ⟨'?', 0⟩],
          playerPoints := [0, 0], dWon := [0, 0], playerCount := 1, stdout := [] })).suit = 'S' ∧
    (PlayerEngine.aget [(⟨'H', 2⟩ : Card), ⟨'S', 7⟩]
      (Bob.choose_card
        { numPlayers := 2, playerID := 1, threshold := 2, handSize := 2, turnsRemaining := 2,
          hand := [⟨'H', 2⟩, ⟨'S', 7⟩], leadPlayer := 0, turn := [⟨'S', 0⟩, ⟨'?', 0⟩],
          playerPoints := [0, 0], dWon := [0, 0], playerCount := 1, stdout := [] })).suit = 'S' :=
  choose_card_follows_lead
    { numPlayers := 2, playerID := 1, threshold := 2, handSize := 2, turnsRemaining := 2,
      hand := [⟨'H', 2⟩, ⟨'S', 7⟩], leadPlayer := 0, turn := [⟨'S', 0⟩, ⟨'?', 0⟩],
      playerPoints := [0, 0], dWon := [0, 0], playerCount := 1, stdout := [] }
    (by decide) (by decide)

/-! ## The two-player scenario -/

namespace Hub

/-- C21: the scenario with 2 players, threshold 2 and the deck S0 S1 H2 H3
(`sample_game`).  The deal gives S0 S1 to player 0 and H2 H3 to player 1.  In
trick 1, led by player 0, `get_play` accepts `PLAYS0` from player 0 (slot 0)
and, after that play, `PLAYH2` from player 1 (slot 0); the trick is S0 H2 and
`find_winner` returns player 0 (the state after the trick is `sample_trick1`).
In trick 2, again led by player 0, `PLAYS1` and `PLAYH3` are accepted (slot 1
each) and player 0 wins again.  At the end of the game `dWon` is 0 for both
players, the points are 2 and 0, and the final scores are the points: 2 for
player 0 and 0 for player 1. -/
theorem scenario_two_players :
    ((deal sample_game).player 0).hand = [⟨'S', 0⟩, ⟨'S', 1⟩] ∧
    ((deal sample_game).player 1).hand = [⟨'H', 2⟩, ⟨'H', 3⟩] ∧
    (deal sample_game).leadPlayer = 0 ∧
    ∃ a1 b1 c1 a2 b2 c2 g2 final,
      get_play (deal sample_game) 0 = .ok (a1, 0) ∧
      play_card (deal sample_game) 0 = .ok b1 ∧
      get_play b1 1 = .ok (c1, 0) ∧
      play_hand (deal sample_game) = .ok sample_trick1 ∧
      sample_trick1.round = [⟨'S', 0⟩, ⟨'H', 2⟩] ∧
      find_winner sample_trick1 = 0 ∧ sample_trick1.leadPlayer = 0 ∧
      sample_trick1.players.map Player.points = [1, 0] ∧
      get_play sample_trick1 0 = .ok (a2, 1) ∧
      play_card sample_trick1 0 = .ok b2 ∧
      get_play b2 1 = .ok (c2, 1) ∧
      play_hand sample_trick1 = .ok g2 ∧
      g2.round = [⟨'S', 1⟩, ⟨'H', 3⟩] ∧
      find_winner g2 = 0 ∧ g2.leadPlayer = 0 ∧
      g2.players.map Player.points = [2, 0] ∧
      play_game sample_game = .ok final ∧
      final.players.map Player.dWon = [0, 0] ∧
      final.players.map Player.points = [2, 0] ∧
      score final 0 = 2 ∧ score final 1 = 0 ∧
      scores_text final = "0:2 1:0\n".toList :=
  ⟨rfl, rfl, rfl,
    (deal sample_game).updPlayer 0 (fun p => { p with read := ["PLAYS1".toList] }),
    Run.game (play_card (deal sample_game) 0),
    (Run.game (play_card (deal sample_game) 0)).updPlayer 1
      (fun p => { p with read := ["PLAYH3".toList] }),
    sample_trick1.updPlayer 0 (fun p => { p with read := [] }),
    Run.game (play_card sample_trick1 0),
    (Run.game (play_card sample_trick1 0)).updPlayer 1 (fun p => { p with read := [] }),
    Run.game (play_hand sample_trick1),
    Run.game (play_game sample_game),
    rfl, rfl, rfl, rfl, rfl, rfl, rfl, rfl, rfl, rfl, rfl, rfl, rfl, rfl, rfl, rfl, rfl, rfl,
    rfl, rfl, rfl, rfl⟩

end Hub

/-! ## The player processes at a fatal exit of the hub -/

namespace Hub

/-- C22 (divergence): the hub does not send `kill` to the players when it
quits on a fatal error.  The routine `quit_game` prints the diagnostic and
calls `exit`: for the statuses PLAYER_ERROR, PLAYER_EOF, INV_MESSAGE and
INV_CARD_CHOICE its calls hold no `kill`.  A game in which player 0 sends
`PLAY@` ends with the diagnostic `Invalid message` and `exit(7)`, one in which
the stream of player 0 is at its end with `Player EOF` and `exit(6)`, and one
in which player 0 names a card it does not hold with `Invalid card choice` and
`exit(8)`, each without a `kill`.  Only `sighup_handler` sends the signal 9 to
every player before it quits. -/
theorem no_kill_on_fatal_exit :
    [ExitStatus.PLAYER_ERROR, ExitStatus.PLAYER_EOF, ExitStatus.INV_MESSAGE,
        ExitStatus.INV_CARD_CHOICE].map (fun status => (quit_game_calls status).any SysCall.isKill)
      = [false, false, false, false] ∧
    main_calls
        (start_players
          (setup_game 2 4 [⟨'S', 0⟩, ⟨'S', 1⟩, ⟨'H', 2⟩, ⟨'H', 3⟩] 2 ⟨'?', 0⟩)
          [["PLAY@".toList], ["PLAYH2".toList, "PLAYH3".toList]])
      = [SysCall.stderr "Invalid message\n".toList, SysCall.exit 7] ∧
    main_calls
        (start_players
          (setup_game 2 4 [⟨'S', 0⟩, ⟨'S', 1⟩, ⟨'H', 2⟩, ⟨'H', 3⟩] 2 ⟨'?', 0⟩)
          [[], ["PLAYH2".toList, "PLAYH3".toList]])
      = [SysCall.stderr "Player EOF\n".toList, SysCall.exit 6] ∧
    main_calls
        (start_players
          (setup_game 2 4 [⟨'S', 0⟩, ⟨'S', 1⟩, ⟨'H', 2⟩, ⟨'H', 3⟩] 2 ⟨'?', 0⟩)
          [["PLAYD5".toList], ["PLAYH2".toList, "PLAYH3".toList]])
      = [SysCall.stderr "Invalid card choice\n".toList, SysCall.exit 8] ∧
    sighup_handler_calls
        (start_players
          (setup_game 2 4 [⟨'S', 0⟩, ⟨'S', 1⟩, ⟨'H', 2⟩, ⟨'H', 3⟩] 2 ⟨'?', 0⟩)
          [["PLAY@".toList], ["PLAYH2".toList, "PLAYH3".toList]])
        [101, 102]
      = [SysCall.kill 101 9, SysCall.kill 102 9,
         SysCall.stderr "Exit due to signal\n".toList, SysCall.exit 9] :=
  ⟨rfl, rfl, rfl, rfl, rfl⟩

end Hub

/-! ## The policy on a hand without cards -/

/-- C27 (divergence): the player engine invokes the policy on a hand that holds
no unplayed card.  From the initial state of player 0 of 2 with hand size 1
the message `NEWROUND0` is accepted before any HAND message: the engine plays
a turn (one line is written) although every slot of the hand has the rank
`INVALID`, and both policies return -1, which is not an index in
`[0, handSize)`.  The same happens after `HAND1,H2` and `NEWROUND0` (the card
H2 is played) when a second `NEWROUND0` arrives: it is accepted and the policy
is invoked on the hand whose only slot is played. -/
theorem policy_invoked_on_empty_hand :
    (PlayerEngine.setup_game 2 0 2 1 ⟨'?', 0⟩ 0).hand.map Card.rank = [INVALID] ∧
    PlayerEngine.process_new_round_message "NEWROUND0".toList
        (PlayerEngine.setup_game 2 0 2 1 ⟨'?', 0⟩ 0)
      = (false, { PlayerEngine.setup_game 2 0 2 1 ⟨'?', 0⟩ 0 with
          leadPlayer := 0, playerCount := 0 }) ∧
    PlayerEngine.handle_message Alice.choose_card "NEWROUND0".toList
        (PlayerEngine.setup_game 2 0 2 1 ⟨'?', 0⟩ 0)
      = .ok (false, PlayerEngine.play_turn Alice.choose_card
          { PlayerEngine.setup_game 2 0 2 1 ⟨'?', 0⟩ 0 with leadPlayer := 0, playerCount := 0 }) ∧
    (PlayerEngine.accept_all Alice.choose_card ["NEWROUND0".toList]
        (PlayerEngine.setup_game 2 0 2 1 ⟨'?', 0⟩ 0)).map (fun g => g.stdout.length) = some 1 ∧
    Alice.choose_card
        { PlayerEngine.setup_game 2 0 2 1 ⟨'?', 0⟩ 0 with leadPlayer := 0, playerCount := 0 }
      = -1 ∧
    Bob.choose_card
        { PlayerEngine.setup_game 2 0 2 1 ⟨'?', 0⟩ 0 with leadPlayer := 0, playerCount := 0 }
      = -1 ∧
    (PlayerEngine.accept_all Alice.choose_card ["HAND1,H2".toList, "NEWROUND0".toList]
        (PlayerEngine.setup_game 2 0 2 1 ⟨'?', 0⟩ 0)).map
          (fun g => (g.hand, g.turnsRemaining, g.stdout))
      = some ([⟨'H', INVALID⟩], 1, ["PLAYH2".toList]) ∧
    (PlayerEngine.accept_all Alice.choose_card
        ["HAND1,H2".toList, "NEWROUND0".toList, "NEWROUND0".toList]
        (PlayerEngine.setup_game 2 0 2 1 ⟨'?', 0⟩ 0)).map
          (fun g => (g.hand, g.stdout.length))
      = some ([⟨'H', INVALID⟩], 2) ∧
    (PlayerEngine.accept_all Alice.choose_card ["HAND1,H2".toList, "NEWROUND0".toList]
        (PlayerEngine.setup_game 2 0 2 1 ⟨'?', 0⟩ 0)).map
          (fun g => Alice.choose_card { g with leadPlayer := 0, playerCount := 0 })
      = some (-1) ∧
    (PlayerEngine.accept_all Bob.choose_card ["HAND1,H2".toList, "NEWROUND0".toList]
        (PlayerEngine.setup_game 2 0 2 1 ⟨'?', 0⟩ 0)).map
          (fun g => Bob.choose_card { g with leadPlayer := 0, playerCount := 0 })
      = some (-1) :=
  ⟨rfl, rfl, rfl, rfl, rfl, rfl, rfl, rfl, rfl, rfl⟩

/-! ## The searches for the highest and the lowest card of a suit -/

namespace PlayerEngine

/-- C23: for every hand and suit in which the unplayed cards of the suit have a
rank of at least `MIN_RANK` (as every card has), `find_highest_suit` returns
-1 iff no slot below `handSize` holds an unplayed card of the suit; otherwise
it returns an index `i` in `[0, handSize)` whose slot is unplayed, has the
suit, has the maximum rank among the unplayed cards of the suit, and is the
smallest such index (every earlier unplayed card of the suit has a lower
rank). -/
theorem find_highest_suit_spec (game : Game) (suit : Char)
    (hranks : ∀ j, j < game.handSize.toNat → (game.hand.getD j default).rank ≠ INVALID →
      (game.hand.getD j default).suit = suit → MIN_RANK ≤ (game.hand.getD j default).rank) :
    (find_highest_suit game suit = -1 ↔
      ∀ j, j < game.handSize.toNat → (game.hand.getD j default).rank ≠ INVALID →
        (game.hand.getD j default).suit ≠ suit) ∧
    (find_highest_suit game suit ≠ -1 →
      ∃ i : Nat, find_highest_suit game suit = (i : Int) ∧ (i : Int) < game.handSize ∧
        (game.hand.getD i default).rank ≠ INVALID ∧ (game.hand.getD i default).suit = suit ∧
        (∀ k, k < game.handSize.toNat → (game.hand.getD k default).rank ≠ INVALID →
          (game.hand.getD k default).suit = suit →
          (game.hand.getD k default).rank ≤ (game.hand.getD i default).rank) ∧
        (∀ k, k < i → (game.hand.getD k default).rank ≠ INVALID →
          (game.hand.getD k default).suit = suit →
          (game.hand.getD k default).rank < (game.hand.getD i default).rank)) := by
  unfold find_highest_suit
  unfold INVALID MIN_RANK at hranks
  rcases find_highest_inv game suit game.handSize.toNat with
    ⟨hst, hnone⟩ | ⟨j, hj, hst, hjr, hjs, hmax, hfirst⟩
  · rw [hst]
    unfold INVALID
    refine ⟨⟨fun _ k hk hkr hks => ?_, fun _ => rfl⟩, fun h => absurd rfl h⟩
    have h1 := hnone k hk hkr hks
    have h2 := hranks k hk hkr hks
    omega
  · rw [hst]
    unfold INVALID
    dsimp only
    refine ⟨⟨fun h => ?_, fun h => absurd hjs (h j hj hjr)⟩, fun _ => ?_⟩
    · omega
    · exact ⟨j, rfl, by omega, hjr, hjs, hmax, hfirst⟩

/-- Witness for `find_highest_suit_spec`: in the hand H2 S7 S7 and a played
slot, the highest card of suit S is found at index 1, the first of the two
S7, and no card of suit D is found. -/
theorem find_highest_suit_spec_witness :
    (find_highest_suit
        { numPlayers := 2, playerID := 1, threshold := 2, handSize := 4, turnsRemaining := 3,
          hand := [⟨'H', 2⟩, ⟨'S', 7⟩, ⟨'S', 7⟩, ⟨'S', -1⟩], leadPlayer := 0,
          turn := [⟨'S', 0⟩, ⟨'?', 0⟩], playerPoints := [0, 0], dWon := [0, 0], playerCount := 1,
          stdout := [] } 'S' = 1) ∧
    (find_highest_suit
        { numPlayers := 2, playerID := 1, threshold := 2, handSize := 4, turnsRemaining := 3,
          hand := [⟨'H', 2⟩, ⟨'S', 7⟩, ⟨'S', 7⟩, ⟨'S', -1⟩], leadPlayer := 0,
          turn := [⟨'S', 0⟩, ⟨'?', 0⟩], playerPoints := [0, 0], dWon := [0, 0], playerCount := 1,
          stdout := [] } 'D' = -1) :=
  ⟨by decide,
    (find_highest_suit_spec
      { numPlayers := 2, playerID := 1, threshold := 2, handSize := 4, turnsRemaining := 3,
        hand := [⟨'H', 2⟩, ⟨'S', 7⟩, ⟨'S', 7⟩, ⟨'S', -1⟩], leadPlayer := 0,
        turn := [⟨'S', 0⟩, ⟨'?', 0⟩], playerPoints := [0, 0], dWon := [0, 0], playerCount := 1,
        stdout := [] } 'D' (by decide)).1.mpr (by decide)⟩

/-- C24: for every hand and suit in which the unplayed cards of the suit have a
rank of at most `MAX_RANK` (as every card has), `find_lowest_suit` returns -1
iff no slot below `handSize` holds an unplayed card of the suit; otherwise it
returns an index `i` in `[0, handSize)` whose slot is unplayed, has the suit,
has the minimum rank among the unplayed cards of the suit, and is the smallest
such index (every earlier unplayed card of the suit has a higher rank). -/
theorem find_lowest_suit_spec (game : Game) (suit : Char)
    (hranks : ∀ j, j < game.handSize.toNat → (game.hand.getD j default).rank ≠ INVALID →
      (game.hand.getD j default).suit = suit → (game.hand.getD j default).rank ≤ MAX_RANK) :
    (find_lowest_suit game suit = -1 ↔
      ∀ j, j < game.handSize.toNat → (game.hand.getD j default).rank ≠ INVALID →
        (game.hand.getD j default).suit ≠ suit) ∧
    (find_lowest_suit game suit ≠ -1 →
      ∃ i : Nat, find_lowest_suit game suit = (i : Int) ∧ (i : Int) < game.handSize ∧
        (game.hand.getD i default).rank ≠ INVALID ∧ (game.hand.getD i default).suit = suit ∧
        (∀ k, k < game.handSize.toNat → (game.hand.getD k default).rank ≠ INVALID →
          (game.hand.getD k default).suit = suit →
          (game.hand.getD i default).rank ≤ (game.hand.getD k default).rank) ∧
        (∀ k, k < i → (game.hand.getD k default).rank ≠ INVALID →
          (game.hand.getD k default).suit = suit →
          (game.hand.getD i default).rank < (game.hand.getD k default).rank)) := by
  unfold find_lowest_suit
  unfold INVALID MAX_RANK at hranks
  rcases find_lowest_inv game suit game.handSize.toNat with
    ⟨hst, hnone⟩ | ⟨j, hj, hst, hjr, hjs, hmin, hfirst⟩
  · rw [hst]
    unfold INVALID
    refine ⟨⟨fun _ k hk hkr hks => ?_, fun _ => rfl⟩, fun h => absurd rfl h⟩
    have h1 := hnone k hk hkr hks
    have h2 := hranks k hk hkr hks
    omega
  · rw [hst]
    unfold INVALID
    dsimp only
    refine ⟨⟨fun h => ?_, fun h => absurd hjs (h j hj hjr)⟩, fun _ => ?_⟩
    · omega
    · exact ⟨j, rfl, by omega, hjr, hjs, hmin, hfirst⟩

/-- Witness for `find_lowest_suit_spec`: in the hand H2 S7 S3 S3 and a played
slot, the lowest card of suit S is found at index 2, the first of the two S3,
and no card of suit D is found. -/
theorem find_lowest_suit_spec_witness :
    (find_lowest_suit
        { numPlayers := 2, playerID := 1, threshold := 2, handSize := 5, turnsRemaining := 4,
          hand := [⟨'H', 2⟩, ⟨'S', 7⟩, ⟨'S', 3⟩, ⟨'S', 3⟩, ⟨'S', -1⟩], leadPlayer := 0,
          turn := [⟨'S', 0⟩, ⟨'?', 0⟩], playerPoints := [0, 0], dWon := [0, 0], playerCount := 1,
          stdout := [] } 'S' = 2) ∧
    (find_lowest_suit
        { numPlayers := 2, playerID := 1, threshold := 2, handSize := 5, turnsRemaining := 4,
          hand := [⟨'H', 2⟩, ⟨'S', 7⟩, ⟨'S', 3⟩, ⟨'S', 3⟩, ⟨'S', -1⟩], leadPlayer := 0,
          turn := [⟨'S', 0⟩, ⟨'?', 0⟩], playerPoints := [0, 0], dWon := [0, 0], playerCount := 1,
          stdout := [] } 'D' = -1) :=
  ⟨by decide,
    (find_lowest_suit_spec
      { numPlayers := 2, playerID := 1, threshold := 2, handSize := 5, turnsRemaining := 4,
        hand := [⟨'H', 2⟩, ⟨'S', 7⟩, ⟨'S', 3⟩, ⟨'S', 3⟩, ⟨'S', -1⟩], leadPlayer := 0,
        turn := [⟨'S', 0⟩, ⟨'?', 0⟩], playerPoints := [0, 0], dWon := [0, 0], playerCount := 1,
        stdout := [] } 'D' (by decide)).1.mpr (by decide)⟩

end PlayerEngine

/-! ## An honest play is accepted by the hub -/

/-- What the two policies choose: with one unplayed card in the hand and
well-formed unplayed cards, a slot below `handSize` that is unplayed; and, for
a player who does not lead and holds an unplayed card of the lead suit, a card
of the lead suit. -/
theorem policy_choice (choose_card : PlayerEngine.Game → Int)
    (hpolicy : choose_card = Alice.choose_card ∨ choose_card = Bob.choose_card)
    (game : PlayerEngine.Game)
    (hvalid : ∀ j, j < game.handSize.toNat → (game.hand.getD j default).rank ≠ INVALID →
      isSuit (game.hand.getD j default).suit = true ∧ 0 ≤ (game.hand.getD j default).rank ∧
        (game.hand.getD j default).rank ≤ 15)
    (hex : ∃ j, j < game.handSize.toNat ∧ (game.hand.getD j default).rank ≠ INVALID) :
    (∃ i : Nat, choose_card game = (i : Int) ∧ i < game.handSize.toNat ∧
      (game.hand.getD i default).rank ≠ INVALID) ∧
    (game.playerID ≠ game.leadPlayer →
      (∃ j, j < game.handSize.toNat ∧ (game.hand.getD j default).rank ≠ INVALID ∧
        (game.hand.getD j default).suit = (PlayerEngine.aget game.turn game.leadPlayer).suit) →
      (PlayerEngine.aget game.hand (choose_card game)).suit
        = (PlayerEngine.aget game.turn game.leadPlayer).suit) := by
  have hmem : ∀ (suits : List Char), ('D' ∈ suits ∧ 'C' ∈ suits ∧ 'H' ∈ suits ∧ 'S' ∈ suits) →
      ∀ c, isSuit c = true → c ∈ suits := by
    intro suits hs c hc
    rcases (PlayerEngine.isSuit_iff c).mp hc with h | h | h | h <;> rw [h]
    · exact hs.1
    · exact hs.2.1
    · exact hs.2.2.1
    · exact hs.2.2.2
  -- an index in range with an unplayed slot, as a natural number
  have hnat : ∀ r : Int, (0 ≤ r ∧ r < game.handSize ∧
      (PlayerEngine.aget game.hand r).rank ≠ INVALID) →
      ∃ i : Nat, r = (i : Int) ∧ i < game.handSize.toNat ∧
        (game.hand.getD i default).rank ≠ INVALID := by
    intro r hr
    obtain ⟨h0, h1, h2⟩ := hr
    refine ⟨r.toNat, (Int.toNat_of_nonneg h0).symm, by omega, ?_⟩
    unfold PlayerEngine.aget at h2
    rw [if_pos h0] at h2
    exact h2
  have hsearch : ∀ (suits : List Char),
      ('D' ∈ suits ∧ 'C' ∈ suits ∧ 'H' ∈ suits ∧ 'S' ∈ suits) → _ :=
    fun suits hs => PlayerEngine.first_choice_valid game suits (hmem suits hs) hvalid hex
  have hlow : ∀ s, PlayerEngine.find_lowest_suit game s ≠ INVALID →
      ∃ i : Nat, PlayerEngine.find_lowest_suit game s = (i : Int) ∧ i < game.handSize.toNat ∧
        (game.hand.getD i default).rank ≠ INVALID :=
    fun s h => hnat _ ⟨(PlayerEngine.find_lowest_found game s h).1,
      (PlayerEngine.find_lowest_found game s h).2.1,
      (PlayerEngine.find_lowest_found game s h).2.2.1⟩
  have hhigh : ∀ s, PlayerEngine.find_highest_suit game s ≠ INVALID →
      ∃ i : Nat, PlayerEngine.find_highest_suit game s = (i : Int) ∧ i < game.handSize.toNat ∧
        (game.hand.getD i default).rank ≠ INVALID :=
    fun s h => hnat _ ⟨(PlayerEngine.find_highest_found game s h).1,
      (PlayerEngine.find_highest_found game s h).2.1,
      (PlayerEngine.find_highest_found game s h).2.2.1⟩
  have hleadLow : (∃ j, j < game.handSize.toNat ∧ (game.hand.getD j default).rank ≠ INVALID ∧
        (game.hand.getD j default).suit = (PlayerEngine.aget game.turn game.leadPlayer).suit) →
      PlayerEngine.find_lowest_suit game (PlayerEngine.aget game.turn game.leadPlayer).suit
        ≠ INVALID := by
    rintro ⟨j, hj, hjr, hjs⟩
    exact PlayerEngine.find_lowest_exists game _ ⟨j, hj, hjr, hjs, (hvalid j hj hjr).2.2⟩
  have hleadHigh : (∃ j, j < game.handSize.toNat ∧ (game.hand.getD j default).rank ≠ INVALID ∧
        (game.hand.getD j default).suit = (PlayerEngine.aget game.turn game.leadPlayer).suit) →
      PlayerEngine.find_highest_suit game (PlayerEngine.aget game.turn game.leadPlayer).suit
        ≠ INVALID := by
    rintro ⟨j, hj, hjr, hjs⟩
    exact PlayerEngine.find_highest_exists game _ ⟨j, hj, hjr, hjs, (hvalid j hj hjr).2.1⟩
  rcases hpolicy with hp | hp
  · -- alice
    rw [hp]
    have hfollow : ∃ i : Nat, Alice.follow game = (i : Int) ∧ i < game.handSize.toNat ∧
        (game.hand.getD i default).rank ≠ INVALID := by
      unfold Alice.follow
      split_ifs with h1
      · exact hlow _ h1
      · obtain ⟨i, hi, hq⟩ := (hsearch ['D', 'H', 'S', 'C'] (by decide)).1
        rw [hi]
        exact hnat i hq
    constructor
    · unfold Alice.choose_card
      split_ifs with h1
      · obtain ⟨i, hi, hq⟩ := (hsearch ['S', 'C', 'D', 'H'] (by decide)).1
        rw [hi]
        exact hnat i hq
      · exact hfollow
    · intro hturn hlead
      have hl := hleadLow hlead
      have hl1 : PlayerEngine.find_lowest_suit game
          (PlayerEngine.aget game.turn game.leadPlayer).suit ≠ -1 := hl
      unfold Alice.choose_card
      rw [if_neg hturn]
      unfold Alice.follow
      rw [if_pos hl1]
      exact (PlayerEngine.find_lowest_found game _ hl).2.2.2
  · -- bob
    rw [hp]
    have hfollow : ∃ i : Nat, Bob.follow game = (i : Int) ∧ i < game.handSize.toNat ∧
        (game.hand.getD i default).rank ≠ INVALID := by
      unfold Bob.follow
      split_ifs with h1 h2 h3
      · exact hhigh _ h2
      · obtain ⟨i, hi, hq⟩ := (hsearch ['S', 'C', 'H', 'D'] (by decide)).2
        rw [hi]
        exact hnat i hq
      · exact hlow _ h3
      · obtain ⟨i, hi, hq⟩ := (hsearch ['S', 'C', 'D', 'H'] (by decide)).1
        rw [hi]
        exact hnat i hq
    constructor
    · unfold Bob.choose_card
      split_ifs with h1
      · obtain ⟨i, hi, hq⟩ := (hsearch ['D', 'H', 'S', 'C'] (by decide)).2
        rw [hi]
        exact hnat i hq
      · exact hfollow
    · intro hturn hlead
      have hl := hleadLow hlead
      have hh := hleadHigh hlead
      unfold Bob.choose_card
      rw [if_neg hturn]
      unfold Bob.follow
      split_ifs
      · exact (PlayerEngine.find_highest_found game _ hh).2.2.2
      · exact (PlayerEngine.find_lowest_found game _ hl).2.2.2

/-- The hub reads the PLAY line that a player prints for a card as that card
and goes on to the rule check. -/
theorem get_play_of_play_line (game : Hub.Game) (player : Nat) (rest : List Line)
    (suit : Char) (rank : Int) (hs : isSuit suit = true) (h0 : 0 ≤ rank) (h15 : rank ≤ 15)
    (hread : (game.player player).read = PlayerEngine.play_line ⟨suit, rank⟩ :: rest) :
    Hub.get_play game player
      = Hub.get_play_check (game.updPlayer player (fun p => { p with read := rest }))
          player suit rank.toNat := by
  unfold Hub.get_play
  rw [hread]
  simp only [sscanf_PLAY_play_line suit rank h0 h15]
  have hr : ¬ ((2 : Int) ≠ 2 ∨ rank.toNat < Libc.toUInt32 MIN_RANK
      ∨ rank.toNat > Libc.toUInt32 MAX_RANK ∨ isSuit suit = false) := by
    have e0 : Libc.toUInt32 MIN_RANK = 0 := rfl
    have e15 : Libc.toUInt32 MAX_RANK = 15 := rfl
    rw [e0, e15, hs]
    simp only [ne_eq, not_true_eq_false, Nat.not_lt_zero, false_or, Bool.true_eq_false,
      or_false, not_lt, ge_iff_le]
    omega
  rw [if_neg hr]

/-- C25: honest play is legal.  Let the player engine `pl` be seat `p` of the
hub game `hub`, with the same hand size and the same lead seat; let the
unplayed cards of its hand be the unplayed cards of the hand that the hub holds
for seat `p` (whose slots are well formed), at least one; and, when `p` does
not lead, let the lead suit that the player sees, `turn[leadPlayer].suit`, be
the suit of the lead card `round[0]` of the hub.  Then the line that
`play_turn` prints for the card chosen by `choose_card` (alice or bob), read by
the hub from seat `p`, is accepted by `get_play`: it returns a slot that holds
the chosen card, and quits neither with INV_MESSAGE nor with
INV_CARD_CHOICE. -/
theorem honest_play_accepted (choose_card : PlayerEngine.Game → Int)
    (hpolicy : choose_card = Alice.choose_card ∨ choose_card = Bob.choose_card)
    (hub : Hub.Game) (pl : PlayerEngine.Game) (p : Nat) (more : List Line)
    (hid : pl.playerID = (p : Int))
    (hsize : pl.handSize = (hub.handSize : Int))
    (hseat : pl.leadPlayer = (hub.leadPlayer : Int))
    (hsuit : p ≠ hub.leadPlayer →
      isSuit (hub.round.getD 0 default).suit = true ∧
      (PlayerEngine.aget pl.turn pl.leadPlayer).suit = (hub.round.getD 0 default).suit)
    (hslots : ∀ k, k < hub.handSize → Hub.slot_ok ((hub.player p).hand.getD k default))
    (hsame1 : ∀ j, j < hub.handSize → (pl.hand.getD j default).rank ≠ INVALID →
      ∃ k, k < hub.handSize ∧ (hub.player p).hand.getD k default = pl.hand.getD j default)
    (hsame2 : ∀ k, k < hub.handSize → ¬ Hub.played ((hub.player p).hand.getD k default) →
      ∃ j, j < hub.handSize ∧ (pl.hand.getD j default).rank ≠ INVALID ∧
        pl.hand.getD j default = (hub.player p).hand.getD k default)
    (hcard : ∃ j, j < hub.handSize ∧ (pl.hand.getD j default).rank ≠ INVALID)
    (hread : (hub.player p).read
      = (PlayerEngine.play_turn choose_card pl).stdout.drop pl.stdout.length ++ more) :
    ∃ idx, idx < hub.handSize ∧
      (hub.player p).hand.getD idx default = PlayerEngine.aget pl.hand (choose_card pl) ∧
      Hub.get_play hub p = .ok (hub.updPlayer p (fun q => { q with read := more }), idx) := by
  have hH : pl.handSize.toNat = hub.handSize := by
    rw [hsize]
    exact Int.toNat_ofNat _
  have hvalid : ∀ j, j < pl.handSize.toNat → (pl.hand.getD j default).rank ≠ INVALID →
      isSuit (pl.hand.getD j default).suit = true ∧ 0 ≤ (pl.hand.getD j default).rank ∧
        (pl.hand.getD j default).rank ≤ 15 := by
    intro j hj hr
    rw [hH] at hj
    obtain ⟨k, hk, hkc⟩ := hsame1 j hj hr
    have hs := hslots k hk
    rw [hkc] at hs
    rcases hs with hok | hpl
    · exact hok
    · unfold Hub.played at hpl
      rw [hpl] at hr
      exact absurd rfl hr
  obtain ⟨⟨i, hci, hi, hir⟩, hfollow⟩ :=
    policy_choice choose_card hpolicy pl hvalid (by rw [hH]; exact hcard)
  have hchosen : PlayerEngine.aget pl.hand (choose_card pl) = pl.hand.getD i default := by
    rw [hci]
    exact PlayerEngine.aget_natCast _ _
  obtain ⟨cs, c0, c15⟩ := hvalid i hi hir
  rw [hH] at hi
  obtain ⟨k, hk, hkc⟩ := hsame1 i hi hir
  rw [hchosen]
  generalize pl.hand.getD i default = c at hir cs c0 c15 hkc hchosen
  -- the line that the hub reads
  have hout : (PlayerEngine.play_turn choose_card pl).stdout.drop pl.stdout.length
      = [PlayerEngine.play_line c] := by
    unfold PlayerEngine.play_turn
    dsimp only
    rw [List.drop_left, hchosen]
  rw [hout] at hread
  have hread2 : (hub.player p).read = PlayerEngine.play_line ⟨c.suit, c.rank⟩ :: more := hread
  have hgp := get_play_of_play_line hub p more c.suit c.rank cs c0 c15 hread2
  have hlen : p < hub.players.length := by
    by_contra hge
    rw [Hub.player_of_length_le hub p (Nat.le_of_not_lt hge)] at hread2
    have hd : (default : Hub.Player).read = [] := rfl
    rw [hd] at hread2
    exact List.noConfusion hread2
  obtain ⟨game1, hg1⟩ :
      ∃ g, g = hub.updPlayer p (fun q : Hub.Player => { q with read := more }) := ⟨_, rfl⟩
  rw [← hg1] at hgp ⊢
  have hHand : (game1.player p).hand = (hub.player p).hand := by
    rw [hg1, Hub.player_updPlayer_self hub p _ hlen]
  have hS : game1.handSize = hub.handSize := by rw [hg1]; rfl
  have hR : game1.round = hub.round := by rw [hg1]; rfl
  have hL : game1.leadPlayer = hub.leadPlayer := by rw [hg1]; rfl
  have hrank : ((c.rank.toNat : Nat) : Int) = c.rank := Int.toNat_of_nonneg c0
  have hcEq : (hub.player p).hand.getD k default = ⟨c.suit, ((c.rank.toNat : Nat) : Int)⟩ := by
    rw [hkc, hrank]
  have hunplayed : ¬ Hub.played ((hub.player p).hand.getD k default) := by
    rw [hkc]
    exact Hub.not_played_of_isSuit c cs
  have spec := (Hub.get_play_check_spec game1 p c.suit c.rank.toNat cs (by omega)
    (by rw [hHand, hS]; exact hslots)
    (by
      rw [hL, hR]
      intro hne hz
      have h1 := (hsuit hne).1
      rw [hz] at h1
      exact absurd h1 (by decide))).1
  rw [hHand, hS, hR, hL, ← hgp] at spec
  have hlegal : p = hub.leadPlayer ∨ c.suit = (hub.round.getD 0 default).suit ∨
      ¬ ∃ i, i < hub.handSize ∧ ¬ Hub.played ((hub.player p).hand.getD i default) ∧
        ((hub.player p).hand.getD i default).suit = (hub.round.getD 0 default).suit := by
    by_cases hl : p = hub.leadPlayer
    · exact Or.inl hl
    · by_cases hsu : c.suit = (hub.round.getD 0 default).suit
      · exact Or.inr (Or.inl hsu)
      · refine Or.inr (Or.inr ?_)
        rintro ⟨m, hm, hmun, hms⟩
        obtain ⟨j, hj, hjr, hjc⟩ := hsame2 m hm hmun
        have hturn : pl.playerID ≠ pl.leadPlayer := by
          rw [hid, hseat]
          intro h
          exact hl (by exact_mod_cast h)
        have hview := (hsuit hl).2
        have := hfollow hturn ⟨j, by rw [hH]; exact hj, hjr, by rw [hjc, hms, hview]⟩
        rw [hchosen, hview] at this
        exact hsu this
  obtain ⟨idx, hidx, hidxc, hok⟩ := spec ⟨⟨k, hk, hunplayed, hcEq⟩, hlegal⟩
  refine ⟨idx, hidx, ?_, hok⟩
  rw [hidxc, hrank]

/-- Witness for `honest_play_accepted`: seat 1 of 2 holds H2 H3, seat 0 has led
S0; alice chooses H3 and the hub accepts `PLAYH3` as slot 1. -/
theorem honest_play_accepted_witness :
    ∃ idx, idx < 2 ∧
      ([⟨'H', 2⟩, ⟨'H', 3⟩] : List Card).getD idx default = ⟨'H', 3⟩ ∧
      Hub.get_play
        { numPlayers := 2
          players := [⟨0, 0, ["PLAYS1".toList], [], [⟨'z', -1⟩, ⟨'S', 1⟩]⟩,
                      ⟨0, 0, ["PLAYH3".toList], [], [⟨'H', 2⟩, ⟨'H', 3⟩]⟩]
          deckSize := 4
          deck := [⟨'S', 0⟩, ⟨'S', 1⟩, ⟨'H', 2⟩, ⟨'H', 3⟩]
          threshold := 2
          leadPlayer := 0
          handSize := 2
          round := [⟨'S', 0⟩, ⟨'?', 0⟩]
          stdout := [] } 1
        = .ok
          ({ numPlayers := 2
             players := [⟨0, 0, ["PLAYS1".toList], [], [⟨'z', -1⟩, ⟨'S', 1⟩]⟩,
                         ⟨0, 0, [], [], [⟨'H', 2⟩, ⟨'H', 3⟩]⟩]
             deckSize := 4
             deck := [⟨'S', 0⟩, ⟨'S', 1⟩, ⟨'H', 2⟩, ⟨'H', 3⟩]
             threshold := 2
             leadPlayer := 0
             handSize := 2
             round := [⟨'S', 0⟩, ⟨'?', 0⟩]
             stdout := [] }, idx) :=
  honest_play_accepted Alice.choose_card (Or.inl rfl)
    { numPlayers := 2
      players := [⟨0, 0, ["PLAYS1".toList], [], [⟨'z', -1⟩, ⟨'S', 1⟩]⟩,
                  ⟨0, 0, ["PLAYH3".toList], [], [⟨'H', 2⟩, ⟨'H', 3⟩]⟩]
      deckSize := 4
      deck := [⟨'S', 0⟩, ⟨'S', 1⟩, ⟨'H', 2⟩, ⟨'H', 3⟩]
      threshold := 2
      leadPlayer := 0
      handSize := 2
      round := [⟨'S', 0⟩, ⟨'?', 0⟩]
      stdout := [] }
    { numPlayers := 2, playerID := 1, threshold := 2, handSize := 2, turnsRemaining := 2,
      hand := [⟨'H', 2⟩, ⟨'H', 3⟩], leadPlayer := 0, turn := [⟨'S', 0⟩, ⟨'?', 0⟩],
      playerPoints := [0, 0], dWon := [0, 0], playerCount := 1, stdout := [] }
    1 [] rfl rfl rfl (by decide) (by decide) (by decide) (by decide) (by decide) rfl

/-! ## The diamonds of a game -/

namespace Hub

/-- Marking a slot as played takes its card out of the count of the cards of
suit D of the hand. -/
theorem countD_mark (hand : List Card) (idx : Nat) (hin : idx < hand.length) (h : Nat) :
    (List.range h).countP
        (fun i => decide (((hand.set idx ⟨'z', INVALID⟩).getD i default).suit = 'D'))
      + (if idx < h ∧ (hand.getD idx default).suit = 'D' then 1 else 0)
    = (List.range h).countP (fun i => decide ((hand.getD i default).suit = 'D')) := by
  induction h with
  | zero =>
    rw [if_neg (fun hc => absurd hc.1 (Nat.not_lt_zero idx))]
    rfl
  | succ h ih =>
    rw [List.range_succ, List.countP_append, List.countP_append, List.countP_singleton,
      List.countP_singleton]
    by_cases hk : idx = h
    · subst hk
      have h1 : (hand.set idx ⟨'z', INVALID⟩).getD idx default = ⟨'z', INVALID⟩ := by
        rw [List.getD_eq_getElem?_getD, List.getElem?_set, if_pos rfl, if_pos hin]
        rfl
      have e1 : (if decide (((hand.set idx ⟨'z', INVALID⟩).getD idx default).suit = 'D') = true
          then 1 else 0) = 0 := by
        rw [h1]
        rfl
      have e2 : (if idx < idx ∧ (hand.getD idx default).suit = 'D' then 1 else 0) = 0 :=
        if_neg (fun hc => absurd hc.1 (Nat.lt_irrefl idx))
      have e3 : (if idx < idx + 1 ∧ (hand.getD idx default).suit = 'D' then 1 else 0)
          = (if decide ((hand.getD idx default).suit = 'D') = true then 1 else 0) := by
        by_cases hd : (hand.getD idx default).suit = 'D'
        · rw [if_pos ⟨Nat.lt_succ_self idx, hd⟩, if_pos (decide_eq_true hd)]
        · rw [if_neg (fun hc => hd hc.2), if_neg (fun hc => hd (of_decide_eq_true hc))]
      rw [e2] at ih
      rw [e1, e3]
      omega
    · have h1 : (hand.set idx ⟨'z', INVALID⟩).getD h default = hand.getD h default := by
        rw [List.getD_eq_getElem?_getD, List.getElem?_set, if_neg hk,
          ← List.getD_eq_getElem?_getD]
      have e3 : (if idx < h + 1 ∧ (hand.getD idx default).suit = 'D' then 1 else 0)
          = (if idx < h ∧ (hand.getD idx default).suit = 'D' then 1 else 0) := by
        by_cases hd : idx < h ∧ (hand.getD idx default).suit = 'D'
        · rw [if_pos hd, if_pos ⟨Nat.lt_succ_of_lt hd.1, hd.2⟩]
        · rw [if_neg hd, if_neg (fun hc => hd ⟨by omega, hc.2⟩)]
      rw [h1, e3]
      omega

/-- A sum over the seats when the summand changes at one seat only. -/
theorem sum_map_range_update (f g : Nat → Nat) (cur d : Nat)
    (hother : ∀ j, j ≠ cur → g j = f j) (hat : g cur + d = f cur) (n : Nat) :
    ((List.range n).map g).sum + (if cur < n then d else 0) = ((List.range n).map f).sum := by
  induction n with
  | zero => rfl
  | succ n ih =>
    rw [List.range_succ, List.map_append, List.map_append, List.sum_append, List.sum_append]
    simp only [List.map_cons, List.map_nil, List.sum_cons, List.sum_nil, Nat.add_zero]
    by_cases hk : n = cur
    · subst hk
      rw [if_neg (Nat.lt_irrefl n)] at ih
      rw [if_pos (Nat.lt_succ_self n)]
      omega
    · rw [hother n hk]
      by_cases hlt : cur < n
      · rw [if_pos hlt] at ih
        rw [if_pos (Nat.lt_succ_of_lt hlt)]
        omega
      · rw [if_neg hlt] at ih
        rw [if_neg (by omega)]
        omega

/-- The diamonds in the hands depend on the sizes and on the hands only. -/
theorem diamondsInHands_congr (g1 g2 : Game) (hn : g2.numPlayers = g1.numPlayers)
    (hs : g2.handSize = g1.handSize) (hh : ∀ j, (g2.player j).hand = (g1.player j).hand) :
    diamondsInHands g2 = diamondsInHands g1 := by
  unfold diamondsInHands
  rw [hn]
  congr 1
  apply List.map_congr_left
  intro j _
  unfold diamondsHeld
  rw [hs, hh j]

/-- Games that are equal without their streams hold the same diamonds. -/
theorem diamondsInHands_of_erase_eq {g1 g2 : Game} (h : g1.erase = g2.erase) :
    diamondsInHands g1 = diamondsInHands g2 :=
  diamondsInHands_congr g2 g1 (sameScores_of_erase_eq h).1.symm
    (sameScores_of_erase_eq h).2.2.1.symm (fun j => hand_of_erase_eq h j)

/-- Games that are equal without their streams have the same trick buffer. -/
theorem round_of_erase_eq {g1 g2 : Game} (h : g1.erase = g2.erase) : g1.round = g2.round := by
  have hr : g1.erase.round = g2.erase.round := by rw [h]
  exact hr

/-- Games that are equal without their streams have the same diamond counts. -/
theorem totalDWon_of_erase_eq {g1 g2 : Game} (h : g1.erase = g2.erase) :
    totalDWon g1 = totalDWon g2 := by
  unfold totalDWon
  rw [(sameScores_of_erase_eq h).2.2.2.2.2.2.2.2.2]

/-- One play moves a card from the hand of the current player to position `i`
of the trick buffer: the diamonds in the hands go down by one exactly when the
card has suit D, and the other positions of the buffer are unchanged. -/
theorem play_card_diamonds (game : Game) (i : Nat) (game1 : Game)
    (hcur : (game.leadPlayer + i) % game.numPlayers < game.players.length)
    (hcurn : (game.leadPlayer + i) % game.numPlayers < game.numPlayers)
    (hi : i < game.round.length)
    (h : play_card game i = .ok game1) :
    diamondsInHands game1 + (if (game1.round.getD i default).suit = 'D' then 1 else 0)
      = diamondsInHands game ∧
    (∀ k, k ≠ i → game1.round.getD k default = game.round.getD k default) := by
  obtain ⟨idx, hidx, hsuit, he⟩ := play_card_ok game i game1 h
  rw [← erase_setRound, ← erase_markPlayed] at he
  generalize hcard : (game.player ((game.leadPlayer + i) % game.numPlayers)).hand.getD idx default
    = card at he hsuit
  generalize hc : (game.leadPlayer + i) % game.numPlayers = cur at he hcur hcurn hcard
  have hround : game1.round = game.round.set i card := round_of_erase_eq he
  have hin : idx < (game.player cur).hand.length := by
    by_contra hge
    rw [List.getD_eq_default _ _ (Nat.le_of_not_lt hge)] at hcard
    rw [← hcard] at hsuit
    exact absurd hsuit (by decide)
  have hri : game1.round.getD i default = card := by
    rw [hround, List.getD_eq_getElem?_getD, List.getElem?_set, if_pos rfl, if_pos hi]
    rfl
  constructor
  · rw [hri, diamondsInHands_of_erase_eq he]
    unfold diamondsInHands
    have hnum : ((game.setRound i card).markPlayed cur idx).numPlayers = game.numPlayers := rfl
    rw [hnum]
    have hsum := sum_map_range_update (diamondsHeld game)
      (diamondsHeld ((game.setRound i card).markPlayed cur idx)) cur
      (if card.suit = 'D' then 1 else 0)
      (by
        intro j hj
        unfold diamondsHeld Game.markPlayed
        rw [player_updPlayer_ne (game.setRound i card) cur j _ (Ne.symm hj)]
        rfl)
      (by
        unfold diamondsHeld Game.markPlayed
        rw [player_updPlayer_self (game.setRound i card) cur _ hcur]
        have hp : (game.setRound i card).player cur = game.player cur := rfl
        have hs : (Game.updPlayer (game.setRound i card) cur
            (fun p => { p with hand := p.hand.set idx ⟨'z', INVALID⟩ })).handSize
            = game.handSize := rfl
        rw [hp, hs]
        dsimp only
        have := countD_mark (game.player cur).hand idx hin game.handSize
        rw [hcard] at this
        rw [← this]
        congr 1
        by_cases hd : card.suit = 'D'
        · rw [if_pos hd, if_pos ⟨hidx, hd⟩]
        · rw [if_neg hd, if_neg (fun hc => hd hc.2)])
      game.numPlayers
    rw [if_pos hcurn] at hsum
    exact hsum
  · intro k hk
    rw [hround, List.getD_eq_getElem?_getD, List.getElem?_set, if_neg (Ne.symm hk),
      ← List.getD_eq_getElem?_getD]

end Hub

namespace Hub

/-- The plays at the trick positions `is` move one card each from a hand to the
trick buffer: afterwards the diamonds in the hands and the diamonds at these
positions of the buffer are the diamonds that were in the hands. -/
theorem play_cards_diamonds (is : List Nat) (game game1 : Game) (hn : 1 ≤ game.numPlayers)
    (hlen : game.players.length = game.numPlayers)
    (hnd : is.Nodup) (his : ∀ i, i ∈ is → i < game.round.length)
    (h : play_cards is game = .ok game1) :
    diamondsInHands game1
        + (is.filter (fun i => decide ((game1.round.getD i default).suit = 'D'))).length
      = diamondsInHands game ∧
    (∀ k, k ∉ is → game1.round.getD k default = game.round.getD k default) := by
  induction is generalizing game with
  | nil =>
    unfold play_cards at h
    injection h with h
    rw [h]
    exact ⟨rfl, fun _ _ => rfl⟩
  | cons i is ih =>
    unfold play_cards at h
    cases hc : play_card game i with
    | error e =>
      rw [hc] at h
      exact Except.noConfusion h
    | ok g1 =>
      rw [hc] at h
      obtain ⟨s1, s2, _, _, _, _, s7, s8, _, _⟩ := sameScores_play_card game i g1 hc
      have hseat : (game.leadPlayer + i) % game.numPlayers < game.numPlayers :=
        Nat.mod_lt _ (by omega)
      obtain ⟨d1, d2⟩ := play_card_diamonds game i g1 (by rw [hlen]; exact hseat) hseat
        (his i (List.mem_cons_self i is)) hc
      rw [List.nodup_cons] at hnd
      obtain ⟨e1, e2⟩ := ih g1 (by omega) (by omega) hnd.2
        (fun k hk => by rw [s8]; exact his k (List.mem_cons_of_mem i hk)) h
      have hi1 : game1.round.getD i default = g1.round.getD i default := e2 i hnd.1
      constructor
      · rw [List.filter_cons]
        by_cases hd : (g1.round.getD i default).suit = 'D'
        · rw [if_pos hd] at d1
          rw [hi1, if_pos (decide_eq_true hd), List.length_cons]
          omega
        · rw [if_neg hd] at d1
          rw [hi1, if_neg (fun hc2 => hd (of_decide_eq_true hc2))]
          omega
      · intro k hk
        have hk1 : k ≠ i := fun hc2 => hk (by rw [hc2]; exact List.mem_cons_self i is)
        have hk2 : k ∉ is := fun hc2 => hk (List.mem_cons_of_mem i hc2)
        rw [e2 k hk2, d2 k hk1]

/-- The sum of the diamond counts after `score_round`: the cards of suit D in
the trick buffer have been added. -/
theorem score_round_totalDWon (game : Game) (hw : find_winner game < game.players.length) :
    totalDWon (score_round game) = totalDWon game +
      (((List.range game.numPlayers).filter
        (fun i => decide ((game.round.getD i default).suit = 'D'))).length : Int) := by
  rw [score_round_eq]
  generalize (((List.range game.numPlayers).filter
    (fun i => decide ((game.round.getD i default).suit = 'D'))).length : Int) = k
  generalize find_winner game = w at hw ⊢
  unfold Game.addPoint
  have hcomb : Game.updPlayer { game.updPlayer w (fun p => { p with points := p.points + 1 }) with
        leadPlayer := w } w (fun p => { p with dWon := p.dWon + k })
      = { game.updPlayer w (fun p => { p with points := p.points + 1, dWon := p.dWon + k }) with
        leadPlayer := w } := by
    have := updPlayer_updPlayer game w (fun p => { p with points := p.points + 1 })
      (fun p => { p with dWon := p.dWon + k })
    simp only [Game.updPlayer, Game.player] at this ⊢
    simp only [Game.mk.injEq, true_and, and_true] at this ⊢
    exact this
  rw [hcomb]
  show (List.map Player.dWon (game.players.set w _)).sum = totalDWon game + k
  rw [List.map_set, sum_set_int _ _ _ (by rw [List.length_map]; exact hw)]
  unfold totalDWon
  have e : (game.players.map Player.dWon).getD w 0 = (game.player w).dWon :=
    List.getD_map game.players (default : Player) (n := w) Player.dWon
  rw [e]
  dsimp only
  omega

/-- One trick: every card of suit D that leaves a hand is added to the diamond
count of a player, so the diamond counts and the diamonds in the hands keep
their sum; the sizes of the game are kept. -/
theorem play_hand_diamonds (game game1 : Game) (hn : 1 ≤ game.numPlayers)
    (hlen : game.players.length = game.numPlayers)
    (hround : game.round.length = game.numPlayers)
    (h : play_hand game = .ok game1) :
    totalDWon game1 + diamondsInHands game1 = totalDWon game + diamondsInHands game ∧
    totalDWon game1 = totalDWon game + (game1.round.countP (fun c => decide (c.suit = 'D')) : Int) ∧
    game1.round.length = game.round.length ∧
    (game1.player game1.leadPlayer).dWon = (game.player game1.leadPlayer).dWon
      + (game1.round.countP (fun c => decide (c.suit = 'D')) : Int) ∧
    (∀ j, j ≠ game1.leadPlayer → (game1.player j).dWon = (game.player j).dWon) := by
  obtain ⟨g0, g3, he, hc, hg1⟩ := play_hand_ok game game1 h
  have hs := sameScores_before_score game g0 g3 he hc
  obtain ⟨a1, _, _, _, _, _, a7, a8, _, _⟩ := sameScores_of_erase_eq he
  obtain ⟨c1, c2⟩ := play_cards_diamonds (List.range game.numPlayers) g0 g3 (by omega)
    (by rw [← a7, ← a1]; exact hlen) (List.nodup_range _)
    (fun i hi => by rw [← a8, hround]; exact List.mem_range.mp hi) hc
  have hd0 : diamondsInHands g0 = diamondsInHands game := diamondsInHands_of_erase_eq he
  have hd4 : diamondsInHands (print g3 (cards_text g3)) = diamondsInHands g3 :=
    diamondsInHands_of_erase_eq (erase_print g3 (cards_text g3))
  have hr4 : (print g3 (cards_text g3)).round = g3.round := rfl
  rw [← hr4] at c1
  generalize print g3 (cards_text g3) = g4 at hs hg1 hd4 hr4 c1
  obtain ⟨s1, s2, s3, s4, s5, s6, s7, s8, s9, s10⟩ := id hs
  have hw : find_winner g4 < g4.players.length := by
    rw [s7, hlen, ← s1]
    exact find_winner_lt g4 (by omega)
  obtain ⟨r1, r2, r3, r4, _, _, r7, r8, r9, _⟩ := score_round_spec g4 hw
  have ht := score_round_totalDWon g4 hw
  rw [← hg1] at r1 r2 r3 r4 r7 r8 r9 ht
  have hdh : diamondsInHands game1 = diamondsInHands g4 := diamondsInHands_congr g4 game1 r2 r3 r9
  have ht4 : totalDWon g4 = totalDWon game := by
    unfold totalDWon
    rw [s10]
  have hcount : ((List.range g4.numPlayers).filter
      (fun i => decide ((g4.round.getD i default).suit = 'D'))).length
      = game1.round.countP (fun c => decide (c.suit = 'D')) := by
    have hl : g4.numPlayers = g4.round.length := by rw [s8, hround, s1]
    rw [hl, filter_range_length g4.round (fun c => decide (c.suit = 'D')), r4]
  rw [s1] at ht hcount r7
  rw [hcount] at ht c1 r7
  refine ⟨?_, ?_, ?_, ?_, ?_⟩
  · rw [ht, hdh, ht4, hd4, ← hd0, ← c1]
    push_cast
    omega
  · rw [ht, ht4]
  · rw [r4, s8]
  · rw [r1, r7, dWon_of_sameScores hs]
  · intro j hj
    rw [r1] at hj
    rw [r8 j hj]
    exact dWon_of_sameScores hs j

/-- A number of tricks keep the sum of the diamond counts and the diamonds in
the hands. -/
theorem play_hands_diamonds (n : Nat) (game game1 : Game) (hn : 1 ≤ game.numPlayers)
    (hlen : game.players.length = game.numPlayers)
    (hround : game.round.length = game.numPlayers)
    (h : play_hands n game = .ok game1) :
    totalDWon game1 + diamondsInHands game1 = totalDWon game + diamondsInHands game ∧
    game1.numPlayers = game.numPlayers := by
  induction n generalizing game with
  | zero =>
    unfold play_hands at h
    injection h with h
    rw [h]
    exact ⟨rfl, rfl⟩
  | succ n ih =>
    unfold play_hands at h
    cases hc : play_hand game with
    | error e =>
      rw [hc] at h
      exact Except.noConfusion h
    | ok g1 =>
      rw [hc] at h
      obtain ⟨_, t2, t3, _⟩ := play_hand_hands game g1 hn hlen hc
      obtain ⟨d1, _, d3, _⟩ := play_hand_diamonds game g1 hn hlen hround hc
      obtain ⟨i1, i2⟩ := ih g1 (by omega) (by omega) (by omega) h
      exact ⟨i1.trans d1, i2.trans t2⟩

/-- When every slot of every hand is marked as played, the hands hold no
card of suit D. -/
theorem diamondsInHands_all_played (game : Game)
    (hall : ∀ p i, p < game.numPlayers → i < game.handSize →
      played ((game.player p).hand.getD i default)) :
    diamondsInHands game = 0 := by
  unfold diamondsInHands
  apply List.sum_eq_zero
  intro x hx
  obtain ⟨p, hp, hpx⟩ := List.mem_map.mp hx
  rw [← hpx]
  unfold diamondsHeld
  rw [List.countP_eq_zero]
  intro i hi
  have hpl := hall p i (List.mem_range.mp hp) (List.mem_range.mp hi)
  unfold played at hpl
  rw [hpl]
  decide

/-- After as many tricks as the hands have slots, every slot of every hand is
marked as played. -/
theorem play_hands_all_played (game game1 : Game) (hn : 1 ≤ game.numPlayers)
    (hlen : game.players.length = game.numPlayers)
    (h : play_hands game.handSize game = .ok game1) :
    game1.handSize = game.handSize ∧
    ∀ p i, p < game.numPlayers → i < game.handSize →
      played ((game1.player p).hand.getD i default) := by
  have hsz : game1.handSize = game.handSize := by
    rcases Nat.eq_zero_or_pos game.numPlayers with h0 | _
    · omega
    · exact (play_hands_playedCount _ game game1 hn hlen h 0 (by omega)).2
  refine ⟨hsz, ?_⟩
  intro p i hp hi
  obtain ⟨c1, c2⟩ := play_hands_playedCount _ game game1 hn hlen h p hp
  have hle : playedCount game1 p ≤ game1.handSize := by
    unfold playedCount
    exact (List.countP_le_length _).trans (by rw [List.length_range])
  have hcount : playedCount game1 p = (List.range game1.handSize).length := by
    rw [List.length_range]
    omega
  unfold playedCount at hcount
  have hallp := List.countP_eq_length.mp hcount i
    (List.mem_range.mpr (by rw [c2]; exact hi))
  exact of_decide_eq_true hallp

end Hub

namespace Hub

/-- Counting slice by slice is counting over the whole range. -/
theorem countP_range_mul (q : Nat → Bool) (n h : Nat) :
    ((List.range n).map (fun j => (List.range h).countP (fun i => q (j * h + i)))).sum
      = (List.range (n * h)).countP q := by
  induction n with
  | zero =>
    rw [Nat.zero_mul]
    rfl
  | succ n ih =>
    rw [List.range_succ, List.map_append, List.sum_append, ih, Nat.succ_mul, List.range_add,
      List.countP_append, List.countP_map]
    simp only [List.map_cons, List.map_nil, List.sum_cons, List.sum_nil, Nat.add_zero]
    rfl

/-- The streams that `start_players` connects do not touch the rest of the
game. -/
theorem erase_start_players (game : Game) (peers : List (List Line)) :
    (start_players game peers).erase = game.erase := by
  unfold start_players
  apply erase_foldl
  intro g i
  exact erase_updPlayer_streams g i _ (fun _ => rfl)

/-- After the deal on the state built by `setup_game` and `start_players`, no
player has a diamond count yet and the hands hold the diamonds of the dealt
cards. -/
theorem deal_diamonds (threshold : Int) (deckSize : Nat) (deck : List Card) (numPlayers : Nat)
    (junk : Card) (peers : List (List Line)) :
    totalDWon (deal (start_players (setup_game threshold deckSize deck numPlayers junk) peers))
      = 0 ∧
    diamondsInHands
        (deal (start_players (setup_game threshold deckSize deck numPlayers junk) peers))
      = dealtDiamonds deck numPlayers (deckSize / numPlayers) := by
  have he := erase_start_players (setup_game threshold deckSize deck numPlayers junk) peers
  obtain ⟨s1, _, s3, _, s5, s6, s7, _, _, s10⟩ := sameScores_of_erase_eq he
  generalize start_players (setup_game threshold deckSize deck numPlayers junk) peers = g
    at he s1 s3 s5 s6 s7 s10
  have hnum : g.numPlayers = numPlayers := s1.symm
  have hdsz : g.deckSize = deckSize := s6.symm
  have hdeck : g.deck = deck := s5.symm
  have hlen : g.players.length = numPlayers := by
    rw [← s7]
    simp only [setup_game, List.length_replicate]
  have hhand : ∀ j, j < numPlayers →
      (g.player j).hand = List.replicate (deckSize / numPlayers) junk := by
    intro j hj
    rw [hand_of_erase_eq he j]
    simp only [setup_game, Game.player, List.getD_eq_getElem?_getD, List.getElem?_replicate,
      if_pos hj, Option.getD_some]
  obtain ⟨d1, _, _, _, _, _, _, _, _, d10⟩ := sameScores_deal g
  constructor
  · unfold totalDWon
    rw [d10, ← s10]
    simp only [setup_game, List.map_replicate, List.sum_replicate, smul_zero]
  · obtain ⟨_, _, h3⟩ := deal_loop g (g.deckSize / g.numPlayers) g.numPlayers
      (by rw [hlen, hnum])
    have hp : ∀ j, j < numPlayers → (deal g).player j
        = dealt deck j (deckSize / numPlayers) (g.player j) := by
      intro j hj
      unfold deal
      dsimp only
      rw [h3 j, if_pos (by rw [hnum]; exact hj), hdeck, hdsz, hnum]
    have hsz : (deal g).handSize = deckSize / numPlayers := by
      have : (deal g).handSize = g.handSize := (sameScores_deal g).2.2.1
      rw [this, ← s3]
      rfl
    unfold diamondsInHands dealtDiamonds
    rw [d1, hnum, ← countP_range_mul]
    congr 1
    apply List.map_congr_left
    intro j hj
    unfold diamondsHeld
    rw [hsz]
    apply List.countP_congr
    intro i hi
    have hi1 := List.mem_range.mp hi
    have hj1 := List.mem_range.mp hj
    have hslot : ((deal g).player j).hand.getD i default
        = deck.getD (j * (deckSize / numPlayers) + i) default := by
      rw [hp j hj1]
      unfold dealt
      dsimp only
      rw [getD_foldl_set (fun i => deck.getD (j * (deckSize / numPlayers) + i) default)
        default _ _ i (by rw [hhand j hj1, List.length_replicate]; exact hi1),
        if_pos (List.mem_range.mpr hi1)]
    rw [hslot]

/-- C26: when `play_game` runs to completion on the state built by `setup_game`
and `start_players` (at least one player), the sum of `dWon` over all players
at the end equals the number of cards of suit D among the dealt cards
`deck[0 .. numPlayers * handSize)`, with `handSize = deckSize / numPlayers`.
Every trick adds to the `dWon` of its winner, and of nobody else, exactly the
cards of suit D played in it, and these are the cards of suit D that have left
the hands. -/
theorem total_dWon_eq_dealt_diamonds (threshold : Int) (deckSize : Nat) (deck : List Card)
    (numPlayers : Nat) (junk : Card) (peers : List (List Line)) (final : Game)
    (hn : 1 ≤ numPlayers)
    (h : play_game
      (start_players (setup_game threshold deckSize deck numPlayers junk) peers) = .ok final) :
    totalDWon final = (dealtDiamonds deck numPlayers (deckSize / numPlayers) : Int) ∧
    (∀ g g1 : Game, 1 ≤ g.numPlayers → g.players.length = g.numPlayers →
      g.round.length = g.numPlayers → play_hand g = .ok g1 →
      (g1.player g1.leadPlayer).dWon = (g.player g1.leadPlayer).dWon
        + (g1.round.countP (fun c => decide (c.suit = 'D')) : Int) ∧
      (∀ j, j ≠ g1.leadPlayer → (g1.player j).dWon = (g.player j).dWon) ∧
      diamondsInHands g1 + g1.round.countP (fun c => decide (c.suit = 'D'))
        = diamondsInHands g) := by
  constructor
  · obtain ⟨z1, z2⟩ := deal_diamonds threshold deckSize deck numPlayers junk peers
    have he := erase_start_players (setup_game threshold deckSize deck numPlayers junk) peers
    obtain ⟨s1, _, s3, _, _, s6, s7, s8, _, _⟩ := sameScores_of_erase_eq he
    generalize start_players (setup_game threshold deckSize deck numPlayers junk) peers = g
      at h z1 z2 he s1 s3 s6 s7 s8
    have hnum : g.numPlayers = numPlayers := s1.symm
    have hdsz : g.deckSize = deckSize := s6.symm
    have hsize : g.handSize = deckSize / numPlayers := s3.symm
    have hlen : g.players.length = numPlayers := by
      rw [← s7]
      simp only [setup_game, List.length_replicate]
    have hround : g.round.length = numPlayers := by
      rw [← s8]
      simp only [setup_game, List.length_replicate]
    obtain ⟨g1, g2, hplay, he2, hf⟩ := play_game_ok g final h
    obtain ⟨d1, _, d3, _, _, _, d7, d8, _, _⟩ := sameScores_deal g
    rw [hdsz, hnum] at hplay
    obtain ⟨k1, k2⟩ := play_hands_diamonds _ (deal g) g1 (by omega) (by omega) (by omega) hplay
    have hplay2 : play_hands (deal g).handSize (deal g) = .ok g1 := by
      rw [d3, hsize]
      exact hplay
    obtain ⟨a1, a2⟩ := play_hands_all_played (deal g) g1 (by omega) (by omega) hplay2
    have hzero : diamondsInHands g1 = 0 := by
      apply diamondsInHands_all_played
      intro p i hp hi
      rw [k2] at hp
      rw [a1] at hi
      exact a2 p i hp hi
    have hfin : totalDWon final = totalDWon g1 := by
      rw [hf]
      exact totalDWon_of_erase_eq ((erase_print g2 _).trans he2)
    rw [hzero, z1, z2] at k1
    rw [hfin]
    push_cast at k1
    omega
  · intro g g1 hn1 hlen1 hround1 hplay
    obtain ⟨e1, e2, _, e4, e5⟩ := play_hand_diamonds g g1 hn1 hlen1 hround1 hplay
    refine ⟨e4, e5, ?_⟩
    rw [e2] at e1
    omega

/-- Witness for `total_dWon_eq_dealt_diamonds`: a game of two players with the
deck D1 S1 D2 H3 and threshold 2; both cards of suit D go to player 0, who
leads and wins both tricks. -/
theorem total_dWon_eq_dealt_diamonds_witness :
    ∃ final,
      play_game
        (start_players
          (setup_game 2 4 [⟨'D', 1⟩, ⟨'S', 1⟩, ⟨'D', 2⟩, ⟨'H', 3⟩] 2 ⟨'?', 0⟩)
          [["PLAYD1".toList, "PLAYS1".toList], ["PLAYD2".toList, "PLAYH3".toList]])
        = .ok final ∧
      totalDWon final = 2 ∧
      dealtDiamonds [⟨'D', 1⟩, ⟨'S', 1⟩, ⟨'D', 2⟩, ⟨'H', 3⟩] 2 2 = 2 :=
  ⟨Run.game (play_game
      (start_players
        (setup_game 2 4 [⟨'D', 1⟩, ⟨'S', 1⟩, ⟨'D', 2⟩, ⟨'H', 3⟩] 2 ⟨'?', 0⟩)
        [["PLAYD1".toList, "PLAYS1".toList], ["PLAYD2".toList, "PLAYH3".toList]])),
    rfl,
    (total_dWon_eq_dealt_diamonds 2 4 [⟨'D', 1⟩, ⟨'S', 1⟩, ⟨'D', 2⟩, ⟨'H', 3⟩] 2 ⟨'?', 0⟩
      [["PLAYD1".toList, "PLAYS1".toList], ["PLAYD2".toList, "PLAYH3".toList]]
      (Run.game (play_game
        (start_players
          (setup_game 2 4 [⟨'D', 1⟩, ⟨'S', 1⟩, ⟨'D', 2⟩, ⟨'H', 3⟩] 2 ⟨'?', 0⟩)
          [["PLAYD1".toList, "PLAYS1".toList], ["PLAYD2".toList, "PLAYH3".toList]])))
      (by decide) rfl).1,
    by decide⟩

end Hub
